import Mathlib

/-!
# Meeting relay (`src/call.js`): registry model

A shallow embedding of the Socket.IO relay handlers of `src/call.js`.

* A JavaScript `Map` is an association list in insertion order: `set` on a key that is
  present overwrites the value in place, `set` on a new key appends, `delete` removes the key.
* The two global maps `meetings` and `participants` (the back-reference map) form the `State`.
* A handler is a function from the state, the calling socket id and the payload to the new
  state and the list of emissions, in the order the handler produces them.
* Each handler is modelled as one atomic step (the `await`s on the statistics recorder are not
  interleaving points of the model). The statistics recorder (`recordMeetingStart`,
  `recordMeetingEnd`, `recordMeetingParticipant`), the poll module, and the per-socket fields
  `socket.currentRoom` / `socket.userId` (read only to feed the recorder) touch neither map.
* The client-side negotiation engines (`public/meetingHost/webrtcManager.js`,
  `public/meetingJoin/webrtc-connection.js`) follow the relay; their browser calls take their
  outcome from a `Browser` value.
* The remaining client modules follow: the participant list (`ParticipantManager.js`,
  `ParticipantMeeting.js`), the grid of video tiles (`videoLayout.js`) and screen sharing
  (`webrtcManager.js`, `screen-share.js`).
-/

namespace Relay

abbrev SocketId := String
abbrev MeetingId := String

/-! ## JavaScript `Map` as an insertion-ordered association list -/

/-- `Map.prototype.get`: the value stored under `k`, if any. -/
def jsGet {β : Type} : List (String × β) → String → Option β
  | [], _ => none
  | (k', v) :: rest, k => if k' = k then some v else jsGet rest k

/-- `Map.prototype.has`. -/
def jsHas {β : Type} (m : List (String × β)) (k : String) : Bool :=
  (jsGet m k).isSome

/-- `Map.prototype.set`: overwrite in place when the key is present, append otherwise. -/
def jsSet {β : Type} : List (String × β) → String → β → List (String × β)
  | [], k, v => [(k, v)]
  | (k', v') :: rest, k, v =>
    if k' = k then (k', v) :: rest else (k', v') :: jsSet rest k v

/-- `Map.prototype.delete`. -/
def jsDelete {β : Type} (m : List (String × β)) (k : String) : List (String × β) :=
  m.filter (fun e => decide (e.1 ≠ k))

/-- `Array.from(map.keys())`. -/
def jsKeys {β : Type} (m : List (String × β)) : List String :=
  m.map (fun e => e.1)

/-- Mutate, in place, the first value of the map that satisfies `pred`. -/
def modifyFirst {β : Type} (pred : β → Bool) (f : β → β) :
    List (String × β) → List (String × β)
  | [] => []
  | (k, v) :: rest =>
    if pred v then (k, f v) :: rest else (k, v) :: modifyFirst pred f rest

/-! ## JavaScript strings

A JavaScript string is a sequence of UTF-16 code units. A `String` is a sequence of code points
other than surrogates, so it stands for a well-formed JavaScript string: a code point from
`0x10000` on takes two units, every other one takes one. -/

/-- Whether `String.prototype.trim` strips the code point: the white space of ECMAScript (tab,
vertical tab, form feed, the byte order mark and the space separators of Unicode) and its line
terminators. All of them are single code units. -/
def jsWhiteSpace (c : Char) : Bool :=
  [0x9, 0xA, 0xB, 0xC, 0xD, 0x20, 0xA0, 0x1680, 0x2028, 0x2029, 0x202F, 0x205F, 0x3000,
    0xFEFF].contains c.toNat ||
  (decide (0x2000 ≤ c.toNat) && decide (c.toNat ≤ 0x200A))

/-- `String.prototype.trim`: the string without its leading and trailing white space. -/
def jsTrim (s : String) : String :=
  ⟨((s.data.dropWhile jsWhiteSpace).reverse.dropWhile jsWhiteSpace).reverse⟩

/-- The `length` of a JavaScript string: its number of UTF-16 code units. -/
def jsLength (s : String) : Nat :=
  (s.data.map (fun c => if c.toNat < 0x10000 then 1 else 2)).sum

/-! ## Data model -/

/-- A participant object, with the fields the handlers of `call.js` read or write. -/
structure Participant where
  socketId : SocketId
  name : String
  isHost : Bool
  isCoHost : Bool
  lastHeartbeat : Nat
  deriving DecidableEq, Repr

/-- A meeting object, with the fields the handlers of `call.js` read or write. -/
structure Meeting where
  id : MeetingId
  hostId : SocketId
  hostName : String
  meetingName : String
  isLocked : Bool
  permissions : List (String × Bool)
  participants : List (SocketId × Participant)
  spotlightedParticipant : Option SocketId
  deriving DecidableEq, Repr

/-- A value of the global `participants` map: the back-reference of a connection. -/
structure ParticipantInfo where
  meetingId : MeetingId
  isHost : Bool
  deriving DecidableEq, Repr

/-- The two global maps of `meetingManager.js`. -/
structure State where
  meetings : List (MeetingId × Meeting)
  participants : List (SocketId × ParticipantInfo)
  deriving DecidableEq, Repr

/-- The state of a freshly started relay. -/
def State.empty : State := { meetings := [], participants := [] }

/-- A signalling payload; a field that is `none` is absent from the object. -/
structure Data where
  meetingId : Option String := none
  hostName : Option String := none
  participantName : Option String := none
  meetingName : Option String := none
  userId : Option String := none
  newName : Option String := none
  isLocked : Option Bool := none
  permissions : Option (List (String × Bool)) := none
  reason : Option String := none
  deriving DecidableEq, Repr

/-- Whether the payload carries the named field. -/
def Data.has (d : Data) (field : String) : Bool :=
  if field = "meetingId" then d.meetingId.isSome
  else if field = "hostName" then d.hostName.isSome
  else if field = "participantName" then d.participantName.isSome
  else if field = "meetingName" then d.meetingName.isSome
  else if field = "userId" then d.userId.isSome
  else if field = "newName" then d.newName.isSome
  else if field = "isLocked" then d.isLocked.isSome
  else if field = "permissions" then d.permissions.isSome
  else if field = "reason" then d.reason.isSome
  else false

/-- Where an emission goes: `socket.emit`, `io.to(room).emit`, `socket.to(room).emit`
(the room without the sender) and `io.to(socketId).emit` / `participantSocket.emit`. -/
inductive Target where
  | sender
  | room (meetingId : MeetingId)
  | roomExceptSender (meetingId : MeetingId)
  | socket (socketId : SocketId)
  deriving DecidableEq, Repr

/-- One emitted event: its target and its event name. -/
structure Emit where
  target : Target
  event : String
  deriving DecidableEq, Repr

/-- JavaScript truthiness of an optional string: present and non-empty. -/
def truthy : Option String → Bool
  | none => false
  | some s => decide (s ≠ "")

/-! ## Parts of the repository that are not among the sources -/

/-- Modelled from the spec: `validateData` of `meetingManager.js` (not among the sources),
"reject if required fields are missing": valid when every required field is present. -/
def validateData (data : Data) (required : List String) : Bool :=
  required.all data.has

/-- Modelled from the spec: the constructor `new Meeting(meetingId, hostId, hostName)` of
`meetingManager.js` (not among the sources): a meeting with no participant, unlocked, no
spotlight; the default name follows the `recordingName` expression of `join-as-host`. -/
def Meeting.new (meetingId : MeetingId) (hostId : SocketId) (hostName : String) : Meeting :=
  { id := meetingId
    hostId := hostId
    hostName := hostName
    meetingName := hostName ++ "\x27s Meeting"
    isLocked := false
    permissions := []
    participants := []
    spotlightedParticipant := none }

/-- Modelled from the spec: `addParticipant` of `participantManager.js` (not among the sources):
inserts under the socket id a participant whose `isHost` is the flag passed and that is no
co-host. -/
def addParticipant (meeting : Meeting) (socketId : SocketId) (name : String) (isHost : Bool)
    (now : Nat) : Meeting :=
  { meeting with
    participants := jsSet meeting.participants socketId
      { socketId := socketId, name := name, isHost := isHost, isCoHost := false,
        lastHeartbeat := now } }

/-- Modelled from the spec: `removeParticipant` of `participantManager.js` (not among the
sources): deletes the entry of that socket id from the meeting. -/
def removeParticipant (meeting : Meeting) (socketId : SocketId) : Meeting :=
  { meeting with participants := jsDelete meeting.participants socketId }

/-- Modelled from the spec: `lockMeeting` of the `Meeting` class (not among the sources). -/
def Meeting.lockMeeting (meeting : Meeting) : Meeting := { meeting with isLocked := true }

/-- Modelled from the spec: `unlockMeeting` of the `Meeting` class (not among the sources). -/
def Meeting.unlockMeeting (meeting : Meeting) : Meeting := { meeting with isLocked := false }

/-- Modelled from the spec: `updatePermissions` of the `Meeting` class (not among the sources):
each named toggle of the argument overwrites the stored one. -/
def Meeting.updatePermissions (meeting : Meeting) (perms : List (String × Bool)) : Meeting :=
  { meeting with
    permissions := perms.foldl (fun acc e => jsSet acc e.1 e.2) meeting.permissions }

/-- The methods of the `Meeting` class (`meetingManager.js`, not among the sources) whose result
the spec does not fix; the handlers take them as parameters. `updateMeetingName` returns the
mutated meeting and its success flag. -/
structure MeetingClass where
  canChangeMeetingName : Meeting → SocketId → Bool
  canPerformHostAction : Meeting → SocketId → Bool
  updateMeetingName : Meeting → String → Meeting × Bool

/-! ## Handlers of `src/call.js` -/

/-- The `join-as-host` handler (lines 221-274). `statsOk` says that the statistics recorder
did not throw. -/
def joinAsHost (s : State) (sid : SocketId) (data : Data) (now : Nat) (statsOk : Bool) :
    State × List Emit :=
  if !validateData data ["meetingId", "hostName"] then
    (s, [⟨Target.sender, "meeting-error"⟩])
  else
    match data.meetingId, data.hostName with
    | some meetingId, some hostName =>
      let started : List Emit :=
        if truthy data.userId && statsOk then [⟨Target.sender, "meeting-started"⟩] else []
      let meeting := Meeting.new meetingId sid hostName
      let meeting :=
        match data.meetingName with
        | some n => if truthy (some n) && decide (jsLength (jsTrim n) > 0)
            then { meeting with meetingName := jsTrim n } else meeting
        | none => meeting
      let meeting := addParticipant meeting sid hostName true now
      ({ meetings := jsSet s.meetings meetingId meeting
         participants := jsSet s.participants sid { meetingId := meetingId, isHost := true } },
       started ++ [⟨Target.sender, "joined-meeting"⟩])
    | _, _ => (s, [])

/-- The `join-meeting` handler (lines 277-348). -/
def joinMeeting (s : State) (sid : SocketId) (data : Data) (now : Nat) (statsOk : Bool) :
    State × List Emit :=
  if !validateData data ["meetingId", "participantName"] then
    (s, [⟨Target.sender, "meeting-error"⟩])
  else
    match data.meetingId, data.participantName with
    | some meetingId, some participantName =>
      match jsGet s.meetings meetingId with
      | none => (s, [⟨Target.sender, "meeting-error"⟩])
      | some meeting =>
        if meeting.isLocked && !jsHas meeting.participants sid then
          (s, [⟨Target.sender, "meeting-locked"⟩])
        else
          let joined : List Emit :=
            if truthy data.userId && statsOk
            then [⟨Target.sender, "participant-joined-meeting"⟩] else []
          let meeting := addParticipant meeting sid participantName false now
          ({ meetings := jsSet s.meetings meetingId meeting
             participants :=
               jsSet s.participants sid { meetingId := meetingId, isHost := false } },
           joined ++ [⟨Target.sender, "joined-meeting"⟩,
                      ⟨Target.roomExceptSender meetingId, "participant-joined"⟩])
    | _, _ => (s, [])

/-- The successor chosen by `host-leave-meeting` (lines 500-511): the first co-host in
insertion order, else the first participant. -/
def findNewHost (ps : List (SocketId × Participant)) : Option Participant :=
  match ps.find? (fun e => e.2.isCoHost) with
  | some e => some e.2
  | none => ps.head?.map (fun e => e.2)

/-- The mutation of the successor object (lines 514-515). -/
def Participant.makeHost (p : Participant) : Participant :=
  { p with isHost := true, isCoHost := false }

/-- The participants map after the successor object has been mutated in place. -/
def promoteNewHost (ps : List (SocketId × Participant)) : List (SocketId × Participant) :=
  if ps.any (fun e => e.2.isCoHost) then
    modifyFirst (fun p => p.isCoHost) Participant.makeHost ps
  else
    modifyFirst (fun _ => true) Participant.makeHost ps

/-- The `host-leave-meeting` handler (lines 466-547). -/
def hostLeaveMeeting (s : State) (sid : SocketId) (data : Data) : State × List Emit :=
  if !validateData data ["meetingId"] then
    (s, [⟨Target.sender, "action-error"⟩])
  else
    match data.meetingId with
    | none => (s, [])
    | some meetingId =>
      match jsGet s.participants sid with
      | none => (s, [])
      | some _ =>
        match jsGet s.meetings meetingId with
        | none => (s, [])
        | some meeting =>
          match jsGet meeting.participants sid with
          | none => (s, [⟨Target.sender, "action-error"⟩])
          | some participant =>
            if !participant.isHost then (s, [⟨Target.sender, "action-error"⟩])
            else
              let meeting := removeParticipant meeting sid
              let backrefs := jsDelete s.participants sid
              match findNewHost meeting.participants with
              | some newHost =>
                let meeting :=
                  { meeting with
                    participants := promoteNewHost meeting.participants
                    hostId := newHost.socketId
                    hostName := newHost.name }
                ({ meetings := jsSet s.meetings meetingId meeting, participants := backrefs },
                 [⟨Target.room meetingId, "host-left"⟩,
                  ⟨Target.socket newHost.socketId, "made-host"⟩,
                  ⟨Target.roomExceptSender meetingId, "participant-left"⟩])
              | none =>
                ({ meetings := jsDelete (jsSet s.meetings meetingId meeting) meetingId
                   participants := backrefs },
                 [⟨Target.roomExceptSender meetingId, "participant-left"⟩])

/-- The `end-meeting-for-all` handler (lines 421-463). -/
def endMeetingForAll (s : State) (sid : SocketId) (data : Data) : State × List Emit :=
  if !validateData data ["meetingId"] then
    (s, [⟨Target.sender, "action-error"⟩])
  else
    match data.meetingId with
    | none => (s, [])
    | some meetingId =>
      match jsGet s.participants sid with
      | none => (s, [])
      | some _ =>
        match jsGet s.meetings meetingId with
        | none => (s, [])
        | some meeting =>
          match jsGet meeting.participants sid with
          | none => (s, [⟨Target.sender, "action-error"⟩])
          | some participant =>
            if !participant.isHost then (s, [⟨Target.sender, "action-error"⟩])
            else
              ({ meetings := jsDelete s.meetings meetingId
                 participants :=
                   (jsKeys meeting.participants).foldl (fun acc k => jsDelete acc k)
                     s.participants },
               [⟨Target.room meetingId, "meeting-ended"⟩])

/-- The `disconnect` handler (lines 550-622). -/
def disconnect (s : State) (sid : SocketId) : State × List Emit :=
  match jsGet s.participants sid with
  | none => (s, [])
  | some participantInfo =>
    match jsGet s.meetings participantInfo.meetingId with
    | none => ({ s with participants := jsDelete s.participants sid }, [])
    | some meeting =>
      let connectedParticipants :=
        (jsKeys meeting.participants).filter (fun id => decide (id ≠ sid))
      let peers : List Emit :=
        connectedParticipants.map (fun id => ⟨Target.socket id, "peer-disconnected"⟩)
      let meeting := removeParticipant meeting sid
      let meetings := jsSet s.meetings participantInfo.meetingId meeting
      if participantInfo.isHost then
        ({ meetings := jsDelete meetings participantInfo.meetingId
           participants := jsDelete s.participants sid },
         ⟨Target.room participantInfo.meetingId, "meeting-ended"⟩ :: peers)
      else
        ({ meetings := meetings, participants := jsDelete s.participants sid },
         ⟨Target.room participantInfo.meetingId, "participant-left"⟩ :: peers)

/-- The `toggle-meeting-lock` handler (lines 351-381). -/
def toggleMeetingLock (cls : MeetingClass) (s : State) (sid : SocketId) (data : Data) :
    State × List Emit :=
  if !validateData data ["isLocked"] then
    (s, [⟨Target.sender, "action-error"⟩])
  else
    match data.isLocked with
    | none => (s, [])
    | some isLocked =>
      match jsGet s.participants sid with
      | none => (s, [])
      | some participantInfo =>
        match jsGet s.meetings participantInfo.meetingId with
        | none => (s, [⟨Target.sender, "action-error"⟩])
        | some meeting =>
          if !cls.canPerformHostAction meeting sid then
            (s, [⟨Target.sender, "action-error"⟩])
          else
            let meeting := if isLocked then meeting.lockMeeting else meeting.unlockMeeting
            ({ s with meetings := jsSet s.meetings participantInfo.meetingId meeting },
             [⟨Target.room participantInfo.meetingId, "meeting-lock-changed"⟩])

/-- The `update-meeting-permissions` handler (lines 384-418). -/
def updateMeetingPermissions (cls : MeetingClass) (s : State) (sid : SocketId) (data : Data) :
    State × List Emit :=
  if !validateData data ["permissions"] then
    (s, [⟨Target.sender, "action-error"⟩])
  else
    match data.permissions with
    | none => (s, [])
    | some permissions =>
      match jsGet s.participants sid with
      | none => (s, [])
      | some participantInfo =>
        match jsGet s.meetings participantInfo.meetingId with
        | none => (s, [⟨Target.sender, "action-error"⟩])
        | some meeting =>
          if !cls.canPerformHostAction meeting sid then
            (s, [⟨Target.sender, "action-error"⟩])
          else
            let meeting := meeting.updatePermissions permissions
            let rename : List Emit :=
              if jsHas permissions "allowRename"
              then [⟨Target.room participantInfo.meetingId, "rename-permission-updated"⟩]
              else []
            ({ s with meetings := jsSet s.meetings participantInfo.meetingId meeting },
             ⟨Target.room participantInfo.meetingId, "meeting-permissions-updated"⟩ :: rename)

/-- The name test of `change-meeting-name` (line 199),
`!newName || newName.trim().length === 0 || newName.length > 100`: empty, nothing left after
the trim, or more than 100 code units. -/
def invalidMeetingName (newName : String) : Bool :=
  !truthy (some newName) || decide (jsLength (jsTrim newName) = 0) ||
    decide (jsLength newName > 100)

/-- The `change-meeting-name` handler (lines 173-218). -/
def changeMeetingName (cls : MeetingClass) (s : State) (sid : SocketId) (data : Data) :
    State × List Emit :=
  if !validateData data ["newName"] then
    (s, [⟨Target.sender, "action-error"⟩])
  else
    match data.newName with
    | none => (s, [])
    | some newName =>
      match jsGet s.participants sid with
      | none => (s, [⟨Target.sender, "action-error"⟩])
      | some participantInfo =>
        match jsGet s.meetings participantInfo.meetingId with
        | none => (s, [⟨Target.sender, "action-error"⟩])
        | some meeting =>
          if !cls.canChangeMeetingName meeting sid then
            (s, [⟨Target.sender, "action-error"⟩])
          else if invalidMeetingName newName then
            (s, [⟨Target.sender, "action-error"⟩])
          else
            let r := cls.updateMeetingName meeting newName
            if r.2 then
              ({ s with meetings := jsSet s.meetings participantInfo.meetingId r.1 },
               [⟨Target.room participantInfo.meetingId, "meeting-name-changed"⟩])
            else
              ({ s with meetings := jsSet s.meetings participantInfo.meetingId r.1 },
               [⟨Target.sender, "action-error"⟩])

/-! ## Traces of the five membership handlers -/

/-- One request handled by the relay. -/
inductive Event where
  | joinAsHost (sid : SocketId) (data : Data) (now : Nat) (statsOk : Bool)
  | joinMeeting (sid : SocketId) (data : Data) (now : Nat) (statsOk : Bool)
  | hostLeaveMeeting (sid : SocketId) (data : Data)
  | endMeetingForAll (sid : SocketId) (data : Data)
  | disconnect (sid : SocketId)
  deriving DecidableEq, Repr

/-- The registry after the relay has handled one request. -/
def step (s : State) : Event → State
  | Event.joinAsHost sid data now statsOk => (joinAsHost s sid data now statsOk).1
  | Event.joinMeeting sid data now statsOk => (joinMeeting s sid data now statsOk).1
  | Event.hostLeaveMeeting sid data => (hostLeaveMeeting s sid data).1
  | Event.endMeetingForAll sid data => (endMeetingForAll s sid data).1
  | Event.disconnect sid => (disconnect s sid).1

/-- The registry after the relay has handled a sequence of requests, oldest first. -/
def run (s : State) (evs : List Event) : State :=
  evs.foldl step s

/-- The number of participants of a meeting whose `isHost` flag is set. -/
def hostCount (m : Meeting) : Nat :=
  (m.participants.filter (fun e => e.2.isHost)).length

/-! ## A concrete scenario: meeting `M1`, host `H`, participant `P1` -/

/-- The payload with which host `H` creates meeting `M1`. -/
def hostData : Data := { meetingId := some "M1", hostName := some "Hana" }

/-- The payload with which participant `P1` joins meeting `M1`. -/
def joinData : Data := { meetingId := some "M1", participantName := some "Pia" }

/-- The payload that names meeting `M1` (host-leave and end-for-all). -/
def leaveData : Data := { meetingId := some "M1" }

/-- Host `H` creates `M1`, then `P1` joins it. -/
def hostThenJoin : List Event :=
  [Event.joinAsHost "H" hostData 10 false, Event.joinMeeting "P1" joinData 20 false]

/-- Participant `P1` as stored after joining at time 20. -/
def pia : Participant :=
  { socketId := "P1", name := "Pia", isHost := false, isCoHost := false, lastHeartbeat := 20 }

/-- Host `H` as stored after creating the meeting at time 10. -/
def hana : Participant :=
  { socketId := "H", name := "Hana", isHost := true, isCoHost := false, lastHeartbeat := 10 }

/-- Meeting `M1` with the given host fields and participants. -/
def m1 (hostId : SocketId) (hostName : String) (ps : List (SocketId × Participant)) : Meeting :=
  { id := "M1", hostId := hostId, hostName := hostName, meetingName := "Hana\x27s Meeting",
    isLocked := false, permissions := [], participants := ps, spotlightedParticipant := none }

/-- Co-host `P2`, stored after `P1`. -/
def zoe : Participant :=
  { socketId := "P2", name := "Zoe", isHost := false, isCoHost := true, lastHeartbeat := 30 }

/-- Meeting `M1` with host `H`, participant `P1` and co-host `P2`, in that insertion order. -/
def withCoHost : State :=
  { meetings := [("M1", m1 "H" "Hana" [("H", hana), ("P1", pia), ("P2", zoe)])]
    participants := [("H", { meetingId := "M1", isHost := true }),
                     ("P1", { meetingId := "M1", isHost := false }),
                     ("P2", { meetingId := "M1", isHost := false })] }

/-- Meeting `M1` with host `H` alone. -/
def hostAlone : State :=
  { meetings := [("M1", m1 "H" "Hana" [("H", hana)])]
    participants := [("H", { meetingId := "M1", isHost := true })] }

/-- Meeting `M1` of the scenario, locked by its host. -/
def lockedM1 : State :=
  { meetings := [("M1", (m1 "H" "Hana" [("H", hana)]).lockMeeting)]
    participants := [("H", { meetingId := "M1", isHost := true })] }

/-- The statement that a host disconnect keeps the meeting when somebody else is present: if
the back-reference of `sid` has `isHost` set, its meeting exists and has a participant other
than `sid`, then after the disconnect the meeting is still registered and has a host. -/
def HostDisconnectPromotes (s : State) (sid : SocketId) : Prop :=
  ∀ info meeting, jsGet s.participants sid = some info → info.isHost = true →
    jsGet s.meetings info.meetingId = some meeting →
    (∃ e ∈ meeting.participants, e.1 ≠ sid) →
    ∃ m', jsGet (disconnect s sid).1.meetings info.meetingId = some m' ∧
      ∃ e ∈ m'.participants, e.2.isHost = true

/-- Every meeting of the registry has at most one participant flagged as host. -/
def SingleHost (s : State) : Prop :=
  ∀ e ∈ s.meetings, hostCount e.2 ≤ 1

/-- Host `H` creates `M1` and then `M2`, and ends `M2` for all: `H` is still a participant of
`M1` flagged as host, and has no back-reference any more. -/
def hostOfTwo : List Event :=
  [Event.joinAsHost "H" hostData 10 false,
   Event.joinAsHost "H" { meetingId := some "M2", hostName := some "Hana" } 15 false,
   Event.endMeetingForAll "H" { meetingId := some "M2" }]

/-- The statement that creating a meeting under an id that is already a key of the registry
leaves the meeting stored under that id unchanged. -/
def DuplicateCreateRejected (s : State) (sid : SocketId) (data : Data) (now : Nat)
    (statsOk : Bool) : Prop :=
  ∀ mid meeting, data.meetingId = some mid → jsGet s.meetings mid = some meeting →
    jsGet (joinAsHost s sid data now statsOk).1.meetings mid = some meeting

/-- The statement that end-meeting-for-all, called by a participant of the named meeting whose
`isHost` is set, removes the meeting and the back-reference of each of its participants. -/
def EndForAllDeletes (s : State) (sid : SocketId) (data : Data) : Prop :=
  ∀ mid meeting p, data.meetingId = some mid → jsGet s.meetings mid = some meeting →
    jsGet meeting.participants sid = some p → p.isHost = true →
    jsGet (endMeetingForAll s sid data).1.meetings mid = none ∧
      ∀ e ∈ meeting.participants,
        jsGet (endMeetingForAll s sid data).1.participants e.1 = none

/-- Every emission of the list is a `socket.emit`, which reaches the sender only. -/
def senderOnly (es : List Emit) : Prop :=
  ∀ e ∈ es, e.target = Target.sender

/-- Whether `sid` is a participant of the meeting stored under `mid` with `isHost` set: the
authorisation test of end-meeting-for-all and host-leave-meeting (lines 436-437, 481-482). -/
def isHostOf (s : State) (sid : SocketId) (mid : MeetingId) : Bool :=
  match jsGet s.meetings mid with
  | none => false
  | some meeting =>
    match jsGet meeting.participants sid with
    | none => false
    | some participant => participant.isHost

/-- Whether the caller passes the authorisation test of toggle-meeting-lock and
update-meeting-permissions (lines 359-364, 392-397): it has a back-reference, the meeting
named there exists, and `canPerformHostAction` accepts the caller. -/
def hostActionAllowed (cls : MeetingClass) (s : State) (sid : SocketId) : Bool :=
  match jsGet s.participants sid with
  | none => false
  | some participantInfo =>
    match jsGet s.meetings participantInfo.meetingId with
    | none => false
    | some meeting => cls.canPerformHostAction meeting sid

/-- Whether the caller passes the authorisation test of change-meeting-name (lines 181-194):
it has a back-reference, the meeting named there exists, and `canChangeMeetingName` accepts
the caller. -/
def renameAllowed (cls : MeetingClass) (s : State) (sid : SocketId) : Bool :=
  match jsGet s.participants sid with
  | none => false
  | some participantInfo =>
    match jsGet s.meetings participantInfo.meetingId with
    | none => false
    | some meeting => cls.canChangeMeetingName meeting sid

/-- A `Meeting` class whose two authorisation tests accept exactly the connection stored in
`hostId`, and whose rename stores the name and succeeds. -/
def hostIdClass : MeetingClass :=
  { canChangeMeetingName := fun m sid => decide (m.hostId = sid)
    canPerformHostAction := fun m sid => decide (m.hostId = sid)
    updateMeetingName := fun m n => ({ m with meetingName := n }, true) }

/-- A payload that carries every field the five host-only handlers require. -/
def fullData : Data :=
  { meetingId := some "M1", newName := some "Standup", isLocked := some true,
    permissions := some [("chatEnabled", false)] }

/-! ## Client side: the host's negotiation engine (`public/meetingHost/webrtcManager.js`)

The browser's `RTCPeerConnection` is outside the repository. A `Link` records what the manager
reads from it (`signalingState`, `connectionState`, `remoteDescription`) and what the manager
did to it (the descriptions set, the candidates added with success). Whether a browser call
throws is not decided by the manager: one `Browser` value gives the outcome of each browser
call made during one handler run. Each handler is one atomic step from an arbitrary manager
state, so a state in which `makingOffer` or `isSettingRemoteDescription` is set stands for a
handler invoked while another one is suspended at an `await`. -/

/-- The `signalingState` of an `RTCPeerConnection`. -/
inductive SignalingState where
  | stable
  | haveLocalOffer
  | haveRemoteOffer
  | haveLocalPranswer
  | haveRemotePranswer
  | closed
  deriving DecidableEq, Repr

/-- The `connectionState` of an `RTCPeerConnection`. -/
inductive ConnectionState where
  | new
  | connecting
  | connected
  | disconnected
  | failed
  | closed
  deriving DecidableEq, Repr

/-- A session description `{type, sdp}`. -/
structure Description where
  type : String
  sdp : String
  deriving DecidableEq, Repr

/-- A candidate object `{candidate, ...}`; `oid` is the identity of the JavaScript object, which
is what `Array.prototype.includes` compares. -/
structure Candidate where
  oid : Nat
  candidate : String
  deriving DecidableEq, Repr

/-- The test `candidate && candidate.candidate` (lines 478, 511): the candidate is not null and
carries a non-empty candidate string. -/
def usable : Option Candidate → Bool
  | none => false
  | some c => decide (c.candidate ≠ "")

/-- A `MediaStreamTrack`: `tid` is the identity of the object, `kind` is `video` or `audio`.
A `MediaStream` is the list of its tracks. -/
structure Track where
  tid : Nat
  kind : String
  deriving DecidableEq, Repr

/-- `stream.getVideoTracks()`. -/
def getVideoTracks (stream : List Track) : List Track :=
  stream.filter (fun t => decide (t.kind = "video"))

/-- `stream.getAudioTracks()`. -/
def getAudioTracks (stream : List Track) : List Track :=
  stream.filter (fun t => decide (t.kind = "audio"))

/-- An `RTCRtpSender` of a link, with the track it sends (`none`: `sender.track` is null). -/
structure Sender where
  track : Option Track
  deriving DecidableEq, Repr

/-- The test `sender.track && sender.track.kind === kind`. -/
def Sender.sends (s : Sender) (kind : String) : Bool :=
  match s.track with
  | some t => decide (t.kind = kind)
  | none => false

/-- `senders.find(pred)` followed by `replaceTrack(track)` on the sender found: the first sender
of the list that satisfies `pred` sends `track` from now on. -/
def replaceFirst (pred : Sender → Bool) (track : Track) : List Sender → List Sender
  | [] => []
  | s :: rest =>
    if pred s then { track := some track } :: rest else s :: replaceFirst pred track rest

/-- One `RTCPeerConnection` object. `lid` is the identity of the object; `applied` lists the
candidates for which `addIceCandidate` returned without throwing, oldest first; `senders` is
`getSenders()`; `trackOps` counts the `addTrack` and `removeTrack` calls made on the link, each
of which makes the browser fire `negotiationneeded` (a `replaceTrack` does not). -/
structure Link where
  lid : Nat
  signalingState : SignalingState := SignalingState.stable
  connectionState : ConnectionState := ConnectionState.new
  remoteDescription : Option Description := none
  localDescription : Option Description := none
  applied : List Candidate := []
  senders : List Sender := []
  trackOps : Nat := 0
  deriving DecidableEq, Repr

/-- Browser behaviour (WebRTC API): `pc.addTrack(track, stream)` gives the link a new sender. -/
def Link.addTrack (pc : Link) (track : Track) : Link :=
  { pc with senders := pc.senders ++ [{ track := some track }], trackOps := pc.trackOps + 1 }

/-- Browser behaviour (WebRTC API): `pc.removeTrack(sender)` for every sender that satisfies
`pred`; the sender stays in `getSenders()` with a null track. -/
def Link.removeTracks (pc : Link) (pred : Sender → Bool) : Link :=
  { pc with
    senders := pc.senders.map (fun s => if pred s then { track := none } else s)
    trackOps := pc.trackOps + (pc.senders.filter pred).length }

/-- The outcome of the browser calls made during one handler run: whether each call returns
without throwing, the descriptions that `createOffer` / `createAnswer` produce, the stream that
`getDisplayMedia` yields (`none`: it throws) and the stream that
`createCombinedAudioStream` builds with the audio context (`none`: it returns null). -/
structure Browser where
  newLinkOk : Bool
  addTrackOk : Bool
  createOfferOk : Bool
  createAnswerOk : Bool
  setLocalOk : Bool
  setRemoteOk : Bool
  addIceCandidateOk : Candidate → Bool
  offerSdp : String
  answerSdp : String
  replaceTrackOk : Bool := true
  displayMedia : Option (List Track) := none
  combinedAudio : Option (List Track) := none

/-- Browser behaviour (WebRTC API): the signalling state after `setRemoteDescription` returns. -/
def SignalingState.afterRemote (d : Description) (st : SignalingState) : SignalingState :=
  if d.type = "offer" then SignalingState.haveRemoteOffer
  else if d.type = "answer" then SignalingState.stable
  else if d.type = "pranswer" then SignalingState.haveRemotePranswer
  else st

/-- One `socket.emit` of a client: the event, the peer it is addressed to, the description it
carries and its `iceRestart` flag. -/
structure Signal where
  event : String
  target : SocketId
  description : Option Description := none
  iceRestart : Bool := false
  deriving DecidableEq, Repr

/-- A pending `setTimeout` callback of `onconnectionstatechange` (lines 302-306): it holds the
link object and the peer id of its closure, and its delay in milliseconds. -/
structure Timer where
  remoteSocketId : SocketId
  lid : Nat
  delay : Nat
  deriving DecidableEq, Repr

/-- The state of an `EnhancedWebRTCManager`: its own socket id, its five per-peer maps, the
links on which `close()` has been called, the identity of the next link object, the pending
grace timers, and its media: the camera stream, the screen stream and the sharing flag. -/
structure EnhancedWebRTCManager where
  socketId : SocketId
  peerConnections : List (SocketId × Link) := []
  pendingCandidates : List (SocketId × List (Option Candidate)) := []
  makingOffer : List (SocketId × Bool) := []
  ignoreOffer : List (SocketId × Bool) := []
  isSettingRemoteDescription : List (SocketId × Bool) := []
  closedLinks : List Nat := []
  nextLinkId : Nat := 0
  timers : List Timer := []
  localStream : Option (List Track) := none
  screenStream : Option (List Track) := none
  isScreenSharing : Bool := false
  deriving DecidableEq, Repr

namespace EnhancedWebRTCManager

/-- Truthiness of `map.get(key)` for a map of booleans: an absent key reads as false. -/
def flag (m : List (SocketId × Bool)) (k : SocketId) : Bool :=
  (jsGet m k).getD false

/-- The method `isPolite` (lines 581-583): `this.socket.id < remoteSocketId`, the
lexicographic order of the two character sequences. JavaScript compares UTF-16 units and
`Char` is a code point; the two orders agree on identifiers without astral characters. -/
def isPolite (socketId remoteSocketId : SocketId) : Bool :=
  decide (socketId.toList < remoteSocketId.toList)

/-- The tracks that `createPeerConnection` adds to a new link (lines 245-268): the tracks of
the camera stream, without its video tracks while the screen is shared, then the first video
track and the first audio track of the screen stream while the screen is shared. -/
def newLinkTracks (m : EnhancedWebRTCManager) : List Track :=
  (match m.localStream with
    | some stream =>
      stream.filter (fun t => !(decide (t.kind = "video") && m.isScreenSharing))
    | none => []) ++
  (match m.isScreenSharing, m.screenStream with
    | true, some stream =>
      (getVideoTracks stream).head?.toList ++ (getAudioTracks stream).head?.toList
    | _, _ => [])

/-- The method `createPeerConnection` (lines 227-396). The new link object is stored with the
tracks it has when the method returns: those of `newLinkTracks`, or none when an `addTrack`
throws. The handlers attached to the link are the functions `onconnectionstatechange` and
`onnegotiationneeded`. -/
def createPeerConnection (br : Browser) (m : EnhancedWebRTCManager) (remoteSocketId : SocketId)
    (shouldCreateOffer : Bool) : EnhancedWebRTCManager × List Signal :=
  let m :=
    match jsGet m.peerConnections remoteSocketId with
    | some old =>
      { m with
        closedLinks := m.closedLinks ++ [old.lid]
        peerConnections := jsDelete m.peerConnections remoteSocketId }
    | none => m
  if !br.newLinkOk then (m, [])
  else
    let peerConnection : Link :=
      if br.addTrackOk then (newLinkTracks m).foldl Link.addTrack { lid := m.nextLinkId }
      else { lid := m.nextLinkId }
    let m :=
      { m with
        nextLinkId := m.nextLinkId + 1
        peerConnections := jsSet m.peerConnections remoteSocketId peerConnection
        makingOffer := jsSet m.makingOffer remoteSocketId false
        ignoreOffer := jsSet m.ignoreOffer remoteSocketId false
        isSettingRemoteDescription := jsSet m.isSettingRemoteDescription remoteSocketId false
        pendingCandidates := jsSet m.pendingCandidates remoteSocketId [] }
    if !br.addTrackOk then (m, [])
    else if shouldCreateOffer then
      if br.createOfferOk && br.setLocalOk then
        let offer : Description := { type := "offer", sdp := br.offerSdp }
        let peerConnection :=
          { peerConnection with
            localDescription := some offer
            signalingState := SignalingState.haveLocalOffer }
        ({ m with
           peerConnections := jsSet m.peerConnections remoteSocketId peerConnection
           makingOffer := jsSet (jsSet m.makingOffer remoteSocketId true) remoteSocketId false },
         [{ event := "offer", target := remoteSocketId, description := some offer }])
      else
        ({ m with
           makingOffer := jsSet (jsSet m.makingOffer remoteSocketId true) remoteSocketId false },
         [])
    else (m, [])

/-- The method `processBufferedCandidates` (lines 494-526). -/
def processBufferedCandidates (br : Browser) (m : EnhancedWebRTCManager)
    (remoteSocketId : SocketId) : EnhancedWebRTCManager :=
  match jsGet m.pendingCandidates remoteSocketId with
  | none => m
  | some candidates =>
    if candidates.length = 0 then m
    else
      match jsGet m.peerConnections remoteSocketId with
      | none => m
      | some peerConnection =>
        if peerConnection.remoteDescription.isNone then m
        else
          let processed : List Candidate :=
            candidates.filterMap (fun c =>
              match c with
              | some x => if usable (some x) && br.addIceCandidateOk x then some x else none
              | none => none)
          { m with
            peerConnections := jsSet m.peerConnections remoteSocketId
              { peerConnection with applied := peerConnection.applied ++ processed }
            pendingCandidates := jsSet m.pendingCandidates remoteSocketId
              (candidates.filter (fun c =>
                match c with
                | some x => !processed.contains x
                | none => true)) }

/-- The method `handleOfferWithPerfectNegotiation` (lines 398-440). -/
def handleOfferWithPerfectNegotiation (br : Browser) (m : EnhancedWebRTCManager)
    (offer : Description) (sender : SocketId) : EnhancedWebRTCManager × List Signal :=
  let created : EnhancedWebRTCManager × List Signal :=
    match jsGet m.peerConnections sender with
    | some _ => (m, [])
    | none => createPeerConnection br m sender false
  let m := created.1
  match jsGet m.peerConnections sender with
  | none =>
    -- the link could not be constructed: `peerConnection` is undefined
    if decide (offer.type = "offer") && !flag m.makingOffer sender then
      ({ m with isSettingRemoteDescription :=
           jsSet m.isSettingRemoteDescription sender false }, created.2)
    else
      let offerCollision := decide (offer.type = "offer") && flag m.makingOffer sender
      let ignore := offerCollision && isPolite m.socketId sender
      let m := { m with ignoreOffer := jsSet m.ignoreOffer sender ignore }
      if ignore then (m, created.2)
      else
        ({ m with isSettingRemoteDescription :=
             jsSet (jsSet m.isSettingRemoteDescription sender true) sender false }, created.2)
  | some peerConnection =>
    let offerCollision := decide (offer.type = "offer") &&
      (flag m.makingOffer sender ||
        decide (peerConnection.signalingState ≠ SignalingState.stable))
    let ignore := offerCollision && isPolite m.socketId sender
    let m := { m with ignoreOffer := jsSet m.ignoreOffer sender ignore }
    if ignore then (m, created.2)
    else if !br.setRemoteOk then
      ({ m with isSettingRemoteDescription :=
           jsSet (jsSet m.isSettingRemoteDescription sender true) sender false }, created.2)
    else
      let peerConnection :=
        { peerConnection with
          remoteDescription := some offer
          signalingState := peerConnection.signalingState.afterRemote offer }
      let m :=
        { m with
          peerConnections := jsSet m.peerConnections sender peerConnection
          isSettingRemoteDescription :=
            jsSet (jsSet m.isSettingRemoteDescription sender true) sender false }
      let m := processBufferedCandidates br m sender
      if br.createAnswerOk && br.setLocalOk then
        let answer : Description := { type := "answer", sdp := br.answerSdp }
        let m :=
          match jsGet m.peerConnections sender with
          | some pc =>
            { m with
              peerConnections := jsSet m.peerConnections sender
                ({ pc with localDescription := some answer
                           signalingState := SignalingState.stable }) }
          | none => m
        (m, created.2 ++ [{ event := "answer", target := sender, description := some answer }])
      else
        ({ m with isSettingRemoteDescription :=
             jsSet m.isSettingRemoteDescription sender false }, created.2)

/-- The method `handleAnswerWithPerfectNegotiation` (lines 442-465). -/
def handleAnswerWithPerfectNegotiation (br : Browser) (m : EnhancedWebRTCManager)
    (answer : Description) (sender : SocketId) : EnhancedWebRTCManager :=
  match jsGet m.peerConnections sender with
  | none => m
  | some peerConnection =>
    if !br.setRemoteOk then
      { m with isSettingRemoteDescription :=
          jsSet (jsSet m.isSettingRemoteDescription sender true) sender false }
    else
      let peerConnection :=
        { peerConnection with
          remoteDescription := some answer
          signalingState := peerConnection.signalingState.afterRemote answer }
      let m :=
        { m with
          peerConnections := jsSet m.peerConnections sender peerConnection
          isSettingRemoteDescription :=
            jsSet (jsSet m.isSettingRemoteDescription sender true) sender false }
      processBufferedCandidates br m sender

/-- The method `handleIceCandidateWithBuffering` (lines 467-492). -/
def handleIceCandidateWithBuffering (br : Browser) (m : EnhancedWebRTCManager)
    (candidate : Option Candidate) (sender : SocketId) : EnhancedWebRTCManager :=
  match jsGet m.peerConnections sender with
  | none => m
  | some peerConnection =>
    if peerConnection.remoteDescription.isSome && !flag m.isSettingRemoteDescription sender then
      match candidate with
      | some c =>
        if usable (some c) && br.addIceCandidateOk c then
          { m with
            peerConnections := jsSet m.peerConnections sender
              ({ peerConnection with applied := peerConnection.applied ++ [c] }) }
        else m
      | none => m
    else
      let pending :=
        if !jsHas m.pendingCandidates sender then jsSet m.pendingCandidates sender []
        else m.pendingCandidates
      { m with pendingCandidates :=
          jsSet pending sender ((jsGet pending sender).getD [] ++ [candidate]) }

/-- The method `performIceRestart` (lines 528-556). -/
def performIceRestart (br : Browser) (m : EnhancedWebRTCManager) (remoteSocketId : SocketId) :
    EnhancedWebRTCManager × List Signal :=
  match jsGet m.peerConnections remoteSocketId with
  | none => (m, [])
  | some peerConnection =>
    if br.createOfferOk && br.setLocalOk then
      let offer : Description := { type := "offer", sdp := br.offerSdp }
      ({ m with
         peerConnections := jsSet m.peerConnections remoteSocketId
           { peerConnection with
             localDescription := some offer
             signalingState := SignalingState.haveLocalOffer }
         makingOffer := jsSet (jsSet m.makingOffer remoteSocketId true) remoteSocketId false },
       [{ event := "offer", target := remoteSocketId, description := some offer,
          iceRestart := true }])
    else
      ({ m with
         makingOffer := jsSet (jsSet m.makingOffer remoteSocketId true) remoteSocketId false },
       [])

/-- The method `restartConnection` (lines 566-579). -/
def restartConnection (br : Browser) (m : EnhancedWebRTCManager) (targetSocketId : SocketId) :
    EnhancedWebRTCManager × List Signal :=
  let m :=
    match jsGet m.peerConnections targetSocketId with
    | some oldConnection => { m with closedLinks := m.closedLinks ++ [oldConnection.lid] }
    | none => m
  let m :=
    { m with
      peerConnections := jsDelete m.peerConnections targetSocketId
      pendingCandidates := jsDelete m.pendingCandidates targetSocketId }
  createPeerConnection br m targetSocketId true

/-- The handler `onconnectionstatechange` of the link stored under `remoteSocketId` (lines
287-311), fired after the browser moved that link to `state`. A link that left the map has been
closed first (lines 232, 572, 610), and a closed link fires no state change. -/
def onconnectionstatechange (br : Browser) (m : EnhancedWebRTCManager)
    (remoteSocketId : SocketId) (state : ConnectionState) :
    EnhancedWebRTCManager × List Signal :=
  match jsGet m.peerConnections remoteSocketId with
  | none => (m, [])
  | some peerConnection =>
    let m :=
      { m with
        peerConnections := jsSet m.peerConnections remoteSocketId
          ({ peerConnection with connectionState := state }) }
    let changed : Signal := { event := "connection-state-change", target := remoteSocketId }
    if state = ConnectionState.failed then
      let r := performIceRestart br m remoteSocketId
      (r.1, changed :: r.2)
    else if state = ConnectionState.disconnected then
      ({ m with timers := m.timers ++
           [{ remoteSocketId := remoteSocketId, lid := peerConnection.lid, delay := 3000 }] },
       [changed])
    else if state = ConnectionState.connected then
      (processBufferedCandidates br m remoteSocketId, [changed])
    else (m, [changed])

/-- The `setTimeout` callback of lines 302-306, run when the grace timer `t` fires: the link of
its closure is restarted if it is still `disconnected`. A link that is no longer the one stored
under the peer id has been closed, so it is not `disconnected`. -/
def timerFires (br : Browser) (m : EnhancedWebRTCManager) (t : Timer) :
    EnhancedWebRTCManager × List Signal :=
  let m := { m with timers := m.timers.erase t }
  match jsGet m.peerConnections t.remoteSocketId with
  | none => (m, [])
  | some peerConnection =>
    if peerConnection.lid = t.lid ∧ peerConnection.connectionState = ConnectionState.disconnected
    then performIceRestart br m t.remoteSocketId
    else (m, [])

end EnhancedWebRTCManager

/-! ## Client side: the participant's engine (`public/meetingJoin/webrtc-connection.js`) -/

/-- The state of a `WebRTCConnectionManager`, which has no per-peer map besides its links, and
its media: the camera stream, the microphone track kept at start-up, the screen stream and the
sharing flag. -/
structure WebRTCConnectionManager where
  peerConnections : List (SocketId × Link) := []
  closedLinks : List Nat := []
  nextLinkId : Nat := 0
  localStream : Option (List Track) := none
  originalMicrophoneTrack : Option Track := none
  screenStream : Option (List Track) := none
  isScreenSharing : Bool := false
  deriving DecidableEq, Repr

namespace WebRTCConnectionManager

/-- The method `createPeerConnection` (lines 116-185). The new link object is stored with the
tracks it has when the method returns: those of the camera stream, or none when an `addTrack`
throws. -/
def createPeerConnection (br : Browser) (m : WebRTCConnectionManager)
    (remoteSocketId : SocketId) (shouldCreateOffer : Bool) :
    WebRTCConnectionManager × List Signal :=
  let m :=
    match jsGet m.peerConnections remoteSocketId with
    | some old =>
      { m with
        closedLinks := m.closedLinks ++ [old.lid]
        peerConnections := jsDelete m.peerConnections remoteSocketId }
    | none => m
  if !br.newLinkOk then (m, [])
  else
    let peerConnection : Link :=
      if br.addTrackOk then (m.localStream.getD []).foldl Link.addTrack { lid := m.nextLinkId }
      else { lid := m.nextLinkId }
    let m :=
      { m with
        nextLinkId := m.nextLinkId + 1
        peerConnections := jsSet m.peerConnections remoteSocketId peerConnection }
    if !br.addTrackOk then (m, [])
    else if shouldCreateOffer && br.createOfferOk && br.setLocalOk then
      let offer : Description := { type := "offer", sdp := br.offerSdp }
      ({ m with
         peerConnections := jsSet m.peerConnections remoteSocketId
           { peerConnection with
             localDescription := some offer
             signalingState := SignalingState.haveLocalOffer } },
       [{ event := "offer", target := remoteSocketId, description := some offer }])
    else (m, [])

/-- The method `handleOffer` (lines 187-252). -/
def handleOffer (br : Browser) (m : WebRTCConnectionManager) (offer : Description)
    (sender : SocketId) : WebRTCConnectionManager × List Signal :=
  let applyOffer (m : WebRTCConnectionManager) (peerConnection : Link) :
      WebRTCConnectionManager × List Signal :=
    if !br.setRemoteOk then (m, [])
    else
      let peerConnection :=
        { peerConnection with
          remoteDescription := some offer
          signalingState := peerConnection.signalingState.afterRemote offer }
      let m := { m with peerConnections := jsSet m.peerConnections sender peerConnection }
      if br.createAnswerOk && br.setLocalOk then
        let answer : Description := { type := "answer", sdp := br.answerSdp }
        ({ m with
           peerConnections := jsSet m.peerConnections sender
             { peerConnection with
               localDescription := some answer
               signalingState := SignalingState.stable } },
         [{ event := "answer", target := sender, description := some answer }])
      else (m, [])
  match jsGet m.peerConnections sender with
  | some peerConnection => applyOffer m peerConnection
  | none =>
    if !br.newLinkOk then (m, [])
    else
      let peerConnection : Link :=
        if br.addTrackOk then (m.localStream.getD []).foldl Link.addTrack { lid := m.nextLinkId }
        else { lid := m.nextLinkId }
      let m :=
        { m with
          nextLinkId := m.nextLinkId + 1
          peerConnections := jsSet m.peerConnections sender peerConnection }
      if !br.addTrackOk then (m, []) else applyOffer m peerConnection

/-- The method `handleAnswer` (lines 254-267). -/
def handleAnswer (br : Browser) (m : WebRTCConnectionManager) (answer : Description)
    (sender : SocketId) : WebRTCConnectionManager :=
  match jsGet m.peerConnections sender with
  | none => m
  | some peerConnection =>
    if peerConnection.signalingState = SignalingState.haveLocalOffer ∧ br.setRemoteOk = true then
      { m with
        peerConnections := jsSet m.peerConnections sender
          { peerConnection with
            remoteDescription := some answer
            signalingState := peerConnection.signalingState.afterRemote answer } }
    else m

/-- The method `handleIceCandidate` (lines 269-280). -/
def handleIceCandidate (br : Browser) (m : WebRTCConnectionManager)
    (candidate : Option Candidate) (sender : SocketId) : WebRTCConnectionManager :=
  match jsGet m.peerConnections sender with
  | none => m
  | some peerConnection =>
    if peerConnection.remoteDescription.isSome then
      match candidate with
      | some c =>
        if br.addIceCandidateOk c then
          { m with
            peerConnections := jsSet m.peerConnections sender
              ({ peerConnection with applied := peerConnection.applied ++ [c] }) }
        else m
      | none => m
    else m

end WebRTCConnectionManager

/-! ## Statements about the negotiation engine -/

namespace EnhancedWebRTCManager

/-- The offer from `sender` arrives during a collision (lines 410-411): it is an offer, a link
for the sender exists, and `makingOffer` is set or the link is not in the `stable` state. -/
def Collision (m : EnhancedWebRTCManager) (offer : Description) (sender : SocketId)
    (pc : Link) : Prop :=
  jsGet m.peerConnections sender = some pc ∧ offer.type = "offer" ∧
    (flag m.makingOffer sender = true ∨ pc.signalingState ≠ SignalingState.stable)

/-- The run `r` of the offer handler dropped the offer: `ignoreOffer` is set for the sender,
nothing is emitted, and the link `pc` of the sender is as it was. -/
def Ignored (r : EnhancedWebRTCManager × List Signal) (sender : SocketId) (pc : Link) : Prop :=
  jsGet r.1.ignoreOffer sender = some true ∧ r.2 = [] ∧
    jsGet r.1.peerConnections sender = some pc

/-- The run `r` of the offer handler accepted the offer: `ignoreOffer` is cleared for the
sender, the sender's link has the offer as its remote description, and exactly one signal is
emitted, the answer addressed to the sender. -/
def Accepted (br : Browser) (r : EnhancedWebRTCManager × List Signal) (offer : Description)
    (sender : SocketId) : Prop :=
  jsGet r.1.ignoreOffer sender = some false ∧
    (∃ pc', jsGet r.1.peerConnections sender = some pc' ∧ pc'.remoteDescription = some offer) ∧
    r.2 = [{ event := "answer", target := sender,
             description := some { type := "answer", sdp := br.answerSdp } }]

/-- The glare rule with the roles as C12 assigns them: in a collision the polite side accepts
the offer and the impolite side drops it. -/
def GlareRuleAsStated (br : Browser) (m : EnhancedWebRTCManager) (offer : Description)
    (sender : SocketId) : Prop :=
  ∀ pc, Collision m offer sender pc →
    (isPolite m.socketId sender = true →
      Accepted br (handleOfferWithPerfectNegotiation br m offer sender) offer sender) ∧
    (isPolite m.socketId sender = false →
      Ignored (handleOfferWithPerfectNegotiation br m offer sender) sender pc)

/-- The buffered candidates that one replay applies: those that carry a candidate string and
for which `addIceCandidate` returns, in buffer order. -/
def appliedBy (br : Browser) (candidates : List (Option Candidate)) : List Candidate :=
  candidates.filterMap (fun c =>
    match c with
    | some x => if usable (some x) && br.addIceCandidateOk x then some x else none
    | none => none)

/-- The buffered candidates that one replay leaves in the buffer: null candidates, candidates
without a candidate string, and those for which `addIceCandidate` threw, in buffer order. -/
def keptBy (br : Browser) (candidates : List (Option Candidate)) : List (Option Candidate) :=
  candidates.filter (fun c =>
    match c with
    | some x => !(usable (some x) && br.addIceCandidateOk x)
    | none => true)

/-- The statement of C16: a replay for a peer whose link has a remote description applies all
buffered candidates in arrival order and leaves the buffer empty. -/
def ReplayThenClear (br : Browser) (m : EnhancedWebRTCManager) (remoteSocketId : SocketId) :
    Prop :=
  ∀ pc candidates, jsGet m.peerConnections remoteSocketId = some pc →
    pc.remoteDescription.isSome = true →
    jsGet m.pendingCandidates remoteSocketId = some candidates →
    jsGet (processBufferedCandidates br m remoteSocketId).pendingCandidates remoteSocketId
        = some [] ∧
      ∃ pc', jsGet (processBufferedCandidates br m remoteSocketId).peerConnections
          remoteSocketId = some pc' ∧
        pc'.applied = pc.applied ++ candidates.filterMap id

/-- Sequential runs of `processBufferedCandidates` for one peer, one `Browser` per run. -/
def replay (brs : List Browser) (m : EnhancedWebRTCManager) (remoteSocketId : SocketId) :
    EnhancedWebRTCManager :=
  brs.foldl (fun acc br => processBufferedCandidates br acc remoteSocketId) m

/-- The candidates applied by sequential replays that start from the buffer `candidates`. -/
def appliedByAll : List Browser → List (Option Candidate) → List Candidate
  | [], _ => []
  | br :: rest, candidates => appliedBy br candidates ++ appliedByAll rest (keptBy br candidates)

/-- The statement of C17: after one or more sequential replays for a peer whose link has a
remote description, the candidates applied by the replays are the buffered candidates, each
once, in arrival order. -/
def ReplayAppliesEachOnce (brs : List Browser) (m : EnhancedWebRTCManager)
    (remoteSocketId : SocketId) : Prop :=
  ∀ pc candidates, jsGet m.peerConnections remoteSocketId = some pc →
    pc.remoteDescription.isSome = true →
    jsGet m.pendingCandidates remoteSocketId = some candidates →
    brs ≠ [] →
    ∃ pc', jsGet (replay brs m remoteSocketId).peerConnections remoteSocketId = some pc' ∧
      pc'.applied = pc.applied ++ candidates.filterMap id

/-- What C19 asks of the manager `m'` reached from `m` by creating a link for `r`: exactly one
link is stored under `r`; it is a new object with no description and no candidate; the link
stored under `r` before, if any, has been closed; the three flags of `r` are false and its
buffer is empty; and the five maps are as before at every other peer. -/
def FreshLinkFor (m m' : EnhancedWebRTCManager) (r : SocketId) : Prop :=
  (jsKeys m'.peerConnections).count r = 1 ∧
    (∃ pc, jsGet m'.peerConnections r = some pc ∧ pc.lid = m.nextLinkId ∧
      pc.remoteDescription = none ∧ pc.applied = []) ∧
    (∀ old, jsGet m.peerConnections r = some old → old.lid ∈ m'.closedLinks) ∧
    jsGet m'.makingOffer r = some false ∧
    jsGet m'.ignoreOffer r = some false ∧
    jsGet m'.isSettingRemoteDescription r = some false ∧
    jsGet m'.pendingCandidates r = some [] ∧
    (∀ t, t ≠ r →
      jsGet m'.peerConnections t = jsGet m.peerConnections t ∧
      jsGet m'.makingOffer t = jsGet m.makingOffer t ∧
      jsGet m'.ignoreOffer t = jsGet m.ignoreOffer t ∧
      jsGet m'.isSettingRemoteDescription t = jsGet m.isSettingRemoteDescription t ∧
      jsGet m'.pendingCandidates t = jsGet m.pendingCandidates t)

/-- The restart offer that `performIceRestart` emits to `remoteSocketId`. -/
def restartOffer (br : Browser) (remoteSocketId : SocketId) : Signal :=
  { event := "offer", target := remoteSocketId,
    description := some { type := "offer", sdp := br.offerSdp }, iceRestart := true }

end EnhancedWebRTCManager

/-! ## A concrete glare: peers `A` and `B` offer to each other -/

/-- A browser in which every call returns. -/
def allOk : Browser :=
  { newLinkOk := true, addTrackOk := true, createOfferOk := true, createAnswerOk := true,
    setLocalOk := true, setRemoteOk := true, addIceCandidateOk := fun _ => true,
    offerSdp := "v=0 offer", answerSdp := "v=0 answer" }

/-- The offer that `allOk` produces. -/
def theOffer : Description := { type := "offer", sdp := "v=0 offer" }

/-- The answer that `allOk` produces. -/
def theAnswer : Description := { type := "answer", sdp := "v=0 answer" }

/-- The link of a peer that has sent its own offer and waits for the answer. -/
def offering : Link :=
  { lid := 0, signalingState := SignalingState.haveLocalOffer,
    localDescription := some theOffer }

/-- Peer `A` after `createPeerConnection("B", true)`: its offer to `B` is in flight. -/
def peerA : EnhancedWebRTCManager :=
  (EnhancedWebRTCManager.createPeerConnection allOk { socketId := "A" } "B" true).1

/-- Peer `B` after `createPeerConnection("A", true)`: its offer to `A` is in flight. -/
def peerB : EnhancedWebRTCManager :=
  (EnhancedWebRTCManager.createPeerConnection allOk { socketId := "B" } "A" true).1

/-- A candidate with a candidate string. -/
def cand1 : Candidate := { oid := 1, candidate := "candidate:1 1 udp 2122260223 10.0.0.1 5000" }

/-- A second candidate with a candidate string. -/
def cand2 : Candidate := { oid := 2, candidate := "candidate:2 1 udp 2122260222 10.0.0.2 5001" }

/-- The end-of-candidates marker: a candidate object whose candidate string is empty. -/
def candEnd : Candidate := { oid := 3, candidate := "" }

/-- Peer `A` with B's offer applied as remote description and three candidates in the buffer. -/
def peerABuffered : EnhancedWebRTCManager :=
  { socketId := "A"
    peerConnections := [("B", { lid := 0, remoteDescription := some theOffer })]
    pendingCandidates := [("B", [some cand1, some candEnd, some cand2])]
    makingOffer := [("B", false)]
    ignoreOffer := [("B", false)]
    isSettingRemoteDescription := [("B", false)]
    nextLinkId := 1 }

/-- A participant-side manager after `createPeerConnection("H", true)`: its offer to `H` is in
flight and the link has no remote description yet. -/
def joiner : WebRTCConnectionManager :=
  (WebRTCConnectionManager.createPeerConnection allOk {} "H" true).1

/-- Peer `B` after `createPeerConnection("A", false)`: a fresh link to `A`, no offer made. -/
def idleB : EnhancedWebRTCManager :=
  (EnhancedWebRTCManager.createPeerConnection allOk { socketId := "B" } "A" false).1

/-- The `connection-state-change` report that `onconnectionstatechange` emits first. -/
def EnhancedWebRTCManager.stateReport (remoteSocketId : SocketId) : Signal :=
  { event := "connection-state-change", target := remoteSocketId }

/-- The grace timer that peer `A` holds for its link to `B`. -/
def graceTimer : Timer := { remoteSocketId := "B", lid := 0, delay := 3000 }

/-! ## The relay's health sweep, and statements about the back-references -/

/-- The connection health sweep (`src/call.js`, lines 42-61), run every 30000 ms, at time `now`:
meeting by meeting, the keys of the participants with `now - lastHeartbeat > 60000` are
collected and each is sent `connection-health-check`. The registry is returned as it was: the
callback assigns to nothing but its local `unhealthy`. The difference of two dates is a signed
number of milliseconds. -/
def healthSweep (s : State) (now : Nat) : State × List Emit :=
  (s, s.meetings.flatMap (fun entry =>
    let unhealthy := (entry.2.participants.filter (fun e =>
      decide ((now : Int) - (e.2.lastHeartbeat : Int) > 60000))).map (fun e => e.1)
    unhealthy.map (fun socketId => ⟨Target.socket socketId, "connection-health-check"⟩)))

/-- What `change-meeting-name` does with a name that passes its test (lines 204-217): the
meeting as mutated by `updateMeetingName` is stored, and the room hears `meeting-name-changed`
when the method reports success, the sender `action-error` otherwise. -/
def renamed (cls : MeetingClass) (s : State) (info : ParticipantInfo) (meeting : Meeting)
    (newName : String) : State × List Emit :=
  ({ s with meetings := jsSet s.meetings info.meetingId (cls.updateMeetingName meeting newName).1 },
   [if (cls.updateMeetingName meeting newName).2
    then ⟨Target.room info.meetingId, "meeting-name-changed"⟩
    else ⟨Target.sender, "action-error"⟩])

/-- The statement that for an authorised caller the test of `change-meeting-name` is on the
length alone: a name of length 1 to 100 reaches `updateMeetingName`, a name of length 0 or
more than 100 is answered with `action-error` and changes nothing. The length is the one the
handler reads, `newName.length`. -/
def NameLengthRuleAsStated (cls : MeetingClass) (s : State) (sid : SocketId) : Prop :=
  ∀ newName info meeting, jsGet s.participants sid = some info →
    jsGet s.meetings info.meetingId = some meeting →
    cls.canChangeMeetingName meeting sid = true →
    (1 ≤ jsLength newName ∧ jsLength newName ≤ 100 →
      changeMeetingName cls s sid { newName := some newName }
        = renamed cls s info meeting newName) ∧
    (jsLength newName = 0 ∨ 100 < jsLength newName →
      changeMeetingName cls s sid { newName := some newName }
        = (s, [⟨Target.sender, "action-error"⟩]))

/-- The name has no code point but white space (the empty name included): `trim()` leaves
nothing of it. -/
def isBlank (newName : String) : Prop :=
  ∀ c ∈ newName.data, jsWhiteSpace c = true

/-- A name of one no-break space, U+00A0. -/
def noBreakSpace : String := ⟨[Char.ofNat 0xA0]⟩

/-- A name of one vertical tab, U+000B. -/
def verticalTab : String := ⟨[Char.ofNat 0xB]⟩

/-- A name of 51 code points beyond the basic plane (U+1F600), 102 code units long. -/
def fiftyOneEmoji : String := ⟨List.replicate 51 (Char.ofNat 0x1F600)⟩

/-- Every back-reference names a registered meeting that has the connection among its
participants. -/
def BackReferencesSound (s : State) : Prop :=
  ∀ e ∈ s.participants, ∃ meeting, jsGet s.meetings e.2.meetingId = some meeting ∧
    (jsGet meeting.participants e.1).isSome = true

/-- Every back-reference whose connection is a participant of the meeting it names carries the
`isHost` of that participant. -/
def HostFlagsAgree (s : State) : Prop :=
  ∀ e ∈ s.participants, ∀ meeting p, jsGet s.meetings e.2.meetingId = some meeting →
    jsGet meeting.participants e.1 = some p → e.2.isHost = p.isHost

/-! ## Client side: the participant list (`public/meetingHost/ParticipantManager.js`) -/

namespace ParticipantManager

/-- `updateParticipants(participants, localSocketId)` (lines 9-22; `meetingHost.js`, lines
752-763, holds a copy with the same body): the map is cleared and refilled from the list in
order, and the entry the local id had before is put back when the list did not bring one. The
argument `old` is `this.participants` before the call, the result is the map after it. -/
def updateParticipants (old : List (SocketId × Participant)) (participants : List Participant)
    (localSocketId : SocketId) : List (SocketId × Participant) :=
  let localParticipant := jsGet old localSocketId
  let cleared : List (SocketId × Participant) := []
  let filled := participants.foldl (fun acc p => jsSet acc p.socketId p) cleared
  match localParticipant with
  | some lp => if !jsHas filled localSocketId then jsSet filled localSocketId lp else filled
  | none => filled

end ParticipantManager

namespace ParticipantMeeting

/-- `updateParticipants(participants)` of `public/meetingJoin/ParticipantMeeting.js` (lines
455-468), on the map and on `detailsManager.isCoHost`, with `socketId` for `this.socket.id`:
as in the host's manager, and each list entry of the local id also sets the co-host flag. The
rendering calls that follow are not modelled. -/
def updateParticipants (old : List (SocketId × Participant)) (isCoHost : Bool)
    (socketId : SocketId) (participants : List Participant) :
    List (SocketId × Participant) × Bool :=
  let localParticipant := jsGet old socketId
  let cleared : List (SocketId × Participant) := []
  let filled := participants.foldl
    (fun acc p => (jsSet acc.1 p.socketId p, if p.socketId = socketId then p.isCoHost else acc.2))
    (cleared, isCoHost)
  match localParticipant with
  | some lp =>
    if !jsHas filled.1 socketId then (jsSet filled.1 socketId lp, filled.2) else filled
  | none => filled

end ParticipantMeeting

/-! ## Client side: the grid of video tiles (`public/meetingHost/videoLayout.js`) -/

/-- A child of the grid container: a video wrapper made by `createVideoWrapper` for one
participant, or a `grid-row` element holding such wrappers. -/
inductive GridNode where
  | tile (participant : Participant)
  | row (tiles : List Participant)
  deriving DecidableEq, Repr

/-- The grid container: its class name and its children in document order. The inline style
the standard layout sets is not modelled. -/
structure Container where
  className : String := ""
  children : List GridNode := []
  deriving DecidableEq, Repr

/-- `Array.prototype.slice(start, end)` for indices that are not negative. -/
def jsSlice {α : Type} (xs : List α) (start stop : Nat) : List α :=
  (xs.take stop).drop start

/-- The participants of the tiles under the container, read in document order (a row
contributes its tiles from left to right). -/
def Container.tiles (c : Container) : List Participant :=
  c.children.flatMap (fun n =>
    match n with
    | GridNode.tile p => [p]
    | GridNode.row ps => ps)

namespace VideoLayout

/-- `renderStandardGridLayout` (lines 131-165): one tile per participant, appended in order. -/
def renderStandardGridLayout (participants : List Participant) (container : Container) :
    Container :=
  { container with children := container.children ++ participants.map GridNode.tile }

/-- The `switch` of `renderCustomGridLayout` (lines 66-116) for the counts that build rows. -/
def customRows (participants : List Participant) (count : Nat) : List (List Participant) :=
  match count with
  | 3 => [jsSlice participants 0 2, jsSlice participants 2 3]
  | 4 => [jsSlice participants 0 2, jsSlice participants 2 4]
  | 5 => [jsSlice participants 0 3, jsSlice participants 3 5]
  | 6 => [jsSlice participants 0 3, jsSlice participants 3 6]
  | 7 => [jsSlice participants 0 4, jsSlice participants 4 7]
  | 8 => [jsSlice participants 0 4, jsSlice participants 4 8]
  | 9 => [jsSlice participants 0 5, jsSlice participants 5 9]
  | 11 => [jsSlice participants 0 4, jsSlice participants 4 8, jsSlice participants 8 11]
  | 12 => [jsSlice participants 0 4, jsSlice participants 4 8, jsSlice participants 8 12]
  | 13 => [jsSlice participants 0 5, jsSlice participants 5 10, jsSlice participants 10 13]
  | 14 => [jsSlice participants 0 5, jsSlice participants 5 10, jsSlice participants 10 14]
  | 15 => [jsSlice participants 0 5, jsSlice participants 5 10, jsSlice participants 10 15]
  | _ => []

/-- `renderCustomGridLayout` (lines 63-129): for two participants the tiles go straight under
the container; otherwise each row of the `switch` becomes a `grid-row` child. -/
def renderCustomGridLayout (participants : List Participant) (container : Container)
    (count : Nat) : Container :=
  if count = 2 then
    { container with children := container.children ++ participants.map GridNode.tile }
  else
    { container with
      children := container.children ++ (customRows participants count).map GridNode.row }

/-- `renderGridLayout` (lines 50-61): the custom layout for 2 to 9 and 11 to 15 participants,
the standard one for every other count. -/
def renderGridLayout (participants : List Participant) (container : Container) : Container :=
  let participantCount := participants.length
  if participantCount = 15 ∨ participantCount = 12 ∨ participantCount = 13 ∨
      participantCount = 14 ∨ participantCount = 11 ∨ participantCount = 2 ∨
      participantCount = 7 ∨ participantCount = 8 ∨ participantCount = 9 ∨
      (3 ≤ participantCount ∧ participantCount ≤ 6) then
    renderCustomGridLayout participants
      { container with
        className := "secondary-videos-section custom-layout participants-"
          ++ toString participantCount }
      participantCount
  else
    renderStandardGridLayout participants
      { container with className := "secondary-videos-section standard-grid" }

end VideoLayout

/-! ## Statements about the flags and the entries of other peers -/

namespace EnhancedWebRTCManager

/-- The handler `onnegotiationneeded` of the link stored under `remoteSocketId` (lines
345-364). Browser behaviour (WebRTC API): `setLocalDescription()` without argument creates and
sets an answer when a remote offer is pending and an offer otherwise. A link that left the map
has been closed first, and a closed link fires no event. -/
def onnegotiationneeded (br : Browser) (m : EnhancedWebRTCManager) (remoteSocketId : SocketId) :
    EnhancedWebRTCManager × List Signal :=
  match jsGet m.peerConnections remoteSocketId with
  | none => (m, [])
  | some peerConnection =>
    if br.setLocalOk then
      let answering :=
        decide (peerConnection.signalingState = SignalingState.haveRemoteOffer) ||
          decide (peerConnection.signalingState = SignalingState.haveLocalPranswer)
      let description : Description :=
        if answering then { type := "answer", sdp := br.answerSdp }
        else { type := "offer", sdp := br.offerSdp }
      ({ m with
         peerConnections := jsSet m.peerConnections remoteSocketId
           { peerConnection with
             localDescription := some description
             signalingState :=
               if answering then SignalingState.stable else SignalingState.haveLocalOffer }
         makingOffer := jsSet (jsSet m.makingOffer remoteSocketId true) remoteSocketId false },
       [{ event := "offer", target := remoteSocketId, description := some description }])
    else
      ({ m with
         makingOffer := jsSet (jsSet m.makingOffer remoteSocketId true) remoteSocketId false },
       [])

/-- The five per-peer entries of peer `t` are in `m'` what they are in `m`. -/
def Untouched (m m' : EnhancedWebRTCManager) (t : SocketId) : Prop :=
  jsGet m'.peerConnections t = jsGet m.peerConnections t ∧
  jsGet m'.makingOffer t = jsGet m.makingOffer t ∧
  jsGet m'.ignoreOffer t = jsGet m.ignoreOffer t ∧
  jsGet m'.isSettingRemoteDescription t = jsGet m.isSettingRemoteDescription t ∧
  jsGet m'.pendingCandidates t = jsGet m.pendingCandidates t

end EnhancedWebRTCManager

/-- Peer `A` with its offer to `B` in flight and a fresh link to a third peer `C`. -/
def peerAWithC : EnhancedWebRTCManager :=
  (EnhancedWebRTCManager.createPeerConnection allOk peerA "C" false).1

/-! ## Client side: screen sharing

`public/meetingHost/webrtcManager.js` (host) and `public/meetingJoin/screen-share.js`
(participant). Two tracks are the same object when their `tid` agree. Stopping the tracks of
the screen stream and the changes to the page are not modelled. -/

/-- `peerConnections.forEach(callback)` for a callback that catches what it throws: every link
is what the callback leaves of it. -/
def forEachLink (callback : Link → Link) (links : List (SocketId × Link)) :
    List (SocketId × Link) :=
  links.map (fun e => (e.1, callback e.2))

/-- A `for ... of` loop over the links whose body may throw (`none`): the links when the loop
ends, and whether it ran to its end. The link at which the body throws and the links after it
are left as they were. -/
def forOfLinks (body : Link → Option Link) :
    List (SocketId × Link) → List (SocketId × Link) × Bool
  | [] => ([], true)
  | (socketId, pc) :: rest =>
    match body pc with
    | none => ((socketId, pc) :: rest, false)
    | some pc' => ((socketId, pc') :: (forOfLinks body rest).1, (forOfLinks body rest).2)

/-- An emission to the relay that names no peer. -/
def toRelay (event : String) : Signal := { event := event, target := "" }

namespace EnhancedWebRTCManager

/-- The test of lines 119-122: the sender has a video track that is not the screen track. -/
def isOtherVideo (screenVideoTrack : Track) (sender : Sender) : Bool :=
  match sender.track with
  | some t => decide (t.kind = "video") && decide (t.tid ≠ screenVideoTrack.tid)
  | none => false

/-- The tests of lines 178-182 and 192-196: the sender has a track of the given kind that
`tracks` includes. -/
def carriesOneOf (kind : String) (tracks : List Track) (sender : Sender) : Bool :=
  match sender.track with
  | some t => decide (t.kind = kind) && tracks.any (fun x => decide (x.tid = t.tid))
  | none => false

/-- The callback of the first `forEach` of `startScreenShare` (lines 116-134) on one link: the
first sender with a video track other than the screen track gets the screen track by
`replaceTrack`; without such a sender the screen track is added. -/
def shareVideoOn (br : Browser) (screenVideoTrack : Track) (pc : Link) : Link :=
  if pc.senders.any (isOtherVideo screenVideoTrack) then
    if br.replaceTrackOk then
      { pc with
        senders := (replaceFirst (isOtherVideo screenVideoTrack) screenVideoTrack pc.senders) }
    else pc
  else if br.addTrackOk then pc.addTrack screenVideoTrack
  else pc

/-- The method `startScreenShare` (lines 84-159): the manager afterwards, and whether the
method returned (`true`) or threw. -/
def startScreenShare (br : Browser) (m : EnhancedWebRTCManager) : EnhancedWebRTCManager × Bool :=
  match br.displayMedia with
  | none => ({ m with isScreenSharing := false }, false)
  | some stream =>
    let m := { m with screenStream := some stream, isScreenSharing := true }
    let m :=
      match (getVideoTracks stream).head? with
      | some screenVideoTrack =>
        { m with peerConnections :=
            forEachLink (shareVideoOn br screenVideoTrack) m.peerConnections }
      | none => m
    let m :=
      match (getAudioTracks stream).head? with
      | some screenAudioTrack =>
        let addAudio := fun (pc : Link) =>
          if br.addTrackOk then pc.addTrack screenAudioTrack else pc
        { m with peerConnections := forEachLink addAudio m.peerConnections }
      | none => m
    (m, true)

/-- The callback of the `forEach` of `stopScreenShare` (lines 175-206) on one link. When a
sender carries a video track of the screen stream and the camera stream has a video track, the
callback waits for `replaceTrack`; it resumes after line 209 has set `this.screenStream` to
null, so its filter of the audio senders throws or finds nothing, and no audio sender is
removed. Otherwise the senders that carry an audio track of the screen stream are removed. -/
def unshareOn (br : Browser) (localStream : Option (List Track)) (screenStream : List Track)
    (pc : Link) : Link :=
  let isScreenVideo := carriesOneOf "video" (getVideoTracks screenStream)
  let isScreenAudio := carriesOneOf "audio" (getAudioTracks screenStream)
  let cameraVideoTrack :=
    match localStream with
    | some stream => (getVideoTracks stream).head?
    | none => none
  match pc.senders.any isScreenVideo, cameraVideoTrack with
  | true, some camera =>
    if br.replaceTrackOk then
      { pc with senders := replaceFirst isScreenVideo camera pc.senders }
    else pc
  | _, _ => pc.removeTracks isScreenAudio

/-- The method `stopScreenShare` (lines 161-218). -/
def stopScreenShare (br : Browser) (m : EnhancedWebRTCManager) : EnhancedWebRTCManager :=
  match m.screenStream with
  | none => m
  | some stream =>
    { m with
      peerConnections := forEachLink (unshareOn br m.localStream stream) m.peerConnections
      screenStream := none
      isScreenSharing := false }

/-- The handler `screenVideoTrack.onended` that `startScreenShare` installs (lines 100-114):
the manager afterwards, the `data-active` attribute of the share button, and the emissions. -/
def onended (br : Browser) (m : EnhancedWebRTCManager) :
    EnhancedWebRTCManager × Bool × List Signal :=
  (stopScreenShare br m, false, [toRelay "stop-screen-share"])

end EnhancedWebRTCManager

namespace HostMeeting

/-- `toggleScreenShare(button)` of `public/meetingHost/meetingHost.js` (lines 542-572), with
`isActive` for the `data-active` attribute of the button: the manager afterwards, the attribute
afterwards, and the emissions. -/
def toggleScreenShare (br : Browser) (isActive : Bool) (m : EnhancedWebRTCManager) :
    EnhancedWebRTCManager × Bool × List Signal :=
  if isActive then
    (EnhancedWebRTCManager.stopScreenShare br m, false, [toRelay "stop-screen-share"])
  else
    let started := EnhancedWebRTCManager.startScreenShare br m
    if started.2 then (started.1, true, [toRelay "start-screen-share"])
    else (started.1, isActive, [])

end HostMeeting

namespace ScreenShareManager

/-- `getSenders().find(s => s.track && s.track.kind === kind)` followed, when a sender is found
and `track` is defined, by `await sender.replaceTrack(track)`: `none` when the call throws. -/
def replaceKind (br : Browser) (kind : String) (track : Option Track) (pc : Link) :
    Option Link :=
  match track with
  | none => some pc
  | some t =>
    if pc.senders.any (fun s => s.sends kind) then
      if br.replaceTrackOk then
        some { pc with senders := replaceFirst (fun s => s.sends kind) t pc.senders }
      else none
    else some pc

/-- The bodies of the two audio loops of `startScreenShare` (lines 55-67 and 71-83): the first
audio sender gets `track`, and a link without audio sender gets `track` added. -/
def shareAudioOn (br : Browser) (track : Track) (pc : Link) : Option Link :=
  if pc.senders.any (fun s => s.sends "audio") then replaceKind br "audio" (some track) pc
  else if br.addTrackOk then some (pc.addTrack track)
  else none

/-- The method `startScreenShare` (lines 7-124) on the `WebRTCConnectionManager` it drives: the
manager afterwards, and whether the method returned (`true`) or threw. -/
def startScreenShare (br : Browser) (w : WebRTCConnectionManager) :
    WebRTCConnectionManager × Bool :=
  match br.displayMedia with
  | none => (w, false)
  | some stream =>
    let w := { w with screenStream := some stream }
    let screenVideoTrack := (getVideoTracks stream).head?
    let video := forOfLinks (replaceKind br "video" screenVideoTrack) w.peerConnections
    let w := { w with peerConnections := video.1 }
    if !video.2 then (w, false)
    else
      let audio :=
        match (getAudioTracks stream).head? with
        | none => (w.peerConnections, true)
        | some systemAudioTrack =>
          match br.combinedAudio with
          | some combinedAudioStream =>
            match (getAudioTracks combinedAudioStream).head? with
            | some combinedAudioTrack =>
              forOfLinks (shareAudioOn br combinedAudioTrack) w.peerConnections
            | none => (w.peerConnections, true)
          | none => forOfLinks (shareAudioOn br systemAudioTrack) w.peerConnections
      let w := { w with peerConnections := audio.1 }
      if !audio.2 then (w, false)
      else
        match screenVideoTrack with
        | none => (w, false)
        | some _ => ({ w with isScreenSharing := true }, true)

/-- The method `stopScreenShare` (lines 176-227): the manager afterwards, and whether the
method returned (`true`) or threw; it has no `try`. -/
def stopScreenShare (br : Browser) (w : WebRTCConnectionManager) :
    WebRTCConnectionManager × Bool :=
  let w := { w with screenStream := none }
  match w.localStream with
  | none => ({ w with isScreenSharing := false }, true)
  | some stream =>
    let videoTrack := (getVideoTracks stream).head?
    let audioTrack :=
      match w.originalMicrophoneTrack with
      | some t => some t
      | none => (getAudioTracks stream).head?
    let restored := forOfLinks (fun pc =>
      match replaceKind br "video" videoTrack pc with
      | none => none
      | some pc' => replaceKind br "audio" audioTrack pc') w.peerConnections
    let w := { w with peerConnections := restored.1 }
    if restored.2 then ({ w with isScreenSharing := false }, true)
    else (w, false)

/-- The handler `screenVideoTrack.onended` that `startScreenShare` installs (lines 106-109),
with `isActive` for the `data-active` attribute of the share button: it calls
`stopScreenShare()` and nothing else. -/
def onended (br : Browser) (isActive : Bool) (w : WebRTCConnectionManager) :
    WebRTCConnectionManager × Bool × List Signal :=
  ((stopScreenShare br w).1, isActive, [])

end ScreenShareManager

namespace ParticipantMeeting

/-- `toggleScreenShare(button)` of `public/meetingJoin/ParticipantMeeting.js` (lines 594-611),
with `isActive` for the `data-active` attribute of the button: the manager afterwards, the
attribute afterwards, and the emissions. When `stopScreenShare` throws, the method ends
there. -/
def toggleScreenShare (br : Browser) (isActive : Bool) (w : WebRTCConnectionManager) :
    WebRTCConnectionManager × Bool × List Signal :=
  if isActive then
    let stopped := ScreenShareManager.stopScreenShare br w
    if stopped.2 then (stopped.1, false, [toRelay "stop-screen-share"])
    else (stopped.1, isActive, [])
  else
    let started := ScreenShareManager.startScreenShare br w
    if started.2 then (started.1, true, [toRelay "start-screen-share"])
    else (started.1, isActive, [])

end ParticipantMeeting

/-! ## Statements and a scenario for screen sharing -/

/-- `getSenders().find(s => s.track && s.track.kind === 'video')`: the outgoing video sender of
the link. -/
def Link.videoSender (pc : Link) : Option Sender :=
  pc.senders.find? (fun s => s.sends "video")

/-- What a round of start and stop of the screen share has to leave of link `pc`: the same
link object, whose video sender carries the camera track, and, when the capture had no audio
track, as many `addTrack` and `removeTrack` calls and as many senders as before. -/
def RoundTrip (pc pc' : Link) (camera : Track) (capture : List Track) : Prop :=
  pc'.lid = pc.lid ∧ pc'.videoSender = some { track := some camera } ∧
    (getAudioTracks capture = [] →
      pc'.trackOps = pc.trackOps ∧ pc'.senders.length = pc.senders.length)

/-- The camera track of the scenario. -/
def cameraTrack : Track := { tid := 1, kind := "video" }

/-- The microphone track of the scenario. -/
def microphoneTrack : Track := { tid := 2, kind := "audio" }

/-- The video track of the screen capture of the scenario. -/
def screenTrack : Track := { tid := 3, kind := "video" }

/-- A browser in which every call returns and the screen capture has a video track only. -/
def capturing : Browser := { allOk with displayMedia := some [screenTrack] }

/-- Host `A` with camera and microphone and a link to `B` that sends both. -/
def hostOnCamera : EnhancedWebRTCManager :=
  (EnhancedWebRTCManager.createPeerConnection allOk
    { socketId := "A", localStream := some [microphoneTrack, cameraTrack] } "B" false).1

/-- A participant with camera and microphone and a link to `H` that sends both. -/
def participantOnCamera : WebRTCConnectionManager :=
  (WebRTCConnectionManager.createPeerConnection allOk
    { localStream := some [microphoneTrack, cameraTrack],
      originalMicrophoneTrack := some microphoneTrack } "H" false).1

/-- The participant of the scenario while it shares its screen. -/
def participantSharing : WebRTCConnectionManager :=
  (ScreenShareManager.startScreenShare capturing participantOnCamera).1

/-- The host of the scenario while it shares its screen. -/
def hostSharing : EnhancedWebRTCManager :=
  (EnhancedWebRTCManager.startScreenShare capturing hostOnCamera).1

/-- The link of the scenario before the share: it sends the microphone and the camera. -/
def cameraLink : Link :=
  { lid := 0
    senders := [{ track := some microphoneTrack }, { track := some cameraTrack }]
    trackOps := 2 }

/-! ## Lemmas on the map operations -/

theorem mem_of_jsGet {β : Type} {m : List (String × β)} {k : String} {v : β}
    (h : jsGet m k = some v) : (k, v) ∈ m := by
  induction m with
  | nil => simp [jsGet] at h
  | cons e rest ih =>
    obtain ⟨k', v'⟩ := e
    simp only [jsGet] at h
    split at h
    · next hk =>
      cases h
      subst hk
      exact List.mem_cons_self _ _
    · exact List.mem_cons_of_mem _ (ih h)

theorem jsGet_jsSet_self {β : Type} (m : List (String × β)) (k : String) (v : β) :
    jsGet (jsSet m k v) k = some v := by
  induction m with
  | nil => simp [jsSet, jsGet]
  | cons e rest ih =>
    obtain ⟨k', v'⟩ := e
    by_cases hk : k' = k
    · simp [jsSet, jsGet, hk]
    · simp [jsSet, jsGet, hk, ih]

theorem jsGet_jsSet_ne {β : Type} (m : List (String × β)) {k k' : String} (v : β)
    (hne : k' ≠ k) : jsGet (jsSet m k v) k' = jsGet m k' := by
  induction m with
  | nil =>
    have : ¬ k = k' := fun h => hne h.symm
    simp [jsSet, jsGet, this]
  | cons e rest ih =>
    obtain ⟨k₀, v₀⟩ := e
    simp only [jsSet]
    split_ifs with hk
    · have : ¬ k₀ = k' := fun h => hne (h.symm.trans hk)
      simp [jsGet, this]
    · simp only [jsGet, ih]

theorem jsGet_jsDelete_self {β : Type} (m : List (String × β)) (k : String) :
    jsGet (jsDelete m k) k = none := by
  induction m with
  | nil => simp [jsDelete, jsGet]
  | cons e rest ih =>
    obtain ⟨k', v'⟩ := e
    simp only [jsDelete, List.filter_cons] at ih ⊢
    split_ifs with hk
    · have : ¬ k' = k := by simpa using hk
      simp only [jsGet, this, if_false]
      exact ih
    · exact ih

theorem jsGet_jsDelete_ne {β : Type} (m : List (String × β)) {k k' : String}
    (hne : k' ≠ k) : jsGet (jsDelete m k) k' = jsGet m k' := by
  induction m with
  | nil => simp [jsDelete, jsGet]
  | cons e rest ih =>
    obtain ⟨k₀, v₀⟩ := e
    simp only [jsDelete, List.filter_cons] at ih ⊢
    split_ifs with hk
    · simp only [jsGet, ih]
    · have h0 : k₀ = k := by simpa using hk
      have : ¬ k₀ = k' := fun h => hne (h.symm.trans h0)
      simp only [jsGet, this, if_false]
      exact ih

theorem mem_jsSet {β : Type} {m : List (String × β)} {k : String} {v : β} {e : String × β}
    (h : e ∈ jsSet m k v) : e ∈ m ∨ e.2 = v := by
  induction m with
  | nil =>
    simp only [jsSet, List.mem_singleton] at h
    exact Or.inr (by rw [h])
  | cons e₀ rest ih =>
    obtain ⟨k₀, v₀⟩ := e₀
    simp only [jsSet] at h
    split at h
    · rcases List.mem_cons.1 h with h | h
      · exact Or.inr (by rw [h])
      · exact Or.inl (List.mem_cons_of_mem _ h)
    · rcases List.mem_cons.1 h with h | h
      · exact Or.inl (by rw [h]; exact List.mem_cons_self _ _)
      · rcases ih h with h | h
        · exact Or.inl (List.mem_cons_of_mem _ h)
        · exact Or.inr h

theorem mem_jsDelete {β : Type} {m : List (String × β)} {k : String} {e : String × β}
    (h : e ∈ jsDelete m k) : e ∈ m ∧ e.1 ≠ k := by
  simpa [jsDelete, List.mem_filter] using h

/-! ## The single-host invariant -/

theorem hosts_jsSet_nonhost (ps : List (SocketId × Participant)) (k : SocketId)
    (p : Participant) (hp : p.isHost = false) :
    ((jsSet ps k p).filter (fun e => e.2.isHost)).length
      ≤ (ps.filter (fun e => e.2.isHost)).length := by
  induction ps with
  | nil => simp [jsSet, hp]
  | cons e rest ih =>
    obtain ⟨k', v'⟩ := e
    by_cases hk : k' = k
    · by_cases hv : v'.isHost = true
      · simp [jsSet, hk, List.filter_cons, hp, hv]
      · simp [jsSet, hk, List.filter_cons, hp, hv]
    · by_cases hv : v'.isHost = true
      · simpa [jsSet, hk, List.filter_cons, hv] using ih
      · simpa [jsSet, hk, List.filter_cons, hv] using ih

theorem hosts_jsDelete_le (ps : List (SocketId × Participant)) (k : SocketId) :
    ((jsDelete ps k).filter (fun e => e.2.isHost)).length
      ≤ (ps.filter (fun e => e.2.isHost)).length :=
  ((List.filter_sublist ps).filter _).length_le

theorem hosts_jsDelete_host (ps : List (SocketId × Participant)) (k : SocketId)
    (p : Participant) (h : jsGet ps k = some p) (hp : p.isHost = true) :
    ((jsDelete ps k).filter (fun e => e.2.isHost)).length + 1
      ≤ (ps.filter (fun e => e.2.isHost)).length := by
  induction ps with
  | nil => simp [jsGet] at h
  | cons e rest ih =>
    obtain ⟨k', v'⟩ := e
    by_cases hk : k' = k
    · have hv : v' = p := by simpa [jsGet, hk] using h
      have hle := hosts_jsDelete_le rest k
      have hd : jsDelete ((k', v') :: rest) k = jsDelete rest k := by
        simp [jsDelete, List.filter_cons, hk]
      rw [hd]
      simp only [List.filter_cons, hv, hp, if_true, List.length_cons]
      omega
    · have h' : jsGet rest k = some p := by simpa [jsGet, hk] using h
      have := ih h'
      have hd : jsDelete ((k', v') :: rest) k = (k', v') :: jsDelete rest k := by
        simp [jsDelete, List.filter_cons, hk]
      rw [hd]
      by_cases hv : v'.isHost = true
      · simp only [List.filter_cons, hv, if_true, List.length_cons]
        omega
      · simp only [List.filter_cons, hv, if_false]
        exact this

theorem hosts_modifyFirst (pred : Participant → Bool) (ps : List (SocketId × Participant)) :
    ((modifyFirst pred Participant.makeHost ps).filter (fun e => e.2.isHost)).length
      ≤ (ps.filter (fun e => e.2.isHost)).length + 1 := by
  induction ps with
  | nil => simp [modifyFirst]
  | cons e rest ih =>
    obtain ⟨k', v'⟩ := e
    by_cases hk : pred v' = true
    · by_cases hv : v'.isHost = true
      · simp [modifyFirst, hk, List.filter_cons, Participant.makeHost, hv]
      · simp [modifyFirst, hk, List.filter_cons, Participant.makeHost, hv]
    · by_cases hv : v'.isHost = true
      · simpa [modifyFirst, hk, List.filter_cons, hv] using ih
      · simpa [modifyFirst, hk, List.filter_cons, hv] using ih

theorem hosts_promoteNewHost (ps : List (SocketId × Participant)) :
    ((promoteNewHost ps).filter (fun e => e.2.isHost)).length
      ≤ (ps.filter (fun e => e.2.isHost)).length + 1 := by
  unfold promoteNewHost
  split_ifs
  · exact hosts_modifyFirst _ ps
  · exact hosts_modifyFirst _ ps

theorem singleHost_jsSet {ms : List (MeetingId × Meeting)} {k : MeetingId} {m : Meeting}
    (h : ∀ e ∈ ms, hostCount e.2 ≤ 1) (hm : hostCount m ≤ 1) :
    ∀ e ∈ jsSet ms k m, hostCount e.2 ≤ 1 := by
  intro e he
  rcases mem_jsSet he with h1 | h1
  · exact h e h1
  · rw [h1]; exact hm

theorem singleHost_jsDelete {ms : List (MeetingId × Meeting)} {k : MeetingId}
    (h : ∀ e ∈ ms, hostCount e.2 ≤ 1) :
    ∀ e ∈ jsDelete ms k, hostCount e.2 ≤ 1 :=
  fun e he => h e (mem_jsDelete he).1

theorem joinAsHost_singleHost (s : State) (sid : SocketId) (data : Data) (now : Nat)
    (statsOk : Bool) (h : SingleHost s) : SingleHost (joinAsHost s sid data now statsOk).1 := by
  unfold joinAsHost
  by_cases hv : validateData data ["meetingId", "hostName"] = true
  · simp only [hv, Bool.not_true, Bool.false_eq_true, if_false]
    cases data.meetingId with
    | none => exact h
    | some mid =>
      cases data.hostName with
      | none => exact h
      | some hn =>
        apply singleHost_jsSet h
        cases data.meetingName with
        | none => simp [hostCount, addParticipant, Meeting.new, jsSet]
        | some n =>
          dsimp only
          split_ifs <;> simp [hostCount, addParticipant, Meeting.new, jsSet]
  · simp only [hv, Bool.not_false, if_true]
    exact h

theorem joinMeeting_singleHost (s : State) (sid : SocketId) (data : Data) (now : Nat)
    (statsOk : Bool) (h : SingleHost s) : SingleHost (joinMeeting s sid data now statsOk).1 := by
  unfold joinMeeting
  by_cases hv : validateData data ["meetingId", "participantName"] = true
  · simp only [hv, Bool.not_true, Bool.false_eq_true, if_false]
    cases data.meetingId with
    | none => exact h
    | some mid =>
      cases data.participantName with
      | none => exact h
      | some pn =>
        dsimp only
        cases hm : jsGet s.meetings mid with
        | none => exact h
        | some meeting =>
          dsimp only
          by_cases hl : (meeting.isLocked && !jsHas meeting.participants sid) = true
          · simp only [hl, if_true]
            exact h
          · simp only [hl, if_false]
            apply singleHost_jsSet h
            have h1 := h _ (mem_of_jsGet hm)
            have h2 := hosts_jsSet_nonhost meeting.participants sid
              { socketId := sid, name := pn, isHost := false, isCoHost := false,
                lastHeartbeat := now } rfl
            simp only [hostCount, addParticipant] at h1 ⊢
            exact le_trans h2 h1
  · simp only [hv, Bool.not_false, if_true]
    exact h

theorem hostLeaveMeeting_singleHost (s : State) (sid : SocketId) (data : Data)
    (h : SingleHost s) : SingleHost (hostLeaveMeeting s sid data).1 := by
  unfold hostLeaveMeeting
  by_cases hv : validateData data ["meetingId"] = true
  · simp only [hv, Bool.not_true, Bool.false_eq_true, if_false]
    cases data.meetingId with
    | none => exact h
    | some mid =>
      dsimp only
      cases jsGet s.participants sid with
      | none => exact h
      | some info =>
        dsimp only
        cases hm : jsGet s.meetings mid with
        | none => exact h
        | some meeting =>
          dsimp only
          cases hp : jsGet meeting.participants sid with
          | none => exact h
          | some participant =>
            dsimp only
            by_cases hh : participant.isHost = true
            · simp only [hh, Bool.not_true, Bool.false_eq_true, if_false]
              have h1 : hostCount meeting ≤ 1 := h _ (mem_of_jsGet hm)
              have h2 := hosts_jsDelete_host meeting.participants sid participant hp hh
              cases findNewHost (removeParticipant meeting sid).participants with
              | none =>
                dsimp only
                apply singleHost_jsDelete
                apply singleHost_jsSet h
                exact le_trans (hosts_jsDelete_le meeting.participants sid) h1
              | some newHost =>
                dsimp only
                apply singleHost_jsSet h
                have h3 := hosts_promoteNewHost (jsDelete meeting.participants sid)
                have h4 : ((jsDelete meeting.participants sid).filter
                    (fun e => e.2.isHost)).length = 0 :=
                  Nat.le_zero.1 (Nat.le_of_succ_le_succ (le_trans h2 h1))
                rw [h4] at h3
                exact h3
            · simp only [hh, Bool.not_false, if_true]
              exact h
  · simp only [hv, Bool.not_false, if_true]
    exact h

theorem endMeetingForAll_singleHost (s : State) (sid : SocketId) (data : Data)
    (h : SingleHost s) : SingleHost (endMeetingForAll s sid data).1 := by
  unfold endMeetingForAll
  by_cases hv : validateData data ["meetingId"] = true
  · simp only [hv, Bool.not_true, Bool.false_eq_true, if_false]
    cases data.meetingId with
    | none => exact h
    | some mid =>
      dsimp only
      cases jsGet s.participants sid with
      | none => exact h
      | some info =>
        dsimp only
        cases jsGet s.meetings mid with
        | none => exact h
        | some meeting =>
          dsimp only
          cases jsGet meeting.participants sid with
          | none => exact h
          | some participant =>
            dsimp only
            by_cases hh : participant.isHost = true
            · simp only [hh, Bool.not_true, Bool.false_eq_true, if_false]
              exact singleHost_jsDelete h
            · simp only [hh, Bool.not_false, if_true]
              exact h
  · simp only [hv, Bool.not_false, if_true]
    exact h

theorem disconnect_singleHost (s : State) (sid : SocketId)
    (h : SingleHost s) : SingleHost (disconnect s sid).1 := by
  unfold disconnect
  cases jsGet s.participants sid with
  | none => exact h
  | some info =>
    dsimp only
    cases hm : jsGet s.meetings info.meetingId with
    | none => exact h
    | some meeting =>
      dsimp only
      have h1 : hostCount meeting ≤ 1 := h _ (mem_of_jsGet hm)
      have h4 : hostCount (removeParticipant meeting sid) ≤ 1 :=
        le_trans (hosts_jsDelete_le meeting.participants sid) h1
      by_cases hh : info.isHost = true
      · simp only [hh, if_true]
        exact singleHost_jsDelete (singleHost_jsSet h h4)
      · simp only [hh, if_false]
        exact singleHost_jsSet h h4

theorem step_singleHost (s : State) (ev : Event) (h : SingleHost s) :
    SingleHost (step s ev) := by
  cases ev with
  | joinAsHost sid data now statsOk => exact joinAsHost_singleHost s sid data now statsOk h
  | joinMeeting sid data now statsOk => exact joinMeeting_singleHost s sid data now statsOk h
  | hostLeaveMeeting sid data => exact hostLeaveMeeting_singleHost s sid data h
  | endMeetingForAll sid data => exact endMeetingForAll_singleHost s sid data h
  | disconnect sid => exact disconnect_singleHost s sid h

theorem run_singleHost (evs : List Event) (s : State) (h : SingleHost s) :
    SingleHost (run s evs) := by
  induction evs generalizing s with
  | nil => exact h
  | cons ev rest ih => exact ih (step s ev) (step_singleHost s ev h)

/-- C1. Single-host invariant: after any finite sequence of join-as-host, join-meeting,
host-leave-meeting, end-meeting-for-all and disconnect requests handled from the empty
registry, every meeting of the registry has at most one participant whose `isHost` is set. -/
theorem C1_single_host_invariant (evs : List Event) (mid : MeetingId) (m : Meeting)
    (hm : (mid, m) ∈ (run State.empty evs).meetings) : hostCount m ≤ 1 :=
  run_singleHost evs State.empty (by intro e he; cases he) (mid, m) hm

/-- An instance of C1: after `H` creates `M1`, `P1` joins and `H` host-leaves, the registry holds `M1` with the single host `P1`. -/
theorem C1_single_host_invariant_witness :
    ("M1", m1 "P1" "Pia" [("P1", pia.makeHost)])
        ∈ (run State.empty (hostThenJoin ++ [Event.hostLeaveMeeting "H" leaveData])).meetings
      ∧ hostCount (m1 "P1" "Pia" [("P1", pia.makeHost)]) ≤ 1 :=
  ⟨by decide,
   C1_single_host_invariant (hostThenJoin ++ [Event.hostLeaveMeeting "H" leaveData]) "M1"
     (m1 "P1" "Pia" [("P1", pia.makeHost)]) (by decide)⟩

/-! ## Host transfer by `host-leave-meeting` -/

theorem validateData_meetingId (data : Data) (mid : MeetingId)
    (hdata : data.meetingId = some mid) : validateData data ["meetingId"] = true := by
  simp [validateData, Data.has, hdata]

/-- The registry after an accepted host-leave: every guard of the handler passes. -/
theorem hostLeaveMeeting_accepted (s : State) (sid : SocketId) (data : Data) (mid : MeetingId)
    (info : ParticipantInfo) (meeting : Meeting) (host : Participant)
    (hdata : data.meetingId = some mid)
    (hinfo : jsGet s.participants sid = some info)
    (hmeet : jsGet s.meetings mid = some meeting)
    (hhost : jsGet meeting.participants sid = some host)
    (hisHost : host.isHost = true) :
    (hostLeaveMeeting s sid data).1 =
      match findNewHost (jsDelete meeting.participants sid) with
      | some newHost =>
        { meetings := jsSet s.meetings mid
            { removeParticipant meeting sid with
              participants := promoteNewHost (jsDelete meeting.participants sid)
              hostId := newHost.socketId
              hostName := newHost.name }
          participants := jsDelete s.participants sid }
      | none =>
        { meetings := jsDelete (jsSet s.meetings mid (removeParticipant meeting sid)) mid
          participants := jsDelete s.participants sid } := by
  unfold hostLeaveMeeting
  simp only [validateData_meetingId data mid hdata, hdata, hinfo, hmeet, hhost, hisHost,
    Bool.not_true, Bool.false_eq_true, if_false]
  have e : (removeParticipant meeting sid).participants
      = jsDelete meeting.participants sid := rfl
  simp only [e]
  cases findNewHost (jsDelete meeting.participants sid) <;> rfl

theorem find?_cohost_append (pre post : List (SocketId × Participant)) (k : SocketId)
    (p : Participant) (hpre : ∀ e ∈ pre, e.2.isCoHost = false) (hco : p.isCoHost = true) :
    (pre ++ (k, p) :: post).find? (fun e => e.2.isCoHost) = some (k, p) := by
  induction pre with
  | nil => simp [List.find?, hco]
  | cons e rest ih =>
    have he : e.2.isCoHost = false := hpre e (List.mem_cons_self _ _)
    have := ih (fun x hx => hpre x (List.mem_cons_of_mem _ hx))
    simpa [List.find?, he] using this

theorem modifyFirst_cohost_append (pre post : List (SocketId × Participant)) (k : SocketId)
    (p : Participant) (hpre : ∀ e ∈ pre, e.2.isCoHost = false) (hco : p.isCoHost = true) :
    modifyFirst (fun q => q.isCoHost) Participant.makeHost (pre ++ (k, p) :: post)
      = pre ++ (k, p.makeHost) :: post := by
  induction pre with
  | nil => simp [modifyFirst, hco]
  | cons e rest ih =>
    obtain ⟨k', v'⟩ := e
    have he : v'.isCoHost = false := hpre (k', v') (List.mem_cons_self _ _)
    have := ih (fun x hx => hpre x (List.mem_cons_of_mem _ hx))
    simp [modifyFirst, he, this]

theorem jsGet_append_of_keys_ne {β : Type} (pre post : List (String × β)) (k : String)
    (hpre : ∀ e ∈ pre, e.1 ≠ k) : jsGet (pre ++ post) k = jsGet post k := by
  induction pre with
  | nil => rfl
  | cons e rest ih =>
    obtain ⟨k', v'⟩ := e
    have he : ¬ k' = k := hpre (k', v') (List.mem_cons_self _ _)
    have := ih (fun x hx => hpre x (List.mem_cons_of_mem _ hx))
    simp [jsGet, he, this]

theorem jsGet_eq_none_of_keys_ne {β : Type} (m : List (String × β)) (k : String)
    (h : ∀ e ∈ m, e.1 ≠ k) : jsGet m k = none := by
  induction m with
  | nil => rfl
  | cons e rest ih =>
    obtain ⟨k', v'⟩ := e
    have he : ¬ k' = k := h (k', v') (List.mem_cons_self _ _)
    have := ih (fun x hx => h x (List.mem_cons_of_mem _ hx))
    simp [jsGet, he, this]

theorem findNewHost_cohost (pre post : List (SocketId × Participant)) (k : SocketId)
    (p : Participant) (hpre : ∀ e ∈ pre, e.2.isCoHost = false) (hco : p.isCoHost = true) :
    findNewHost (pre ++ (k, p) :: post) = some p := by
  unfold findNewHost
  rw [find?_cohost_append pre post k p hpre hco]

theorem promoteNewHost_cohost (pre post : List (SocketId × Participant)) (k : SocketId)
    (p : Participant) (hpre : ∀ e ∈ pre, e.2.isCoHost = false) (hco : p.isCoHost = true) :
    promoteNewHost (pre ++ (k, p) :: post) = pre ++ (k, p.makeHost) :: post := by
  unfold promoteNewHost
  have hany : (pre ++ (k, p) :: post).any (fun e => e.2.isCoHost) = true := by
    simp [List.any_append, hco]
  rw [if_pos hany]
  exact modifyFirst_cohost_append pre post k p hpre hco

/-- C2. Host transfer to a co-host: when the host leaves through host-leave-meeting and a
remaining participant is a co-host, the first co-host in insertion order (entry `(k, p)`, after
the non-co-hosts `pre`) ends with `isHost = true` and `isCoHost = false` in place, the meeting's
`hostId` and `hostName` are that participant's socket id and name, the departing host is no
longer a participant, and the meeting is still in the registry. -/
theorem C2_host_leave_promotes_first_cohost (s : State) (sid : SocketId) (data : Data)
    (mid : MeetingId) (info : ParticipantInfo) (meeting : Meeting) (host : Participant)
    (pre post : List (SocketId × Participant)) (k : SocketId) (p : Participant)
    (hdata : data.meetingId = some mid)
    (hinfo : jsGet s.participants sid = some info)
    (hmeet : jsGet s.meetings mid = some meeting)
    (hhost : jsGet meeting.participants sid = some host)
    (hisHost : host.isHost = true)
    (hrem : jsDelete meeting.participants sid = pre ++ (k, p) :: post)
    (hpre : ∀ e ∈ pre, e.2.isCoHost = false)
    (hco : p.isCoHost = true) :
    ∃ m', jsGet (hostLeaveMeeting s sid data).1.meetings mid = some m' ∧
      m'.participants = pre ++ (k, { p with isHost := true, isCoHost := false }) :: post ∧
      m'.hostId = p.socketId ∧ m'.hostName = p.name ∧
      jsGet m'.participants sid = none ∧
      ((∀ e ∈ pre, e.1 ≠ k) →
        jsGet m'.participants k = some { p with isHost := true, isCoHost := false }) := by
  rw [hostLeaveMeeting_accepted s sid data mid info meeting host hdata hinfo hmeet hhost hisHost,
    hrem, findNewHost_cohost pre post k p hpre hco, promoteNewHost_cohost pre post k p hpre hco]
  refine ⟨_, jsGet_jsSet_self _ _ _, rfl, rfl, rfl, ?_, ?_⟩
  · apply jsGet_eq_none_of_keys_ne
    intro e he
    have hkeys : ∀ x ∈ pre ++ (k, p) :: post, x.1 ≠ sid := by
      intro x hx
      rw [← hrem] at hx
      exact (mem_jsDelete hx).2
    rcases List.mem_append.1 he with h1 | h1
    · exact hkeys e (List.mem_append_left _ h1)
    · rcases List.mem_cons.1 h1 with h2 | h2
      · rw [h2]
        exact hkeys (k, p) (List.mem_append_right _ (List.mem_cons_self _ _))
      · exact hkeys e (List.mem_append_right _ (List.mem_cons_of_mem _ h2))
  · intro hk
    show jsGet (pre ++ (k, p.makeHost) :: post) k = some p.makeHost
    rw [jsGet_append_of_keys_ne pre _ k hk]
    simp [jsGet]

/-- An instance of C2: in `M1` with host `H`, participant `P1` and co-host `P2`, the host-leave of `H` promotes `P2`, not `P1`. -/
theorem C2_host_leave_promotes_first_cohost_witness :
    ∃ m', jsGet (hostLeaveMeeting withCoHost "H" leaveData).1.meetings "M1" = some m' ∧
      m'.participants
        = [("P1", pia)] ++ ("P2", { zoe with isHost := true, isCoHost := false }) :: [] ∧
      m'.hostId = zoe.socketId ∧ m'.hostName = zoe.name ∧
      jsGet m'.participants "H" = none ∧
      ((∀ e ∈ [("P1", pia)], e.1 ≠ "P2") →
        jsGet m'.participants "P2" = some { zoe with isHost := true, isCoHost := false }) :=
  C2_host_leave_promotes_first_cohost withCoHost "H" leaveData "M1"
    { meetingId := "M1", isHost := true }
    (m1 "H" "Hana" [("H", hana), ("P1", pia), ("P2", zoe)]) hana [("P1", pia)] [] "P2" zoe
    (by decide) (by decide) (by decide) (by decide) (by decide) (by decide) (by decide)
    (by decide)

theorem find?_cohost_none (ps : List (SocketId × Participant))
    (hno : ∀ e ∈ ps, e.2.isCoHost = false) :
    ps.find? (fun e => e.2.isCoHost) = none := by
  rw [List.find?_eq_none]
  intro e he
  simp [hno e he]

theorem any_cohost_false (ps : List (SocketId × Participant))
    (hno : ∀ e ∈ ps, e.2.isCoHost = false) :
    ps.any (fun e => e.2.isCoHost) = false := by
  rw [List.any_eq_false]
  intro e he
  simp [hno e he]

theorem findNewHost_first (k : SocketId) (p : Participant)
    (rest : List (SocketId × Participant))
    (hno : ∀ e ∈ (k, p) :: rest, e.2.isCoHost = false) :
    findNewHost ((k, p) :: rest) = some p := by
  unfold findNewHost
  rw [find?_cohost_none _ hno]
  rfl

theorem promoteNewHost_first (k : SocketId) (p : Participant)
    (rest : List (SocketId × Participant))
    (hno : ∀ e ∈ (k, p) :: rest, e.2.isCoHost = false) :
    promoteNewHost ((k, p) :: rest) = (k, p.makeHost) :: rest := by
  unfold promoteNewHost
  rw [any_cohost_false _ hno]
  simp [modifyFirst]

/-- C3. Host transfer without a co-host: when the host leaves through host-leave-meeting, no
remaining participant is a co-host and one remains, the first remaining participant in
insertion order (entry `(k, p)`) becomes the host, and the meeting persists with exactly the
remaining participants and its spotlight unchanged. In the scenario of meeting `M1` with host
`H` and participant `P1`, after the host-leave of `H` the registry holds `M1` with the single
participant `P1`, who is host. -/
theorem C3_host_leave_promotes_first_participant (s : State) (sid : SocketId) (data : Data)
    (mid : MeetingId) (info : ParticipantInfo) (meeting : Meeting) (host : Participant)
    (k : SocketId) (p : Participant) (rest : List (SocketId × Participant))
    (hdata : data.meetingId = some mid)
    (hinfo : jsGet s.participants sid = some info)
    (hmeet : jsGet s.meetings mid = some meeting)
    (hhost : jsGet meeting.participants sid = some host)
    (hisHost : host.isHost = true)
    (hrem : jsDelete meeting.participants sid = (k, p) :: rest)
    (hno : ∀ e ∈ (k, p) :: rest, e.2.isCoHost = false) :
    (∃ m', jsGet (hostLeaveMeeting s sid data).1.meetings mid = some m' ∧
      m'.participants = (k, { p with isHost := true, isCoHost := false }) :: rest ∧
      jsGet m'.participants k = some { p with isHost := true, isCoHost := false } ∧
      jsKeys m'.participants = jsKeys (jsDelete meeting.participants sid) ∧
      m'.hostId = p.socketId ∧ m'.hostName = p.name ∧
      m'.spotlightedParticipant = meeting.spotlightedParticipant) ∧
    run State.empty (hostThenJoin ++ [Event.hostLeaveMeeting "H" leaveData]) =
      { meetings := [("M1", m1 "P1" "Pia" [("P1", { pia with isHost := true })])]
        participants := [("P1", { meetingId := "M1", isHost := false })] } := by
  refine ⟨?_, by decide⟩
  rw [hostLeaveMeeting_accepted s sid data mid info meeting host hdata hinfo hmeet hhost hisHost,
    hrem, findNewHost_first k p rest hno, promoteNewHost_first k p rest hno]
  refine ⟨_, jsGet_jsSet_self _ _ _, rfl, ?_, ?_, rfl, rfl, rfl⟩
  · simp [jsGet, Participant.makeHost]
  · simp [jsKeys]

/-- An instance of C3: in `M1` with host `H` and participant `P1`, the host-leave of `H` promotes `P1`. -/
theorem C3_host_leave_promotes_first_participant_witness :
    (∃ m', jsGet (hostLeaveMeeting (run State.empty hostThenJoin) "H" leaveData).1.meetings "M1"
        = some m' ∧
      m'.participants = ("P1", { pia with isHost := true, isCoHost := false }) :: [] ∧
      jsGet m'.participants "P1" = some { pia with isHost := true, isCoHost := false } ∧
      jsKeys m'.participants = jsKeys (jsDelete [("H", hana), ("P1", pia)] "H") ∧
      m'.hostId = pia.socketId ∧ m'.hostName = pia.name ∧
      m'.spotlightedParticipant = none) ∧
    run State.empty (hostThenJoin ++ [Event.hostLeaveMeeting "H" leaveData]) =
      { meetings := [("M1", m1 "P1" "Pia" [("P1", { pia with isHost := true })])]
        participants := [("P1", { meetingId := "M1", isHost := false })] } :=
  C3_host_leave_promotes_first_participant (run State.empty hostThenJoin) "H" leaveData "M1"
    { meetingId := "M1", isHost := true } (m1 "H" "Hana" [("H", hana), ("P1", pia)]) hana
    "P1" pia [] (by decide) (by decide) (by decide) (by decide) (by decide) (by decide)
    (by decide)

/-- C4. When the host leaves through host-leave-meeting and no participant remains after the
host's removal, the meeting is deleted from the registry and the back-reference of the host is
removed. -/
theorem C4_host_leave_last_deletes_meeting (s : State) (sid : SocketId) (data : Data)
    (mid : MeetingId) (info : ParticipantInfo) (meeting : Meeting) (host : Participant)
    (hdata : data.meetingId = some mid)
    (hinfo : jsGet s.participants sid = some info)
    (hmeet : jsGet s.meetings mid = some meeting)
    (hhost : jsGet meeting.participants sid = some host)
    (hisHost : host.isHost = true)
    (hrem : jsDelete meeting.participants sid = []) :
    jsGet (hostLeaveMeeting s sid data).1.meetings mid = none ∧
      (∀ e ∈ (hostLeaveMeeting s sid data).1.meetings, e.1 ≠ mid) ∧
      jsGet (hostLeaveMeeting s sid data).1.participants sid = none := by
  rw [hostLeaveMeeting_accepted s sid data mid info meeting host hdata hinfo hmeet hhost hisHost,
    hrem]
  exact ⟨jsGet_jsDelete_self _ _, fun e he => (mem_jsDelete he).2, jsGet_jsDelete_self _ _⟩

/-- An instance of C4: the host-leave of `H`, alone in `M1`, deletes `M1` and the back-reference of `H`. -/
theorem C4_host_leave_last_deletes_meeting_witness :
    jsGet (hostLeaveMeeting hostAlone "H" leaveData).1.meetings "M1" = none ∧
      (∀ e ∈ (hostLeaveMeeting hostAlone "H" leaveData).1.meetings, e.1 ≠ "M1") ∧
      jsGet (hostLeaveMeeting hostAlone "H" leaveData).1.participants "H" = none :=
  C4_host_leave_last_deletes_meeting hostAlone "H" leaveData "M1"
    { meetingId := "M1", isHost := true } (m1 "H" "Hana" [("H", hana)]) hana
    (by decide) (by decide) (by decide) (by decide) (by decide) (by decide)

/-! ## Disconnect -/

/-- C5, as stated, fails: in meeting `M1` with host `H` and participant `P1`, the disconnect
of `H` does not promote `P1`; the meeting is gone from the registry. -/
theorem C5_host_disconnect_counterexample :
    ¬ HostDisconnectPromotes (run State.empty hostThenJoin) "H" := by
  intro h
  obtain ⟨m', hm', _⟩ := h { meetingId := "M1", isHost := true }
    (m1 "H" "Hana" [("H", hana), ("P1", pia)]) (by decide) (by decide) (by decide)
    ⟨("P1", pia), by decide, by decide⟩
  have hd : (disconnect (run State.empty hostThenJoin) "H").1.meetings = [] := by decide
  rw [hd] at hm'
  cases hm'

/-- C5, amended. When the connection whose back-reference has `isHost` set disconnects and the
meeting named by the back-reference exists, that meeting is deleted from the registry whoever
remains in it, `meeting-ended` is broadcast to its room, the back-reference of the connection
is removed, and no other meeting of the registry changes. -/
theorem C5_host_disconnect_ends_meeting (s : State) (sid : SocketId) (info : ParticipantInfo)
    (meeting : Meeting)
    (hinfo : jsGet s.participants sid = some info)
    (hhost : info.isHost = true)
    (hmeet : jsGet s.meetings info.meetingId = some meeting) :
    jsGet (disconnect s sid).1.meetings info.meetingId = none ∧
      (∀ e ∈ (disconnect s sid).1.meetings, e.1 ≠ info.meetingId) ∧
      jsGet (disconnect s sid).1.participants sid = none ∧
      (⟨Target.room info.meetingId, "meeting-ended"⟩ : Emit) ∈ (disconnect s sid).2 ∧
      (∀ mid, mid ≠ info.meetingId →
        jsGet (disconnect s sid).1.meetings mid = jsGet s.meetings mid) := by
  unfold disconnect
  simp only [hinfo, hmeet, hhost, if_true]
  refine ⟨jsGet_jsDelete_self _ _, fun e he => (mem_jsDelete he).2, jsGet_jsDelete_self _ _,
    List.mem_cons_self _ _, ?_⟩
  intro mid hne
  rw [jsGet_jsDelete_ne _ hne, jsGet_jsSet_ne _ _ hne]

/-- An instance of the amended C5: the disconnect of host `H` deletes `M1` although `P1` is still in it. -/
theorem C5_host_disconnect_ends_meeting_witness :
    jsGet (disconnect (run State.empty hostThenJoin) "H").1.meetings "M1" = none ∧
      (∀ e ∈ (disconnect (run State.empty hostThenJoin) "H").1.meetings, e.1 ≠ "M1") ∧
      jsGet (disconnect (run State.empty hostThenJoin) "H").1.participants "H" = none ∧
      (⟨Target.room "M1", "meeting-ended"⟩ : Emit)
        ∈ (disconnect (run State.empty hostThenJoin) "H").2 ∧
      (∀ mid, mid ≠ "M1" →
        jsGet (disconnect (run State.empty hostThenJoin) "H").1.meetings mid
          = jsGet (run State.empty hostThenJoin).meetings mid) :=
  C5_host_disconnect_ends_meeting (run State.empty hostThenJoin) "H"
    { meetingId := "M1", isHost := true } (m1 "H" "Hana" [("H", hana), ("P1", pia)])
    (by decide) (by decide) (by decide)

/-- C6, the defect: host `H` creates `M1`, `P1` joins, `H` leaves through host-leave-meeting
(so `P1` is promoted while its back-reference keeps `isHost = false`), then `P1` disconnects:
the disconnect takes the non-host branch and `M1` stays in the registry with no participant. -/
theorem C6_empty_meeting_survives :
    run State.empty
        (hostThenJoin ++ [Event.hostLeaveMeeting "H" leaveData, Event.disconnect "P1"])
      = { meetings := [("M1", m1 "P1" "Pia" [])], participants := [] } := by
  decide

/-! ## Locked meetings -/

/-- C7. Locked join is rejected without effect: a well-formed join-meeting request to an
existing locked meeting from a connection that is not a participant of it leaves the registry
and the back-reference map unchanged (no participant added, no back-reference created) and
its only emission is `meeting-locked` to the sender. -/
theorem C7_locked_join_rejected (s : State) (sid : SocketId) (data : Data) (now : Nat)
    (statsOk : Bool) (mid : MeetingId) (meeting : Meeting)
    (hvalid : validateData data ["meetingId", "participantName"] = true)
    (hmid : data.meetingId = some mid)
    (hmeet : jsGet s.meetings mid = some meeting)
    (hlock : meeting.isLocked = true)
    (hnot : jsGet meeting.participants sid = none) :
    joinMeeting s sid data now statsOk = (s, [⟨Target.sender, "meeting-locked"⟩]) := by
  have hpn : ∃ pn, data.participantName = some pn := by
    cases h : data.participantName with
    | none => simp [validateData, Data.has, h] at hvalid
    | some pn => exact ⟨pn, rfl⟩
  obtain ⟨pn, hpn⟩ := hpn
  unfold joinMeeting
  simp [hvalid, hmid, hpn, hmeet, hlock, jsHas, hnot]

/-- An instance of C7: `P1` asks to join the locked meeting `M1` and nothing changes. -/
theorem C7_locked_join_rejected_witness :
    joinMeeting lockedM1 "P1" joinData 20 true = (lockedM1, [⟨Target.sender, "meeting-locked"⟩]) :=
  C7_locked_join_rejected lockedM1 "P1" joinData 20 true "M1"
    (m1 "H" "Hana" [("H", hana)]).lockMeeting (by decide) (by decide) (by decide) (by decide)
    (by decide)

/-! ## Creating a meeting under an existing id -/

theorem jsKeys_jsSet_of_get {β : Type} (m : List (String × β)) (k : String) (v v' : β)
    (h : jsGet m k = some v) : jsKeys (jsSet m k v') = jsKeys m := by
  induction m with
  | nil => simp [jsGet] at h
  | cons e rest ih =>
    obtain ⟨k₀, v₀⟩ := e
    by_cases hk : k₀ = k
    · simp [jsSet, jsKeys, hk]
    · have h' : jsGet rest k = some v := by simpa [jsGet, hk] using h
      have := ih h'
      simp only [jsKeys] at this
      simp [jsSet, jsKeys, hk, this]

/-- C8, as stated, fails: with `M1` held by host `H` and participant `P1`, a join-as-host of
connection `X` under the id `M1` is not rejected and the meeting stored under `M1` changes. -/
theorem C8_duplicate_create_counterexample :
    ¬ DuplicateCreateRejected (run State.empty hostThenJoin) "X"
        { meetingId := some "M1", hostName := some "Xena" } 30 false := by
  intro h
  have := h "M1" (m1 "H" "Hana" [("H", hana), ("P1", pia)]) (by decide) (by decide)
  revert this
  decide

/-- C8, amended. A well-formed join-as-host request whose `meetingId` is already a key of the
registry is not rejected: the entry under that id is overwritten in place (the keys of the
registry stay as they were) by a fresh meeting that is unlocked, has no spotlight, and whose
only participant is the caller, flagged as host; the meeting's `hostId` and `hostName` are the
caller's, the caller's back-reference names that id with `isHost` set, and the meetings under
all other ids are unchanged. -/
theorem C8_join_as_host_overwrites (s : State) (sid : SocketId) (data : Data) (now : Nat)
    (statsOk : Bool) (mid : MeetingId) (hn : String) (old : Meeting)
    (hmid : data.meetingId = some mid)
    (hhn : data.hostName = some hn)
    (hold : jsGet s.meetings mid = some old) :
    ∃ m', jsGet (joinAsHost s sid data now statsOk).1.meetings mid = some m' ∧
      m'.participants = [(sid, { socketId := sid, name := hn, isHost := true,
                                 isCoHost := false, lastHeartbeat := now })] ∧
      m'.hostId = sid ∧ m'.hostName = hn ∧ m'.isLocked = false ∧
      m'.spotlightedParticipant = none ∧
      jsKeys (joinAsHost s sid data now statsOk).1.meetings = jsKeys s.meetings ∧
      jsGet (joinAsHost s sid data now statsOk).1.participants sid
        = some { meetingId := mid, isHost := true } ∧
      (∀ k, k ≠ mid →
        jsGet (joinAsHost s sid data now statsOk).1.meetings k = jsGet s.meetings k) := by
  have hv : validateData data ["meetingId", "hostName"] = true := by
    simp [validateData, Data.has, hmid, hhn]
  unfold joinAsHost
  simp only [hv, hmid, hhn, Bool.not_true, Bool.false_eq_true, if_false]
  refine ⟨_, jsGet_jsSet_self _ _ _, ?_, ?_, ?_, ?_, ?_,
    jsKeys_jsSet_of_get _ _ _ _ hold, jsGet_jsSet_self _ _ _,
    fun k hk => jsGet_jsSet_ne _ _ hk⟩ <;>
  · cases data.meetingName with
    | none => simp [addParticipant, Meeting.new, jsSet]
    | some n =>
      dsimp only
      split_ifs <;> simp [addParticipant, Meeting.new, jsSet]

/-- An instance of the amended C8: connection `X` creates a meeting under the existing id `M1`. -/
theorem C8_join_as_host_overwrites_witness :
    ∃ m', jsGet (joinAsHost (run State.empty hostThenJoin) "X"
        { meetingId := some "M1", hostName := some "Xena" } 30 false).1.meetings "M1" = some m' ∧
      m'.participants = [("X", { socketId := "X", name := "Xena", isHost := true,
                                 isCoHost := false, lastHeartbeat := 30 })] ∧
      m'.hostId = "X" ∧ m'.hostName = "Xena" ∧ m'.isLocked = false ∧
      m'.spotlightedParticipant = none ∧
      jsKeys (joinAsHost (run State.empty hostThenJoin) "X"
        { meetingId := some "M1", hostName := some "Xena" } 30 false).1.meetings
        = jsKeys (run State.empty hostThenJoin).meetings ∧
      jsGet (joinAsHost (run State.empty hostThenJoin) "X"
        { meetingId := some "M1", hostName := some "Xena" } 30 false).1.participants "X"
        = some { meetingId := "M1", isHost := true } ∧
      (∀ k, k ≠ "M1" →
        jsGet (joinAsHost (run State.empty hostThenJoin) "X"
          { meetingId := some "M1", hostName := some "Xena" } 30 false).1.meetings k
          = jsGet (run State.empty hostThenJoin).meetings k) :=
  C8_join_as_host_overwrites (run State.empty hostThenJoin) "X"
    { meetingId := some "M1", hostName := some "Xena" } 30 false "M1" "Xena"
    (m1 "H" "Hana" [("H", hana), ("P1", pia)]) (by decide) (by decide) (by decide)

/-! ## End for all -/

theorem jsGet_foldl_jsDelete {β : Type} (ks : List String) (m : List (String × β))
    (k : String) (hk : k ∈ ks) :
    jsGet (ks.foldl (fun acc x => jsDelete acc x) m) k = none := by
  induction ks generalizing m with
  | nil => cases hk
  | cons k₀ rest ih =>
    simp only [List.foldl_cons]
    by_cases hmem : k ∈ rest
    · exact ih _ hmem
    · have hk0 : k = k₀ := by
        rcases List.mem_cons.1 hk with h | h
        · exact h
        · exact absurd h hmem
      subst hk0
      have hgen : ∀ (l : List String) (m' : List (String × β)), jsGet m' k = none →
          jsGet (l.foldl (fun acc x => jsDelete acc x) m') k = none := by
        intro l
        induction l with
        | nil => intro m' h; exact h
        | cons x l ihl =>
          intro m' h
          simp only [List.foldl_cons]
          apply ihl
          by_cases hx : k = x
          · rw [hx]; exact jsGet_jsDelete_self _ _
          · rw [jsGet_jsDelete_ne _ hx]; exact h
      exact hgen rest _ (jsGet_jsDelete_self _ _)

/-- C9, as stated, fails: after host `H` has created `M1` and `M2` and ended `M2`, `H` is a
participant of `M1` with `isHost` set but has no back-reference; its end-meeting-for-all for
`M1` returns at the back-reference guard and `M1` stays in the registry. -/
theorem C9_end_for_all_counterexample :
    ¬ EndForAllDeletes (run State.empty hostOfTwo) "H" leaveData := by
  intro h
  have := (h "M1" (m1 "H" "Hana" [("H", hana)]) hana (by decide) (by decide) (by decide)
    (by decide)).1
  revert this
  decide

/-- C9, amended. For every meeting and every caller that has a back-reference and is a
participant of the meeting with `isHost` set, after end-meeting-for-all naming that meeting
the meeting is absent from the registry, no connection that was a participant of it still has
a back-reference, and `meeting-ended` is broadcast to the room. -/
theorem C9_end_for_all_by_host (s : State) (sid : SocketId) (data : Data) (mid : MeetingId)
    (info : ParticipantInfo) (meeting : Meeting) (p : Participant)
    (hdata : data.meetingId = some mid)
    (hinfo : jsGet s.participants sid = some info)
    (hmeet : jsGet s.meetings mid = some meeting)
    (hpart : jsGet meeting.participants sid = some p)
    (hhost : p.isHost = true) :
    jsGet (endMeetingForAll s sid data).1.meetings mid = none ∧
      (∀ e ∈ (endMeetingForAll s sid data).1.meetings, e.1 ≠ mid) ∧
      (∀ e ∈ meeting.participants,
        jsGet (endMeetingForAll s sid data).1.participants e.1 = none) ∧
      (endMeetingForAll s sid data).2 = [⟨Target.room mid, "meeting-ended"⟩] := by
  unfold endMeetingForAll
  simp only [validateData_meetingId data mid hdata, hdata, hinfo, hmeet, hpart, hhost,
    Bool.not_true, Bool.false_eq_true, if_false]
  refine ⟨jsGet_jsDelete_self _ _, fun e he => (mem_jsDelete he).2, ?_, trivial⟩
  intro e he
  exact jsGet_foldl_jsDelete _ _ _ (List.mem_map_of_mem _ he)

/-- An instance of the amended C9: host `H`, who has a back-reference, ends `M1` for `H` and `P1`. -/
theorem C9_end_for_all_by_host_witness :
    jsGet (endMeetingForAll (run State.empty hostThenJoin) "H" leaveData).1.meetings "M1"
        = none ∧
      (∀ e ∈ (endMeetingForAll (run State.empty hostThenJoin) "H" leaveData).1.meetings,
        e.1 ≠ "M1") ∧
      (∀ e ∈ (m1 "H" "Hana" [("H", hana), ("P1", pia)]).participants,
        jsGet (endMeetingForAll (run State.empty hostThenJoin) "H" leaveData).1.participants e.1
          = none) ∧
      (endMeetingForAll (run State.empty hostThenJoin) "H" leaveData).2
        = [⟨Target.room "M1", "meeting-ended"⟩] :=
  C9_end_for_all_by_host (run State.empty hostThenJoin) "H" leaveData "M1"
    { meetingId := "M1", isHost := true } (m1 "H" "Hana" [("H", hana), ("P1", pia)]) hana
    (by decide) (by decide) (by decide) (by decide) (by decide)

/-! ## Rejected requests -/

theorem senderOnly_nil : senderOnly [] := by
  intro e he
  cases he

theorem senderOnly_single (ev : String) : senderOnly [⟨Target.sender, ev⟩] := by
  intro e he
  rw [List.mem_singleton.1 he]

theorem changeMeetingName_rejected (cls : MeetingClass) (s : State) (sid : SocketId)
    (data : Data)
    (h : validateData data ["newName"] = false ∨ renameAllowed cls s sid = false ∨
      ∃ n, data.newName = some n ∧ invalidMeetingName n = true) :
    (changeMeetingName cls s sid data).1 = s ∧
      senderOnly (changeMeetingName cls s sid data).2 := by
  unfold changeMeetingName
  by_cases hv : validateData data ["newName"] = true
  · simp only [hv, Bool.not_true, Bool.false_eq_true, if_false]
    cases hn : data.newName with
    | none => exact ⟨rfl, senderOnly_nil⟩
    | some newName =>
      dsimp only
      cases hi : jsGet s.participants sid with
      | none => exact ⟨rfl, senderOnly_single _⟩
      | some info =>
        dsimp only
        cases hm : jsGet s.meetings info.meetingId with
        | none => exact ⟨rfl, senderOnly_single _⟩
        | some meeting =>
          dsimp only
          by_cases hc : cls.canChangeMeetingName meeting sid = true
          · simp only [hc, Bool.not_true, Bool.false_eq_true, if_false]
            by_cases hb : invalidMeetingName newName = true
            · simp only [hb, if_true]
              exact ⟨trivial, senderOnly_single _⟩
            · exfalso
              rcases h with h | h | ⟨n, h1, h2⟩
              · rw [hv] at h; cases h
              · simp [renameAllowed, hi, hm, hc] at h
              · rw [hn] at h1
                cases h1
                exact hb h2
          · simp only [hc, Bool.not_false, if_true]
            exact ⟨trivial, senderOnly_single _⟩
  · simp only [hv, Bool.not_false, if_true]
    exact ⟨trivial, senderOnly_single _⟩

theorem toggleMeetingLock_rejected (cls : MeetingClass) (s : State) (sid : SocketId)
    (data : Data)
    (h : validateData data ["isLocked"] = false ∨ hostActionAllowed cls s sid = false) :
    (toggleMeetingLock cls s sid data).1 = s ∧
      senderOnly (toggleMeetingLock cls s sid data).2 := by
  unfold toggleMeetingLock
  by_cases hv : validateData data ["isLocked"] = true
  · simp only [hv, Bool.not_true, Bool.false_eq_true, if_false]
    cases data.isLocked with
    | none => exact ⟨rfl, senderOnly_nil⟩
    | some isLocked =>
      dsimp only
      cases hi : jsGet s.participants sid with
      | none => exact ⟨rfl, senderOnly_nil⟩
      | some info =>
        dsimp only
        cases hm : jsGet s.meetings info.meetingId with
        | none => exact ⟨rfl, senderOnly_single _⟩
        | some meeting =>
          dsimp only
          by_cases hc : cls.canPerformHostAction meeting sid = true
          · exfalso
            rcases h with h | h
            · rw [hv] at h; cases h
            · simp [hostActionAllowed, hi, hm, hc] at h
          · simp only [hc, Bool.not_false, if_true]
            exact ⟨trivial, senderOnly_single _⟩
  · simp only [hv, Bool.not_false, if_true]
    exact ⟨trivial, senderOnly_single _⟩

theorem updateMeetingPermissions_rejected (cls : MeetingClass) (s : State) (sid : SocketId)
    (data : Data)
    (h : validateData data ["permissions"] = false ∨ hostActionAllowed cls s sid = false) :
    (updateMeetingPermissions cls s sid data).1 = s ∧
      senderOnly (updateMeetingPermissions cls s sid data).2 := by
  unfold updateMeetingPermissions
  by_cases hv : validateData data ["permissions"] = true
  · simp only [hv, Bool.not_true, Bool.false_eq_true, if_false]
    cases data.permissions with
    | none => exact ⟨rfl, senderOnly_nil⟩
    | some permissions =>
      dsimp only
      cases hi : jsGet s.participants sid with
      | none => exact ⟨rfl, senderOnly_nil⟩
      | some info =>
        dsimp only
        cases hm : jsGet s.meetings info.meetingId with
        | none => exact ⟨rfl, senderOnly_single _⟩
        | some meeting =>
          dsimp only
          by_cases hc : cls.canPerformHostAction meeting sid = true
          · exfalso
            rcases h with h | h
            · rw [hv] at h; cases h
            · simp [hostActionAllowed, hi, hm, hc] at h
          · simp only [hc, Bool.not_false, if_true]
            exact ⟨trivial, senderOnly_single _⟩
  · simp only [hv, Bool.not_false, if_true]
    exact ⟨trivial, senderOnly_single _⟩

theorem endMeetingForAll_rejected (s : State) (sid : SocketId) (data : Data)
    (h : validateData data ["meetingId"] = false ∨
      ∀ mid, data.meetingId = some mid → isHostOf s sid mid = false) :
    (endMeetingForAll s sid data).1 = s ∧ senderOnly (endMeetingForAll s sid data).2 := by
  unfold endMeetingForAll
  by_cases hv : validateData data ["meetingId"] = true
  · simp only [hv, Bool.not_true, Bool.false_eq_true, if_false]
    cases hd : data.meetingId with
    | none => exact ⟨rfl, senderOnly_nil⟩
    | some mid =>
      dsimp only
      cases jsGet s.participants sid with
      | none => exact ⟨rfl, senderOnly_nil⟩
      | some info =>
        dsimp only
        cases hm : jsGet s.meetings mid with
        | none => exact ⟨rfl, senderOnly_nil⟩
        | some meeting =>
          dsimp only
          cases hp : jsGet meeting.participants sid with
          | none => exact ⟨rfl, senderOnly_single _⟩
          | some participant =>
            dsimp only
            by_cases hh : participant.isHost = true
            · exfalso
              rcases h with h | h
              · rw [hv] at h; cases h
              · have := h mid hd
                simp [isHostOf, hm, hp, hh] at this
            · simp only [hh, Bool.not_false, if_true]
              exact ⟨trivial, senderOnly_single _⟩
  · simp only [hv, Bool.not_false, if_true]
    exact ⟨trivial, senderOnly_single _⟩

theorem hostLeaveMeeting_rejected (s : State) (sid : SocketId) (data : Data)
    (h : validateData data ["meetingId"] = false ∨
      ∀ mid, data.meetingId = some mid → isHostOf s sid mid = false) :
    (hostLeaveMeeting s sid data).1 = s ∧ senderOnly (hostLeaveMeeting s sid data).2 := by
  unfold hostLeaveMeeting
  by_cases hv : validateData data ["meetingId"] = true
  · simp only [hv, Bool.not_true, Bool.false_eq_true, if_false]
    cases hd : data.meetingId with
    | none => exact ⟨rfl, senderOnly_nil⟩
    | some mid =>
      dsimp only
      cases jsGet s.participants sid with
      | none => exact ⟨rfl, senderOnly_nil⟩
      | some info =>
        dsimp only
        cases hm : jsGet s.meetings mid with
        | none => exact ⟨rfl, senderOnly_nil⟩
        | some meeting =>
          dsimp only
          cases hp : jsGet meeting.participants sid with
          | none => exact ⟨rfl, senderOnly_single _⟩
          | some participant =>
            dsimp only
            by_cases hh : participant.isHost = true
            · exfalso
              rcases h with h | h
              · rw [hv] at h; cases h
              · have := h mid hd
                simp [isHostOf, hm, hp, hh] at this
            · simp only [hh, Bool.not_false, if_true]
              exact ⟨trivial, senderOnly_single _⟩
  · simp only [hv, Bool.not_false, if_true]
    exact ⟨trivial, senderOnly_single _⟩

/-- C10. Rejections are atomic and local: for change-meeting-name, toggle-meeting-lock,
update-meeting-permissions, end-meeting-for-all and host-leave-meeting, whenever the payload
fails validation (a required field is missing, or the new name is empty, blank or too long) or
the caller does not pass the authorisation test of the handler, the registry and the
back-reference map are exactly as before and every emission goes to the sender only. This
holds for every `Meeting` class, that is whatever the two authorisation methods compute. -/
theorem C10_rejections_atomic (cls : MeetingClass) (s : State) (sid : SocketId) (data : Data) :
    ((validateData data ["newName"] = false ∨ renameAllowed cls s sid = false ∨
        ∃ n, data.newName = some n ∧ invalidMeetingName n = true) →
      (changeMeetingName cls s sid data).1 = s ∧
        senderOnly (changeMeetingName cls s sid data).2) ∧
    ((validateData data ["isLocked"] = false ∨ hostActionAllowed cls s sid = false) →
      (toggleMeetingLock cls s sid data).1 = s ∧
        senderOnly (toggleMeetingLock cls s sid data).2) ∧
    ((validateData data ["permissions"] = false ∨ hostActionAllowed cls s sid = false) →
      (updateMeetingPermissions cls s sid data).1 = s ∧
        senderOnly (updateMeetingPermissions cls s sid data).2) ∧
    ((validateData data ["meetingId"] = false ∨
        ∀ mid, data.meetingId = some mid → isHostOf s sid mid = false) →
      (endMeetingForAll s sid data).1 = s ∧ senderOnly (endMeetingForAll s sid data).2) ∧
    ((validateData data ["meetingId"] = false ∨
        ∀ mid, data.meetingId = some mid → isHostOf s sid mid = false) →
      (hostLeaveMeeting s sid data).1 = s ∧ senderOnly (hostLeaveMeeting s sid data).2) :=
  ⟨changeMeetingName_rejected cls s sid data, toggleMeetingLock_rejected cls s sid data,
   updateMeetingPermissions_rejected cls s sid data, endMeetingForAll_rejected s sid data,
   hostLeaveMeeting_rejected s sid data⟩

/-- An instance of C10: the five requests sent by participant `P1`, who is not the host of `M1`, with a payload that passes validation. -/
theorem C10_rejections_atomic_witness :
    ((changeMeetingName hostIdClass (run State.empty hostThenJoin) "P1" fullData).1
        = run State.empty hostThenJoin ∧
      senderOnly (changeMeetingName hostIdClass (run State.empty hostThenJoin) "P1" fullData).2) ∧
    ((toggleMeetingLock hostIdClass (run State.empty hostThenJoin) "P1" fullData).1
        = run State.empty hostThenJoin ∧
      senderOnly (toggleMeetingLock hostIdClass (run State.empty hostThenJoin) "P1" fullData).2) ∧
    ((updateMeetingPermissions hostIdClass (run State.empty hostThenJoin) "P1" fullData).1
        = run State.empty hostThenJoin ∧
      senderOnly
        (updateMeetingPermissions hostIdClass (run State.empty hostThenJoin) "P1" fullData).2) ∧
    ((endMeetingForAll (run State.empty hostThenJoin) "P1" fullData).1
        = run State.empty hostThenJoin ∧
      senderOnly (endMeetingForAll (run State.empty hostThenJoin) "P1" fullData).2) ∧
    ((hostLeaveMeeting (run State.empty hostThenJoin) "P1" fullData).1
        = run State.empty hostThenJoin ∧
      senderOnly (hostLeaveMeeting (run State.empty hostThenJoin) "P1" fullData).2) :=
  have h := C10_rejections_atomic hostIdClass (run State.empty hostThenJoin) "P1" fullData
  have hnot : ∀ mid, fullData.meetingId = some mid →
      isHostOf (run State.empty hostThenJoin) "P1" mid = false := by
    intro mid hm
    obtain rfl : "M1" = mid := Option.some.inj hm
    decide
  ⟨h.1 (Or.inr (Or.inl (by decide))), h.2.1 (Or.inr (by decide)),
   h.2.2.1 (Or.inr (by decide)), h.2.2.2.1 (Or.inr hnot), h.2.2.2.2 (Or.inr hnot)⟩


/-! ## Glare resolution -/

namespace EnhancedWebRTCManager

theorem isPolite_iff_lt (a b : SocketId) : isPolite a b = true ↔ a < b := by
  unfold isPolite
  rw [decide_eq_true_iff]
  exact String.lt_iff_toList_lt.symm

theorem isPolite_self (a : SocketId) : isPolite a a = false := by
  cases h : isPolite a a with
  | false => rfl
  | true => exact absurd ((isPolite_iff_lt a a).1 h) (lt_irrefl a)

theorem isPolite_swap (a b : SocketId) (hne : a ≠ b) :
    isPolite b a = !isPolite a b := by
  cases h : isPolite a b with
  | true =>
    have hab : a < b := (isPolite_iff_lt a b).1 h
    cases h' : isPolite b a with
    | false => rfl
    | true => exact absurd ((isPolite_iff_lt b a).1 h') (lt_asymm hab)
  | false =>
    have hab : ¬ a < b := fun hlt => by
      rw [(isPolite_iff_lt a b).2 hlt] at h
      cases h
    rcases lt_or_gt_of_ne hne with hlt | hgt
    · exact absurd hlt hab
    · exact (isPolite_iff_lt b a).2 hgt

end EnhancedWebRTCManager

/-- C11. Role assignment is deterministic and symmetric: the peer with identifier `a` regards
itself as polite towards `b` exactly when the character sequence of `a` is lexicographically
smaller than that of `b`; for distinct identifiers exactly one of the two peers is polite and
the other impolite; for `a = b` neither is polite. -/
theorem C11_role_assignment (a b : SocketId) :
    (EnhancedWebRTCManager.isPolite a b = true ↔ a.toList < b.toList) ∧
    (a ≠ b →
      (EnhancedWebRTCManager.isPolite a b = true ∧ EnhancedWebRTCManager.isPolite b a = false) ∨
      (EnhancedWebRTCManager.isPolite a b = false ∧ EnhancedWebRTCManager.isPolite b a = true)) ∧
    EnhancedWebRTCManager.isPolite a a = false := by
  refine ⟨by unfold EnhancedWebRTCManager.isPolite; exact decide_eq_true_iff,
    ?_, EnhancedWebRTCManager.isPolite_self a⟩
  intro hne
  have hs := EnhancedWebRTCManager.isPolite_swap a b hne
  cases h : EnhancedWebRTCManager.isPolite a b with
  | true => left; rw [h] at hs; exact ⟨rfl, by simpa using hs⟩
  | false => right; rw [h] at hs; exact ⟨rfl, by simpa using hs⟩

/-- An instance of C11: of the peers `A` and `B`, `A` is the polite one. -/
theorem C11_role_assignment_witness :
    EnhancedWebRTCManager.isPolite "A" "B" = true ∧
      EnhancedWebRTCManager.isPolite "B" "A" = false := by
  rcases (C11_role_assignment "A" "B").2.1 (by decide) with h | h
  · exact h
  · exact absurd h.1 (by decide)

namespace EnhancedWebRTCManager

theorem processBufferedCandidates_flags (br : Browser) (m : EnhancedWebRTCManager)
    (r : SocketId) :
    (processBufferedCandidates br m r).socketId = m.socketId ∧
      (processBufferedCandidates br m r).makingOffer = m.makingOffer ∧
      (processBufferedCandidates br m r).ignoreOffer = m.ignoreOffer ∧
      (processBufferedCandidates br m r).isSettingRemoteDescription
        = m.isSettingRemoteDescription := by
  unfold processBufferedCandidates
  cases jsGet m.pendingCandidates r with
  | none => exact ⟨rfl, rfl, rfl, rfl⟩
  | some candidates =>
    dsimp only
    split_ifs
    · exact ⟨rfl, rfl, rfl, rfl⟩
    · cases jsGet m.peerConnections r with
      | none => exact ⟨rfl, rfl, rfl, rfl⟩
      | some pc =>
        dsimp only
        split_ifs <;> exact ⟨rfl, rfl, rfl, rfl⟩

theorem processBufferedCandidates_link (br : Browser) (m : EnhancedWebRTCManager)
    (r : SocketId) (pc : Link) (h : jsGet m.peerConnections r = some pc) :
    ∃ pc', jsGet (processBufferedCandidates br m r).peerConnections r = some pc' ∧
      pc'.remoteDescription = pc.remoteDescription ∧ pc'.lid = pc.lid := by
  unfold processBufferedCandidates
  cases jsGet m.pendingCandidates r with
  | none => exact ⟨pc, h, rfl, rfl⟩
  | some candidates =>
    dsimp only
    split_ifs
    · exact ⟨pc, h, rfl, rfl⟩
    · rw [h]
      dsimp only
      split_ifs
      · exact ⟨pc, h, rfl, rfl⟩
      · exact ⟨_, jsGet_jsSet_self _ _ _, rfl, rfl⟩

theorem handleOffer_ignored (br : Browser) (m : EnhancedWebRTCManager) (offer : Description)
    (sender : SocketId) (pc : Link) (hcol : Collision m offer sender pc)
    (hpol : isPolite m.socketId sender = true) :
    handleOfferWithPerfectNegotiation br m offer sender
      = ({ m with ignoreOffer := jsSet m.ignoreOffer sender true }, []) := by
  obtain ⟨hlink, htype, hbusy⟩ := hcol
  have hc : (flag m.makingOffer sender ||
      decide (pc.signalingState ≠ SignalingState.stable)) = true := by
    rcases hbusy with h | h
    · simp [h]
    · simp [h]
  unfold handleOfferWithPerfectNegotiation
  simp only [hlink, htype, hc, hpol, decide_True, Bool.and_self, if_true]

theorem handleOffer_accepted (br : Browser) (m : EnhancedWebRTCManager) (offer : Description)
    (sender : SocketId) (pc : Link)
    (hlink : jsGet m.peerConnections sender = some pc)
    (hign : (decide (offer.type = "offer") &&
      (flag m.makingOffer sender || decide (pc.signalingState ≠ SignalingState.stable)) &&
      isPolite m.socketId sender) = false)
    (hremote : br.setRemoteOk = true) (hanswer : br.createAnswerOk = true)
    (hlocal : br.setLocalOk = true) :
    Accepted br (handleOfferWithPerfectNegotiation br m offer sender) offer sender := by
  unfold handleOfferWithPerfectNegotiation
  simp only [hlink, hign, hremote, hanswer, hlocal, Bool.not_true, Bool.false_eq_true,
    if_false, Bool.and_self, if_true]
  set m1 : EnhancedWebRTCManager :=
    { m with
      ignoreOffer := jsSet m.ignoreOffer sender false
      peerConnections := jsSet m.peerConnections sender
        { pc with remoteDescription := some offer
                  signalingState := pc.signalingState.afterRemote offer }
      isSettingRemoteDescription :=
        jsSet (jsSet m.isSettingRemoteDescription sender true) sender false } with hm1
  have hl1 : jsGet m1.peerConnections sender = some
      { pc with remoteDescription := some offer
                signalingState := pc.signalingState.afterRemote offer } :=
    jsGet_jsSet_self _ _ _
  obtain ⟨pc', hpc', hrd, _⟩ := processBufferedCandidates_link br m1 sender _ hl1
  obtain ⟨_, _, hio, _⟩ := processBufferedCandidates_flags br m1 sender
  simp only [hpc']
  refine ⟨?_, ⟨_, jsGet_jsSet_self _ _ _, hrd⟩, ?_⟩
  · show jsGet (processBufferedCandidates br m1 sender).ignoreOffer sender = some false
    rw [hio]
    exact jsGet_jsSet_self _ _ _
  · simp

end EnhancedWebRTCManager

theorem jsSet_jsSet {β : Type} (m : List (String × β)) (k : String) (v w : β) :
    jsSet (jsSet m k v) k w = jsSet m k w := by
  induction m with
  | nil => simp [jsSet]
  | cons e rest ih =>
    obtain ⟨k₀, v₀⟩ := e
    by_cases hk : k₀ = k
    · simp [jsSet, hk]
    · simp [jsSet, hk, ih]

namespace EnhancedWebRTCManager

theorem ignored_not_accepted (br : Browser) (r : EnhancedWebRTCManager × List Signal)
    (offer : Description) (sender : SocketId) (pc : Link)
    (hi : Ignored r sender pc) (ha : Accepted br r offer sender) : False := by
  have h1 := hi.1
  rw [ha.1] at h1
  cases h1

end EnhancedWebRTCManager

theorem EnhancedWebRTCManager.handleOffer_by_role (br : Browser)
    (m : EnhancedWebRTCManager) (offer : Description) (sender : SocketId) (pc : Link)
    (hcol : EnhancedWebRTCManager.Collision m offer sender pc) :
    (EnhancedWebRTCManager.isPolite m.socketId sender = true →
      EnhancedWebRTCManager.Ignored
          (EnhancedWebRTCManager.handleOfferWithPerfectNegotiation br m offer sender) sender pc ∧
        (EnhancedWebRTCManager.handleOfferWithPerfectNegotiation br m offer sender).1
          = { m with ignoreOffer := jsSet m.ignoreOffer sender true }) ∧
    (EnhancedWebRTCManager.isPolite m.socketId sender = false →
      br.setRemoteOk = true → br.createAnswerOk = true → br.setLocalOk = true →
      EnhancedWebRTCManager.Accepted br
        (EnhancedWebRTCManager.handleOfferWithPerfectNegotiation br m offer sender)
        offer sender) := by
  constructor
  · intro hpol
    rw [EnhancedWebRTCManager.handleOffer_ignored br m offer sender pc hcol hpol]
    exact ⟨⟨jsGet_jsSet_self _ _ _, rfl, hcol.1⟩, rfl⟩
  · intro hpol h1 h2 h3
    exact EnhancedWebRTCManager.handleOffer_accepted br m offer sender pc hcol.1
      (by rw [hpol]; simp) h1 h2 h3

/-- C12, as stated, fails: peer `A`, whose own offer to `B` is in flight, receives the offer of
`B`. `A` is the polite side (`"A" < "B"`), and it does not accept the offer: it sets
`ignoreOffer` and drops it. -/
theorem C12_glare_rule_counterexample :
    ¬ EnhancedWebRTCManager.GlareRuleAsStated allOk peerA theOffer "B" := by
  intro h
  have hacc := (h offering ⟨by decide, by decide, Or.inr (by decide)⟩).1 (by decide)
  exact absurd hacc.1 (by decide)

/-- C12, amended. When `handleOfferWithPerfectNegotiation` receives an offer during a collision
(`makingOffer` is set or the signalling state is not stable), the polite side (the
lexicographically smaller identifier) sets `ignoreOffer = true` and drops the incoming offer:
nothing else in its state changes and nothing is emitted. The impolite side sets
`ignoreOffer = false`, applies the incoming offer as remote description and, the browser's
`setRemoteDescription`, `createAnswer` and `setLocalDescription` returning, emits the answer
to the sender. -/
theorem C12_glare_rule_by_role (br : Browser) (m : EnhancedWebRTCManager)
    (offer : Description) (sender : SocketId) (pc : Link)
    (hcol : EnhancedWebRTCManager.Collision m offer sender pc) :
    (EnhancedWebRTCManager.isPolite m.socketId sender = true →
      EnhancedWebRTCManager.Ignored
          (EnhancedWebRTCManager.handleOfferWithPerfectNegotiation br m offer sender) sender pc ∧
        (EnhancedWebRTCManager.handleOfferWithPerfectNegotiation br m offer sender).1
          = { m with ignoreOffer := jsSet m.ignoreOffer sender true }) ∧
    (EnhancedWebRTCManager.isPolite m.socketId sender = false →
      br.setRemoteOk = true → br.createAnswerOk = true → br.setLocalOk = true →
      EnhancedWebRTCManager.Accepted br
        (EnhancedWebRTCManager.handleOfferWithPerfectNegotiation br m offer sender)
        offer sender) :=
  EnhancedWebRTCManager.handleOffer_by_role br m offer sender pc hcol

/-- An instance of the amended C12: in the glare of `A` and `B`, the polite `A` drops the offer
of `B` and the impolite `B` answers the offer of `A`. -/
theorem C12_glare_rule_by_role_witness :
    EnhancedWebRTCManager.Ignored
        (EnhancedWebRTCManager.handleOfferWithPerfectNegotiation allOk peerA theOffer "B")
        "B" offering ∧
      EnhancedWebRTCManager.Accepted allOk
        (EnhancedWebRTCManager.handleOfferWithPerfectNegotiation allOk peerB theOffer "A")
        theOffer "A" :=
  ⟨((C12_glare_rule_by_role allOk peerA theOffer "B" offering
      ⟨by decide, by decide, Or.inr (by decide)⟩).1 (by decide)).1,
   (C12_glare_rule_by_role allOk peerB theOffer "A" offering
      ⟨by decide, by decide, Or.inr (by decide)⟩).2 (by decide) rfl rfl rfl⟩

/-- C13. Exactly one offer wins a glare: when two peers with distinct identifiers each receive
the other's offer during a collision, exactly one of the two runs of
`handleOfferWithPerfectNegotiation` drops the incoming offer (sets `ignoreOffer`, emits
nothing, leaves its link as it was) and the other one applies it and, the browser's
description calls returning, sends the answer; never both drop and never both accept. -/
theorem C13_exactly_one_offer_wins (brA brB : Browser) (mA mB : EnhancedWebRTCManager)
    (offerA offerB : Description) (pcA pcB : Link)
    (hne : mA.socketId ≠ mB.socketId)
    (hA : EnhancedWebRTCManager.Collision mA offerB mB.socketId pcA)
    (hB : EnhancedWebRTCManager.Collision mB offerA mA.socketId pcB)
    (hA1 : brA.setRemoteOk = true) (hA2 : brA.createAnswerOk = true)
    (hA3 : brA.setLocalOk = true)
    (hB1 : brB.setRemoteOk = true) (hB2 : brB.createAnswerOk = true)
    (hB3 : brB.setLocalOk = true) :
    ((EnhancedWebRTCManager.Ignored
          (EnhancedWebRTCManager.handleOfferWithPerfectNegotiation brA mA offerB mB.socketId)
          mB.socketId pcA ∧
        EnhancedWebRTCManager.Accepted brB
          (EnhancedWebRTCManager.handleOfferWithPerfectNegotiation brB mB offerA mA.socketId)
          offerA mA.socketId) ∨
      (EnhancedWebRTCManager.Accepted brA
          (EnhancedWebRTCManager.handleOfferWithPerfectNegotiation brA mA offerB mB.socketId)
          offerB mB.socketId ∧
        EnhancedWebRTCManager.Ignored
          (EnhancedWebRTCManager.handleOfferWithPerfectNegotiation brB mB offerA mA.socketId)
          mA.socketId pcB)) ∧
    ¬ (EnhancedWebRTCManager.Ignored
          (EnhancedWebRTCManager.handleOfferWithPerfectNegotiation brA mA offerB mB.socketId)
          mB.socketId pcA ∧
        EnhancedWebRTCManager.Ignored
          (EnhancedWebRTCManager.handleOfferWithPerfectNegotiation brB mB offerA mA.socketId)
          mA.socketId pcB) ∧
    ¬ (EnhancedWebRTCManager.Accepted brA
          (EnhancedWebRTCManager.handleOfferWithPerfectNegotiation brA mA offerB mB.socketId)
          offerB mB.socketId ∧
        EnhancedWebRTCManager.Accepted brB
          (EnhancedWebRTCManager.handleOfferWithPerfectNegotiation brB mB offerA mA.socketId)
          offerA mA.socketId) := by
  have hswap := EnhancedWebRTCManager.isPolite_swap mA.socketId mB.socketId hne
  have hAr := EnhancedWebRTCManager.handleOffer_by_role brA mA offerB mB.socketId pcA hA
  have hBr := EnhancedWebRTCManager.handleOffer_by_role brB mB offerA mA.socketId pcB hB
  cases hp : EnhancedWebRTCManager.isPolite mA.socketId mB.socketId with
  | true =>
    rw [hp] at hswap
    have iA := (hAr.1 hp).1
    have aB := hBr.2 (by simpa using hswap) hB1 hB2 hB3
    exact ⟨Or.inl ⟨iA, aB⟩,
      fun h => EnhancedWebRTCManager.ignored_not_accepted brB _ _ _ _ h.2 aB,
      fun h => EnhancedWebRTCManager.ignored_not_accepted brA _ _ _ _ iA h.1⟩
  | false =>
    rw [hp] at hswap
    have aA := hAr.2 hp hA1 hA2 hA3
    have iB := (hBr.1 (by simpa using hswap)).1
    exact ⟨Or.inr ⟨aA, iB⟩,
      fun h => EnhancedWebRTCManager.ignored_not_accepted brA _ _ _ _ h.1 aA,
      fun h => EnhancedWebRTCManager.ignored_not_accepted brB _ _ _ _ iB h.2⟩

/-- An instance of C13: in the glare of `A` and `B`, the run of `A` drops and the run of `B`
answers. -/
theorem C13_exactly_one_offer_wins_witness :
    EnhancedWebRTCManager.Ignored
        (EnhancedWebRTCManager.handleOfferWithPerfectNegotiation allOk peerA theOffer "B")
        "B" offering ∧
      EnhancedWebRTCManager.Accepted allOk
        (EnhancedWebRTCManager.handleOfferWithPerfectNegotiation allOk peerB theOffer "A")
        theOffer "A" := by
  rcases (C13_exactly_one_offer_wins allOk allOk peerA peerB theOffer theOffer offering offering
    (by decide) ⟨by decide, by decide, Or.inr (by decide)⟩
    ⟨by decide, by decide, Or.inr (by decide)⟩ rfl rfl rfl rfl rfl rfl).1 with h | h
  · exact h
  · exact absurd h.2.1 (by decide)

/-- C14. `ignoreOffer` is not sticky: two engine states that differ only in the value stored in
`ignoreOffer` for the sender handle the same offer from that sender with the same result (same
state, hence same decision and same new `ignoreOffer`, and same emissions), the sender having a
link or the browser being able to construct one. In particular an offer that arrives with no
collision (`makingOffer` not set, signalling state stable) is accepted and, the browser's
description calls returning, answered, although the stored `ignoreOffer` is true. -/
theorem C14_ignoreOffer_not_sticky (br : Browser) (m : EnhancedWebRTCManager)
    (offer : Description) (sender : SocketId) (v₁ v₂ : Bool)
    (hlink : (jsGet m.peerConnections sender).isSome = true ∨ br.newLinkOk = true) :
    EnhancedWebRTCManager.handleOfferWithPerfectNegotiation br
        { m with ignoreOffer := jsSet m.ignoreOffer sender v₁ } offer sender
      = EnhancedWebRTCManager.handleOfferWithPerfectNegotiation br
        { m with ignoreOffer := jsSet m.ignoreOffer sender v₂ } offer sender ∧
    (∀ pc, jsGet m.peerConnections sender = some pc →
      EnhancedWebRTCManager.flag m.makingOffer sender = false →
      pc.signalingState = SignalingState.stable →
      br.setRemoteOk = true → br.createAnswerOk = true → br.setLocalOk = true →
      EnhancedWebRTCManager.Accepted br
        (EnhancedWebRTCManager.handleOfferWithPerfectNegotiation br
          { m with ignoreOffer := jsSet m.ignoreOffer sender true } offer sender)
        offer sender) := by
  constructor
  · cases h : jsGet m.peerConnections sender with
    | some pc =>
      simp only [EnhancedWebRTCManager.handleOfferWithPerfectNegotiation, h, jsSet_jsSet]
    | none =>
      have hnew : br.newLinkOk = true := by
        rcases hlink with h' | h'
        · rw [h] at h'; cases h'
        · exact h'
      simp only [EnhancedWebRTCManager.handleOfferWithPerfectNegotiation,
        EnhancedWebRTCManager.createPeerConnection, EnhancedWebRTCManager.newLinkTracks,
        h, hnew, Bool.not_true, Bool.false_eq_true, if_false, ite_self, jsGet_jsSet_self,
        jsSet_jsSet]
  · intro pc hlink hmk hst h1 h2 h3
    exact EnhancedWebRTCManager.handleOffer_accepted br _ offer sender pc hlink
      (by simp [hmk, hst]) h1 h2 h3

/-- An instance of C14: peer `B`, idle and holding a link to `A`, accepts the offer of `A`
whether the stored `ignoreOffer` is true or false. -/
theorem C14_ignoreOffer_not_sticky_witness :
    EnhancedWebRTCManager.handleOfferWithPerfectNegotiation allOk
        { idleB with ignoreOffer := jsSet idleB.ignoreOffer "A" true } theOffer "A"
      = EnhancedWebRTCManager.handleOfferWithPerfectNegotiation allOk
        { idleB with ignoreOffer := jsSet idleB.ignoreOffer "A" false } theOffer "A" ∧
    EnhancedWebRTCManager.Accepted allOk
      (EnhancedWebRTCManager.handleOfferWithPerfectNegotiation allOk
        { idleB with ignoreOffer := jsSet idleB.ignoreOffer "A" true } theOffer "A")
      theOffer "A" :=
  ⟨(C14_ignoreOffer_not_sticky allOk idleB theOffer "A" true false (Or.inl (by decide))).1,
   (C14_ignoreOffer_not_sticky allOk idleB theOffer "A" true false (Or.inl (by decide))).2
     { lid := 0 } (by decide) (by decide) (by decide) rfl rfl rfl⟩

/-! ## Candidate buffering -/

/-- C15. Candidate intake of the host-side engine. With no link for the sender,
`handleIceCandidateWithBuffering` leaves the state unchanged. With a link that has no remote
description yet, or while `isSettingRemoteDescription` is set for the sender, the candidate is
appended at the end of the sender's `pendingCandidates` and nothing else changes (it is not
applied). Otherwise the buffers are unchanged, and the candidate is applied at once when it
carries a non-empty candidate string (and `addIceCandidate` returns); without such a string
nothing changes. -/
theorem C15_candidate_intake (br : Browser) (m : EnhancedWebRTCManager)
    (candidate : Option Candidate) (sender : SocketId) :
    (jsGet m.peerConnections sender = none →
      EnhancedWebRTCManager.handleIceCandidateWithBuffering br m candidate sender = m) ∧
    (∀ pc, jsGet m.peerConnections sender = some pc →
      (pc.remoteDescription = none ∨
        EnhancedWebRTCManager.flag m.isSettingRemoteDescription sender = true) →
      (∃ buffers,
        EnhancedWebRTCManager.handleIceCandidateWithBuffering br m candidate sender
          = { m with pendingCandidates := buffers } ∧
        jsGet buffers sender
          = some ((jsGet m.pendingCandidates sender).getD [] ++ [candidate]) ∧
        ∀ t, t ≠ sender → jsGet buffers t = jsGet m.pendingCandidates t)) ∧
    (∀ pc, jsGet m.peerConnections sender = some pc →
      pc.remoteDescription ≠ none →
      EnhancedWebRTCManager.flag m.isSettingRemoteDescription sender = false →
      (EnhancedWebRTCManager.handleIceCandidateWithBuffering br m candidate sender).pendingCandidates
          = m.pendingCandidates ∧
        (∀ c, candidate = some c → c.candidate ≠ "" → br.addIceCandidateOk c = true →
          EnhancedWebRTCManager.handleIceCandidateWithBuffering br m candidate sender
            = { m with
                peerConnections := jsSet m.peerConnections sender
                  ({ pc with applied := pc.applied ++ [c] }) }) ∧
        (usable candidate = false →
          EnhancedWebRTCManager.handleIceCandidateWithBuffering br m candidate sender = m)) := by
  refine ⟨?_, ?_, ?_⟩
  · intro h
    simp only [EnhancedWebRTCManager.handleIceCandidateWithBuffering, h]
  · intro pc h hbuf
    have hcond : (pc.remoteDescription.isSome &&
        !EnhancedWebRTCManager.flag m.isSettingRemoteDescription sender) = false := by
      rcases hbuf with h' | h'
      · simp [h']
      · simp [h']
    simp only [EnhancedWebRTCManager.handleIceCandidateWithBuffering, h, hcond,
      Bool.false_eq_true, if_false]
    refine ⟨_, rfl, ?_, ?_⟩
    · rw [jsGet_jsSet_self]
      by_cases hhas : jsHas m.pendingCandidates sender = true
      · simp [hhas]
      · have hnone : jsGet m.pendingCandidates sender = none := by
          simpa [jsHas] using hhas
        simp [hhas, jsGet_jsSet_self, hnone]
    · intro t ht
      rw [jsGet_jsSet_ne _ _ ht]
      by_cases hhas : jsHas m.pendingCandidates sender = true
      · simp [hhas]
      · simp [hhas, jsGet_jsSet_ne _ _ ht]
  · intro pc h hrd hflag
    have hcond : (pc.remoteDescription.isSome &&
        !EnhancedWebRTCManager.flag m.isSettingRemoteDescription sender) = true := by
      cases hr : pc.remoteDescription with
      | none => exact absurd hr hrd
      | some d => simp [hflag]
    simp only [EnhancedWebRTCManager.handleIceCandidateWithBuffering, h, hcond, if_true]
    refine ⟨?_, ?_, ?_⟩
    · cases candidate with
      | none => rfl
      | some c =>
        dsimp only
        split_ifs <;> rfl
    · intro c hc hne hok
      subst hc
      have hu : usable (some c) = true := by simp [usable, hne]
      simp [hu, hok]
    · intro hu
      cases candidate with
      | none => rfl
      | some c => simp [hu]

/-- An instance of C15: peer `A`, whose link to `B` has no remote description yet, buffers the
candidate of `B`. -/
theorem C15_candidate_intake_witness :
    ∃ buffers,
      EnhancedWebRTCManager.handleIceCandidateWithBuffering allOk peerA (some cand1) "B"
        = { peerA with pendingCandidates := buffers } ∧
      jsGet buffers "B" = some ((jsGet peerA.pendingCandidates "B").getD [] ++ [some cand1]) ∧
      ∀ t, t ≠ "B" → jsGet buffers t = jsGet peerA.pendingCandidates t :=
  (C15_candidate_intake allOk peerA (some cand1) "B").2.1 offering (by decide)
    (Or.inl (by decide))

namespace EnhancedWebRTCManager

/-- The candidates applied by one replay, as a filter of the non-null buffered candidates. -/
theorem appliedBy_eq_filter (br : Browser) (candidates : List (Option Candidate)) :
    appliedBy br candidates
      = (candidates.filterMap id).filter
          (fun x => usable (some x) && br.addIceCandidateOk x) := by
  induction candidates with
  | nil => rfl
  | cons c rest ih =>
    cases c with
    | none => simpa [appliedBy] using ih
    | some x =>
      unfold appliedBy at ih ⊢
      by_cases hg : (usable (some x) && br.addIceCandidateOk x) = true
      · simp only [List.filterMap_cons, hg, if_true, id, List.filter_cons]
        rw [ih]
      · simp only [List.filterMap_cons, hg, if_false, id, List.filter_cons]
        rw [ih]
        simp

theorem keptBy_filterMap (br : Browser) (candidates : List (Option Candidate)) :
    (keptBy br candidates).filterMap id
      = (candidates.filterMap id).filter
          (fun x => !(usable (some x) && br.addIceCandidateOk x)) := by
  induction candidates with
  | nil => rfl
  | cons c rest ih =>
    cases c with
    | none =>
      unfold keptBy at ih ⊢
      simp only [List.filter_cons, if_true, List.filterMap_cons, id]
      exact ih
    | some x =>
      unfold keptBy at ih ⊢
      by_cases hg : (usable (some x) && br.addIceCandidateOk x) = true
      · simp only [List.filter_cons, hg, Bool.not_true, Bool.false_eq_true, if_false,
          List.filterMap_cons, id]
        exact ih
      · have hg' : (usable (some x) && br.addIceCandidateOk x) = false := by
          simpa using hg
        simp only [List.filter_cons, hg', Bool.not_false, if_true, List.filterMap_cons, id]
        rw [ih]

theorem mem_appliedBy (br : Browser) (candidates : List (Option Candidate)) (x : Candidate) :
    x ∈ appliedBy br candidates ↔
      some x ∈ candidates ∧ (usable (some x) && br.addIceCandidateOk x) = true := by
  rw [appliedBy_eq_filter, List.mem_filter, List.mem_filterMap]
  constructor
  · rintro ⟨⟨c, hc, hcx⟩, hg⟩
    simp only [id] at hcx
    subst hcx
    exact ⟨hc, hg⟩
  · rintro ⟨hc, hg⟩
    exact ⟨⟨some x, hc, rfl⟩, hg⟩

/-- The filter of lines 520-523 keeps exactly the candidates that the replay did not apply. -/
theorem filter_not_processed (br : Browser) (candidates : List (Option Candidate)) :
    candidates.filter (fun c =>
        match c with
        | some x => !(appliedBy br candidates).contains x
        | none => true)
      = keptBy br candidates := by
  unfold keptBy
  apply List.filter_congr
  intro c hc
  cases c with
  | none => rfl
  | some x =>
    dsimp only
    congr 1
    rw [Bool.eq_iff_iff, List.contains, List.elem_iff, mem_appliedBy]
    exact ⟨fun h => h.2, fun h => ⟨hc, h⟩⟩

end EnhancedWebRTCManager

theorem jsSet_same {β : Type} (m : List (String × β)) (k : String) (v : β)
    (h : jsGet m k = some v) : jsSet m k v = m := by
  induction m with
  | nil => simp [jsGet] at h
  | cons e rest ih =>
    obtain ⟨k₀, v₀⟩ := e
    by_cases hk : k₀ = k
    · have hv : v₀ = v := by simpa [jsGet, hk] using h
      simp [jsSet, hk, hv]
    · have h' : jsGet rest k = some v := by simpa [jsGet, hk] using h
      simp [jsSet, hk, ih h']

namespace EnhancedWebRTCManager

/-- One replay for a peer whose link has a remote description: the link gains the applied
candidates and the buffer keeps the others. -/
theorem processBufferedCandidates_spec (br : Browser) (m : EnhancedWebRTCManager)
    (r : SocketId) (pc : Link) (candidates : List (Option Candidate))
    (hlink : jsGet m.peerConnections r = some pc)
    (hrd : pc.remoteDescription.isSome = true)
    (hbuf : jsGet m.pendingCandidates r = some candidates) :
    processBufferedCandidates br m r
      = { m with
          peerConnections := jsSet m.peerConnections r
            ({ pc with applied := pc.applied ++ appliedBy br candidates })
          pendingCandidates := jsSet m.pendingCandidates r (keptBy br candidates) } := by
  unfold processBufferedCandidates
  rw [hbuf]
  dsimp only
  by_cases hlen : candidates.length = 0
  · have hnil : candidates = [] := List.length_eq_zero.1 hlen
    subst hnil
    have h1 : jsSet m.peerConnections r ({ pc with applied := pc.applied ++ appliedBy br [] })
        = m.peerConnections := by
      apply jsSet_same
      rw [hlink]
      simp [appliedBy]
    have h2 : jsSet m.pendingCandidates r (keptBy br []) = m.pendingCandidates :=
      jsSet_same _ _ _ (by rw [hbuf]; rfl)
    rw [h1, h2]
    simp
  · have hnone : pc.remoteDescription.isNone = false := by
      cases hr : pc.remoteDescription with
      | none => rw [hr] at hrd; cases hrd
      | some d => rfl
    rw [if_neg hlen, hlink]
    dsimp only
    rw [hnone]
    simp only [Bool.false_eq_true, if_false]
    have hp := filter_not_processed br candidates
    unfold appliedBy at hp ⊢
    rw [hp]

theorem appliedBy_all (br : Browser) (candidates : List (Option Candidate))
    (hall : ∀ c ∈ candidates, ∃ x, c = some x ∧ x.candidate ≠ "" ∧
      br.addIceCandidateOk x = true) :
    appliedBy br candidates = candidates.filterMap id ∧ keptBy br candidates = [] := by
  constructor
  · rw [appliedBy_eq_filter, List.filter_eq_self]
    intro x hx
    obtain ⟨c, hc, hcx⟩ := List.mem_filterMap.1 hx
    simp only [id] at hcx
    subst hcx
    obtain ⟨y, hy, hne, hok⟩ := hall _ hc
    cases hy
    simp [usable, hne, hok]
  · unfold keptBy
    rw [List.filter_eq_nil_iff]
    intro c hc
    obtain ⟨y, hy, hne, hok⟩ := hall _ hc
    subst hy
    simp [usable, hne, hok]

end EnhancedWebRTCManager

/-- C16, as stated, fails: peer `A` holds B's offer as remote description and has buffered two
candidates and, between them, the end-of-candidates marker (empty candidate string). Every
browser call returns, and after the replay the marker is still in the buffer. -/
theorem C16_replay_then_clear_counterexample :
    ¬ EnhancedWebRTCManager.ReplayThenClear allOk peerABuffered "B" := by
  intro h
  have := (h { lid := 0, remoteDescription := some theOffer }
    [some cand1, some candEnd, some cand2] (by decide) (by decide) (by decide)).1
  revert this
  decide

/-- C16, amended. For every peer whose link has a remote description,
`processBufferedCandidates` applies, in arrival order, the buffered candidates that carry a
non-empty candidate string and for which `addIceCandidate` returns, and when it returns the
buffer of the peer holds, in arrival order, exactly the candidates that were not applied (null
candidates, candidates without a candidate string, candidates whose `addIceCandidate` threw).
The buffer is empty, and all buffered candidates have been applied in arrival order, when each
of them carries a non-empty candidate string and its `addIceCandidate` returns. -/
theorem C16_replay_keeps_unapplied (br : Browser) (m : EnhancedWebRTCManager)
    (r : SocketId) (pc : Link) (candidates : List (Option Candidate))
    (hlink : jsGet m.peerConnections r = some pc)
    (hrd : pc.remoteDescription.isSome = true)
    (hbuf : jsGet m.pendingCandidates r = some candidates) :
    jsGet (EnhancedWebRTCManager.processBufferedCandidates br m r).peerConnections r
        = some { pc with
                 applied := pc.applied ++ EnhancedWebRTCManager.appliedBy br candidates } ∧
      jsGet (EnhancedWebRTCManager.processBufferedCandidates br m r).pendingCandidates r
        = some (EnhancedWebRTCManager.keptBy br candidates) ∧
      ((∀ c ∈ candidates, ∃ x, c = some x ∧ x.candidate ≠ "" ∧
          br.addIceCandidateOk x = true) →
        EnhancedWebRTCManager.appliedBy br candidates = candidates.filterMap id ∧
          EnhancedWebRTCManager.keptBy br candidates = []) := by
  rw [EnhancedWebRTCManager.processBufferedCandidates_spec br m r pc candidates hlink hrd hbuf]
  exact ⟨jsGet_jsSet_self _ _ _, jsGet_jsSet_self _ _ _,
    EnhancedWebRTCManager.appliedBy_all br candidates⟩

/-- An instance of the amended C16: the replay of peer `A` applies the two candidates in
order and keeps the end-of-candidates marker. -/
theorem C16_replay_keeps_unapplied_witness :
    jsGet (EnhancedWebRTCManager.processBufferedCandidates allOk peerABuffered "B").peerConnections
        "B"
        = some { lid := 0, remoteDescription := some theOffer, applied := [cand1, cand2] } ∧
      jsGet (EnhancedWebRTCManager.processBufferedCandidates allOk peerABuffered
        "B").pendingCandidates "B" = some [some candEnd] := by
  have h := C16_replay_keeps_unapplied allOk peerABuffered "B"
    { lid := 0, remoteDescription := some theOffer } [some cand1, some candEnd, some cand2]
    (by decide) (by decide) (by decide)
  exact ⟨h.1.trans (by decide), h.2.1.trans (by decide)⟩

namespace EnhancedWebRTCManager

/-- Sequential replays for a peer whose link has a remote description: the link gains the
candidates applied by the successive replays. -/
theorem replay_spec (brs : List Browser) (m : EnhancedWebRTCManager) (r : SocketId)
    (pc : Link) (candidates : List (Option Candidate))
    (hlink : jsGet m.peerConnections r = some pc)
    (hrd : pc.remoteDescription.isSome = true)
    (hbuf : jsGet m.pendingCandidates r = some candidates) :
    jsGet (replay brs m r).peerConnections r
      = some { pc with applied := pc.applied ++ appliedByAll brs candidates } := by
  induction brs generalizing m pc candidates with
  | nil =>
    simp only [replay, List.foldl_nil, appliedByAll, List.append_nil]
    exact hlink
  | cons br rest ih =>
    have hstep := processBufferedCandidates_spec br m r pc candidates hlink hrd hbuf
    have h := ih (processBufferedCandidates br m r)
      ({ pc with applied := pc.applied ++ appliedBy br candidates }) (keptBy br candidates)
      (by rw [hstep]; exact jsGet_jsSet_self _ _ _) hrd
      (by rw [hstep]; exact jsGet_jsSet_self _ _ _)
    simp only [replay, List.foldl_cons] at h ⊢
    rw [h]
    simp only [appliedByAll, List.append_assoc]

theorem appliedByAll_nodup (brs : List Browser) (candidates : List (Option Candidate))
    (hnd : (candidates.filterMap id).Nodup) :
    (appliedByAll brs candidates).Nodup ∧
      ∀ x ∈ appliedByAll brs candidates, x ∈ candidates.filterMap id ∧ x.candidate ≠ "" := by
  induction brs generalizing candidates with
  | nil =>
    simp [appliedByAll]
  | cons br rest ih =>
    have hk := keptBy_filterMap br candidates
    have hnd' : ((keptBy br candidates).filterMap id).Nodup := by
      rw [hk]; exact hnd.filter _
    obtain ⟨ih1, ih2⟩ := ih (keptBy br candidates) hnd'
    simp only [appliedByAll]
    constructor
    · rw [List.nodup_append]
      refine ⟨?_, ih1, ?_⟩
      · rw [appliedBy_eq_filter]; exact hnd.filter _
      · intro x hx hy
        have hgood := ((mem_appliedBy br candidates x).1 hx).2
        have hmem := (ih2 x hy).1
        rw [hk, List.mem_filter] at hmem
        rw [hgood] at hmem
        exact absurd hmem.2 (by simp)
    · intro x hx
      rcases List.mem_append.1 hx with h | h
      · rw [appliedBy_eq_filter, List.mem_filter] at h
        refine ⟨h.1, ?_⟩
        have hu : usable (some x) = true := by
          cases hu : usable (some x) with
          | true => rfl
          | false => rw [hu] at h; exact absurd h.2 (by simp)
        simpa [usable] using hu
      · obtain ⟨h1, h2⟩ := ih2 x h
        rw [hk, List.mem_filter] at h1
        exact ⟨h1.1, h2⟩

theorem appliedByAll_unusable (brs : List Browser) (candidates : List (Option Candidate))
    (hun : ∀ x ∈ candidates.filterMap id, usable (some x) = false) :
    appliedByAll brs candidates = [] := by
  induction brs generalizing candidates with
  | nil => rfl
  | cons br rest ih =>
    simp only [appliedByAll]
    have h1 : appliedBy br candidates = [] := by
      rw [appliedBy_eq_filter, List.filter_eq_nil_iff]
      intro x hx
      simp [hun x hx]
    have h2 : appliedByAll rest (keptBy br candidates) = [] := by
      apply ih
      intro x hx
      rw [keptBy_filterMap, List.mem_filter] at hx
      exact hun x hx.1
    rw [h1, h2]
    rfl

theorem appliedByAll_allOk (brs : List Browser) (candidates : List (Option Candidate))
    (hne : brs ≠ [])
    (hok : ∀ br ∈ brs, ∀ x, br.addIceCandidateOk x = true) :
    appliedByAll brs candidates
      = (candidates.filterMap id).filter (fun x => decide (x.candidate ≠ "")) := by
  cases brs with
  | nil => exact absurd rfl hne
  | cons br rest =>
    have hbr := hok br (List.mem_cons_self _ _)
    simp only [appliedByAll]
    have h2 : appliedByAll rest (keptBy br candidates) = [] := by
      apply appliedByAll_unusable
      intro x hx
      rw [keptBy_filterMap, List.mem_filter] at hx
      have := hx.2
      simpa [hbr x] using this
    rw [h2, List.append_nil, appliedBy_eq_filter]
    apply List.filter_congr
    intro x _
    simp [usable, hbr x]

end EnhancedWebRTCManager

/-- C17, as stated, fails: peer `A` holds B's offer as remote description and has buffered,
between two candidates, the end-of-candidates marker. Every browser call returns, and after
two replays the marker has been applied not once but never. -/
theorem C17_replay_once_counterexample :
    ¬ EnhancedWebRTCManager.ReplayAppliesEachOnce [allOk, allOk] peerABuffered "B" := by
  intro h
  obtain ⟨pc', h1, h2⟩ := h { lid := 0, remoteDescription := some theOffer }
    [some cand1, some candEnd, some cand2] (by decide) (by decide) (by decide)
    (List.cons_ne_nil _ _)
  have h3 : jsGet (EnhancedWebRTCManager.replay [allOk, allOk] peerABuffered "B").peerConnections
      "B" = some { lid := 0, remoteDescription := some theOffer, applied := [cand1, cand2] } := by
    decide
  rw [h3] at h1
  cases h1
  revert h2
  decide

/-- C17, amended. For a peer whose link has a remote description, over any number of
sequential `processBufferedCandidates` runs the link gains the candidates applied by the
successive replays, and a buffered candidate object is applied at most once (a candidate
applied by one replay is never applied again by a later one); only buffered candidates that
carry a non-empty candidate string are applied. When there is at least one run and every
`addIceCandidate` call returns, each buffered candidate that carries a non-empty candidate
string is applied exactly once, in original arrival order. -/
theorem C17_replay_applies_at_most_once (brs : List Browser) (m : EnhancedWebRTCManager)
    (r : SocketId) (pc : Link) (candidates : List (Option Candidate))
    (hlink : jsGet m.peerConnections r = some pc)
    (hrd : pc.remoteDescription.isSome = true)
    (hbuf : jsGet m.pendingCandidates r = some candidates)
    (hnd : (candidates.filterMap id).Nodup) :
    jsGet (EnhancedWebRTCManager.replay brs m r).peerConnections r
        = some { pc with
                 applied := pc.applied ++ EnhancedWebRTCManager.appliedByAll brs candidates } ∧
      (EnhancedWebRTCManager.appliedByAll brs candidates).Nodup ∧
      (∀ x ∈ EnhancedWebRTCManager.appliedByAll brs candidates,
        some x ∈ candidates ∧ x.candidate ≠ "") ∧
      (brs ≠ [] → (∀ br ∈ brs, ∀ x, br.addIceCandidateOk x = true) →
        EnhancedWebRTCManager.appliedByAll brs candidates
          = (candidates.filterMap id).filter (fun x => decide (x.candidate ≠ ""))) := by
  obtain ⟨h1, h2⟩ := EnhancedWebRTCManager.appliedByAll_nodup brs candidates hnd
  refine ⟨EnhancedWebRTCManager.replay_spec brs m r pc candidates hlink hrd hbuf, h1, ?_,
    EnhancedWebRTCManager.appliedByAll_allOk brs candidates⟩
  intro x hx
  obtain ⟨hm, hne⟩ := h2 x hx
  obtain ⟨c, hc, hcx⟩ := List.mem_filterMap.1 hm
  simp only [id] at hcx
  subst hcx
  exact ⟨hc, hne⟩

/-- An instance of the amended C17: after two replays peer `A` has applied the two candidates
once each, in arrival order. -/
theorem C17_replay_applies_at_most_once_witness :
    jsGet (EnhancedWebRTCManager.replay [allOk, allOk] peerABuffered "B").peerConnections "B"
      = some { lid := 0, remoteDescription := some theOffer, applied := [cand1, cand2] } :=
  (C17_replay_applies_at_most_once [allOk, allOk] peerABuffered "B"
    { lid := 0, remoteDescription := some theOffer } [some cand1, some candEnd, some cand2]
    (by decide) (by decide) (by decide) (by decide)).1.trans (by decide)

/-- C18, the defect: a participant-side manager has created its link to `H` and sent its offer,
so the link has no remote description yet. The candidate of `H` that arrives now is stored
nowhere (the manager is unchanged), and after the answer of `H` has been applied as remote
description the link still has no applied candidate: the candidate is lost. -/
theorem C18_early_candidate_is_lost :
    WebRTCConnectionManager.handleIceCandidate allOk joiner (some cand1) "H" = joiner ∧
      jsGet (WebRTCConnectionManager.handleAnswer allOk
          (WebRTCConnectionManager.handleIceCandidate allOk joiner (some cand1) "H")
          theAnswer "H").peerConnections "H"
        = some { lid := 0, signalingState := SignalingState.stable,
                 remoteDescription := some theAnswer, localDescription := some theOffer,
                 applied := [] } := by
  decide

/-! ## Link creation -/

theorem jsKeys_count_jsSet_absent {β : Type} (m : List (String × β)) (k : String) (v : β)
    (h : jsGet m k = none) : (jsKeys (jsSet m k v)).count k = 1 := by
  induction m with
  | nil => simp [jsSet, jsKeys]
  | cons e rest ih =>
    obtain ⟨k₀, v₀⟩ := e
    by_cases hk : k₀ = k
    · simp [jsGet, hk] at h
    · have h' : jsGet rest k = none := by simpa [jsGet, hk] using h
      have := ih h'
      simp only [jsKeys] at this
      simp only [jsSet, jsKeys, hk, if_false, List.map_cons]
      rw [List.count_cons_of_ne (fun h => hk h.symm)]
      exact this

namespace EnhancedWebRTCManager

theorem foldl_addTrack_fields (tracks : List Track) (pc : Link) :
    (tracks.foldl Link.addTrack pc).lid = pc.lid ∧
      (tracks.foldl Link.addTrack pc).remoteDescription = pc.remoteDescription ∧
      (tracks.foldl Link.addTrack pc).applied = pc.applied ∧
      (tracks.foldl Link.addTrack pc).signalingState = pc.signalingState := by
  induction tracks generalizing pc with
  | nil => exact ⟨rfl, rfl, rfl, rfl⟩
  | cons t rest ih =>
    simp only [List.foldl_cons]
    exact ih (pc.addTrack t)

theorem createPeerConnection_fresh_absent (br : Browser) (m : EnhancedWebRTCManager)
    (r : SocketId) (shouldCreateOffer : Bool) (hnew : br.newLinkOk = true)
    (habs : jsGet m.peerConnections r = none) :
    FreshLinkFor m (createPeerConnection br m r shouldCreateOffer).1 r ∧
      (createPeerConnection br m r shouldCreateOffer).1.closedLinks = m.closedLinks := by
  have hcount := fun (v : Link) => jsKeys_count_jsSet_absent m.peerConnections r v habs
  obtain ⟨hf1, hf2, hf3, _⟩ := foldl_addTrack_fields (newLinkTracks m)
    ({ lid := m.nextLinkId } : Link)
  unfold createPeerConnection FreshLinkFor
  simp only [habs, hnew, Bool.not_true, Bool.false_eq_true, if_false]
  by_cases ht : br.addTrackOk = true
  · by_cases hs : shouldCreateOffer = true
    · by_cases ho : (br.createOfferOk && br.setLocalOk) = true
      · simp only [ht, hs, ho, Bool.not_true, Bool.false_eq_true, if_false, if_true]
        refine ⟨⟨?_, ⟨_, jsGet_jsSet_self _ _ _, hf1, hf2, hf3⟩, ?_, jsGet_jsSet_self _ _ _,
          jsGet_jsSet_self _ _ _, jsGet_jsSet_self _ _ _, jsGet_jsSet_self _ _ _, ?_⟩, trivial⟩
        · rw [jsKeys_jsSet_of_get _ _ _ _ (jsGet_jsSet_self _ _ _)]
          exact hcount _
        · intro old hold; cases hold
        · intro t ht'
          simp only [jsGet_jsSet_ne _ _ ht']
          exact ⟨trivial, trivial, trivial, trivial, trivial⟩
      · simp only [ht, hs, ho, Bool.not_true, Bool.false_eq_true, if_false, if_true]
        refine ⟨⟨hcount _, ⟨_, jsGet_jsSet_self _ _ _, hf1, hf2, hf3⟩, ?_,
          jsGet_jsSet_self _ _ _, jsGet_jsSet_self _ _ _, jsGet_jsSet_self _ _ _,
          jsGet_jsSet_self _ _ _, ?_⟩, trivial⟩
        · intro old hold; cases hold
        · intro t ht'
          simp only [jsGet_jsSet_ne _ _ ht']
          exact ⟨trivial, trivial, trivial, trivial, trivial⟩
    · simp only [ht, hs, Bool.not_true, Bool.false_eq_true, if_false, if_true]
      refine ⟨⟨hcount _, ⟨_, jsGet_jsSet_self _ _ _, hf1, hf2, hf3⟩, ?_,
        jsGet_jsSet_self _ _ _, jsGet_jsSet_self _ _ _, jsGet_jsSet_self _ _ _,
        jsGet_jsSet_self _ _ _, ?_⟩, trivial⟩
      · intro old hold; cases hold
      · intro t ht'
        simp only [jsGet_jsSet_ne _ _ ht']
        exact ⟨trivial, trivial, trivial, trivial, trivial⟩
  · simp only [ht, Bool.not_false, if_true, Bool.false_eq_true, if_false]
    refine ⟨⟨hcount _, ⟨_, jsGet_jsSet_self _ _ _, rfl, rfl, rfl⟩, ?_,
      jsGet_jsSet_self _ _ _, jsGet_jsSet_self _ _ _, jsGet_jsSet_self _ _ _,
      jsGet_jsSet_self _ _ _, ?_⟩, trivial⟩
    · intro old hold; cases hold
    · intro t ht'
      simp only [jsGet_jsSet_ne _ _ ht']
      exact ⟨trivial, trivial, trivial, trivial, trivial⟩

end EnhancedWebRTCManager

namespace EnhancedWebRTCManager

theorem FreshLinkFor.transfer {m m₀ m' : EnhancedWebRTCManager} {r : SocketId}
    (hfresh : FreshLinkFor m₀ m' r)
    (hid : m₀.nextLinkId = m.nextLinkId)
    (hclosed : ∀ old, jsGet m.peerConnections r = some old → old.lid ∈ m'.closedLinks)
    (hothers : ∀ t, t ≠ r →
      jsGet m₀.peerConnections t = jsGet m.peerConnections t ∧
      jsGet m₀.makingOffer t = jsGet m.makingOffer t ∧
      jsGet m₀.ignoreOffer t = jsGet m.ignoreOffer t ∧
      jsGet m₀.isSettingRemoteDescription t = jsGet m.isSettingRemoteDescription t ∧
      jsGet m₀.pendingCandidates t = jsGet m.pendingCandidates t) :
    FreshLinkFor m m' r := by
  obtain ⟨h1, ⟨pc, h2, h3, h4, h5⟩, _, h7, h8, h9, h10, h11⟩ := hfresh
  refine ⟨h1, ⟨pc, h2, h3.trans hid, h4, h5⟩, hclosed, h7, h8, h9, h10, ?_⟩
  intro t ht
  obtain ⟨a1, a2, a3, a4, a5⟩ := h11 t ht
  obtain ⟨b1, b2, b3, b4, b5⟩ := hothers t ht
  exact ⟨a1.trans b1, a2.trans b2, a3.trans b3, a4.trans b4, a5.trans b5⟩

theorem createPeerConnection_existing (br : Browser) (m : EnhancedWebRTCManager)
    (r : SocketId) (shouldCreateOffer : Bool) (old : Link)
    (hold : jsGet m.peerConnections r = some old) :
    createPeerConnection br m r shouldCreateOffer
      = createPeerConnection br
          { m with
            closedLinks := m.closedLinks ++ [old.lid]
            peerConnections := jsDelete m.peerConnections r } r shouldCreateOffer := by
  unfold createPeerConnection
  simp only [hold, jsGet_jsDelete_self]

theorem createPeerConnection_fresh (br : Browser) (m : EnhancedWebRTCManager)
    (r : SocketId) (shouldCreateOffer : Bool) (hnew : br.newLinkOk = true) :
    FreshLinkFor m (createPeerConnection br m r shouldCreateOffer).1 r := by
  cases hold : jsGet m.peerConnections r with
  | none => exact (createPeerConnection_fresh_absent br m r shouldCreateOffer hnew hold).1
  | some old =>
    rw [createPeerConnection_existing br m r shouldCreateOffer old hold]
    obtain ⟨hf, hc⟩ := createPeerConnection_fresh_absent br
      { m with
        closedLinks := m.closedLinks ++ [old.lid]
        peerConnections := jsDelete m.peerConnections r } r shouldCreateOffer hnew
      (jsGet_jsDelete_self _ _)
    refine hf.transfer rfl ?_ ?_
    · intro old' hold'
      rw [hc]
      rw [hold] at hold'
      cases hold'
      exact List.mem_append_right _ (List.mem_singleton_self _)
    · intro t ht
      exact ⟨jsGet_jsDelete_ne _ ht, rfl, rfl, rfl, rfl⟩

theorem restartConnection_fresh (br : Browser) (m : EnhancedWebRTCManager)
    (r : SocketId) (hnew : br.newLinkOk = true) :
    FreshLinkFor m (restartConnection br m r).1 r := by
  unfold restartConnection
  cases hold : jsGet m.peerConnections r with
  | none =>
    dsimp only
    obtain ⟨hf, _⟩ := createPeerConnection_fresh_absent br
      { m with
        peerConnections := jsDelete m.peerConnections r
        pendingCandidates := jsDelete m.pendingCandidates r } r true hnew
      (jsGet_jsDelete_self _ _)
    refine hf.transfer rfl ?_ ?_
    · intro old' hold'
      rw [hold] at hold'
      cases hold'
    · intro t ht
      exact ⟨jsGet_jsDelete_ne _ ht, rfl, rfl, rfl, jsGet_jsDelete_ne _ ht⟩
  | some old =>
    dsimp only
    obtain ⟨hf, hc⟩ := createPeerConnection_fresh_absent br
      { m with
        closedLinks := m.closedLinks ++ [old.lid]
        peerConnections := jsDelete m.peerConnections r
        pendingCandidates := jsDelete m.pendingCandidates r } r true hnew
      (jsGet_jsDelete_self _ _)
    refine hf.transfer rfl ?_ ?_
    · intro old' hold'
      rw [hc]
      rw [hold] at hold'
      cases hold'
      exact List.mem_append_right _ (List.mem_singleton_self _)
    · intro t ht
      exact ⟨jsGet_jsDelete_ne _ ht, rfl, rfl, rfl, jsGet_jsDelete_ne _ ht⟩

end EnhancedWebRTCManager

/-- C19. Idempotent link creation: for every remote identifier `r`, after
`createPeerConnection(r, ...)` or `restartConnection` for `r` has run (the browser constructing
the link object), the manager holds exactly one link for `r`, a new object with no description
and no applied candidate; a link stored under `r` before has been closed; `makingOffer`,
`ignoreOffer` and `isSettingRemoteDescription` are false and `pendingCandidates` is empty for
`r`; and the link, the three flags and the buffer of every other identifier are untouched. -/
theorem C19_idempotent_link_creation (br : Browser) (m : EnhancedWebRTCManager)
    (r : SocketId) (shouldCreateOffer : Bool) (hnew : br.newLinkOk = true) :
    EnhancedWebRTCManager.FreshLinkFor m
        (EnhancedWebRTCManager.createPeerConnection br m r shouldCreateOffer).1 r ∧
      EnhancedWebRTCManager.FreshLinkFor m
        (EnhancedWebRTCManager.restartConnection br m r).1 r :=
  ⟨EnhancedWebRTCManager.createPeerConnection_fresh br m r shouldCreateOffer hnew,
   EnhancedWebRTCManager.restartConnection_fresh br m r hnew⟩

/-- An instance of C19: peer `A`, which has three candidates of `B` in its buffer, creates the
link to `B` anew and restarts it. -/
theorem C19_idempotent_link_creation_witness :
    EnhancedWebRTCManager.FreshLinkFor peerABuffered
        (EnhancedWebRTCManager.createPeerConnection allOk peerABuffered "B" true).1 "B" ∧
      EnhancedWebRTCManager.FreshLinkFor peerABuffered
        (EnhancedWebRTCManager.restartConnection allOk peerABuffered "B").1 "B" :=
  C19_idempotent_link_creation allOk peerABuffered "B" true rfl

/-! ## Failure recovery -/

namespace EnhancedWebRTCManager

theorem performIceRestart_sent (br : Browser) (m : EnhancedWebRTCManager) (r : SocketId)
    (pc : Link) (hlink : jsGet m.peerConnections r = some pc)
    (hoffer : br.createOfferOk = true) (hlocal : br.setLocalOk = true) :
    (performIceRestart br m r).2 = [restartOffer br r] := by
  unfold performIceRestart
  simp only [hlink, hoffer, hlocal, Bool.and_self, if_true]
  rfl

theorem timerFires_sent_iff (br : Browser) (m : EnhancedWebRTCManager) (t : Timer)
    (hoffer : br.createOfferOk = true) (hlocal : br.setLocalOk = true) :
    ((timerFires br m t).2 = [restartOffer br t.remoteSocketId] ↔
      ∃ pc, jsGet m.peerConnections t.remoteSocketId = some pc ∧ pc.lid = t.lid ∧
        pc.connectionState = ConnectionState.disconnected) ∧
    ((¬ ∃ pc, jsGet m.peerConnections t.remoteSocketId = some pc ∧ pc.lid = t.lid ∧
        pc.connectionState = ConnectionState.disconnected) →
      timerFires br m t = ({ m with timers := m.timers.erase t }, [])) := by
  unfold timerFires
  cases hl : jsGet m.peerConnections t.remoteSocketId with
  | none =>
    simp only [hl]
    constructor
    · constructor
      · intro h; cases h
      · rintro ⟨pc, hpc, _⟩; cases hpc
    · intro _; trivial
  | some pc =>
    simp only [hl]
    by_cases hc : pc.lid = t.lid ∧ pc.connectionState = ConnectionState.disconnected
    · rw [if_pos hc]
      constructor
      · constructor
        · intro _; exact ⟨pc, rfl, hc.1, hc.2⟩
        · intro _
          exact performIceRestart_sent br _ t.remoteSocketId pc hl hoffer hlocal
      · intro hn
        exact absurd ⟨pc, rfl, hc.1, hc.2⟩ hn
    · rw [if_neg hc]
      constructor
      · constructor
        · intro h; cases h
        · rintro ⟨pc', hpc', h1, h2⟩
          cases hpc'
          exact absurd ⟨h1, h2⟩ hc
      · intro _; rfl

end EnhancedWebRTCManager

/-- C20. Failure recovery, the browser's `createOffer` and `setLocalDescription` returning.
When the link stored under `r` becomes `failed`, the handler emits the state report and at once
the restart offer carrying the `iceRestart` flag. When it becomes `disconnected`, only the state
report is emitted and a timer of 3000 ms is set for that link. When a grace timer fires, the
restart offer is sent if and only if the link of the timer is still stored under its peer and
still `disconnected`; otherwise nothing is emitted and only the timer leaves the state. -/
theorem C20_failure_recovery (br : Browser) (m : EnhancedWebRTCManager) (r : SocketId)
    (pc : Link) (hlink : jsGet m.peerConnections r = some pc)
    (hoffer : br.createOfferOk = true) (hlocal : br.setLocalOk = true) :
    (EnhancedWebRTCManager.onconnectionstatechange br m r ConnectionState.failed).2
        = [EnhancedWebRTCManager.stateReport r, EnhancedWebRTCManager.restartOffer br r] ∧
    ((EnhancedWebRTCManager.onconnectionstatechange br m r ConnectionState.disconnected).2
        = [EnhancedWebRTCManager.stateReport r] ∧
      (EnhancedWebRTCManager.onconnectionstatechange br m r
          ConnectionState.disconnected).1.timers
        = m.timers ++ [{ remoteSocketId := r, lid := pc.lid, delay := 3000 }]) ∧
    (∀ (m' : EnhancedWebRTCManager) (t : Timer),
      ((EnhancedWebRTCManager.timerFires br m' t).2
          = [EnhancedWebRTCManager.restartOffer br t.remoteSocketId] ↔
        ∃ pc', jsGet m'.peerConnections t.remoteSocketId = some pc' ∧ pc'.lid = t.lid ∧
          pc'.connectionState = ConnectionState.disconnected) ∧
      ((¬ ∃ pc', jsGet m'.peerConnections t.remoteSocketId = some pc' ∧ pc'.lid = t.lid ∧
          pc'.connectionState = ConnectionState.disconnected) →
        EnhancedWebRTCManager.timerFires br m' t
          = ({ m' with timers := m'.timers.erase t }, []))) := by
  refine ⟨?_, ⟨?_, ?_⟩, fun m' t => EnhancedWebRTCManager.timerFires_sent_iff br m' t hoffer hlocal⟩
  · unfold EnhancedWebRTCManager.onconnectionstatechange
    simp only [hlink, if_true]
    rw [EnhancedWebRTCManager.performIceRestart_sent br _ r _ (jsGet_jsSet_self _ _ _)
      hoffer hlocal]
    rfl
  · unfold EnhancedWebRTCManager.onconnectionstatechange
    simp only [hlink]
    rfl
  · unfold EnhancedWebRTCManager.onconnectionstatechange
    simp only [hlink]
    rfl

/-- An instance of C20: the link of peer `A` to `B` fails, or is disconnected and is still so
when its grace timer fires. -/
theorem C20_failure_recovery_witness :
    (EnhancedWebRTCManager.onconnectionstatechange allOk peerA "B" ConnectionState.failed).2
        = [EnhancedWebRTCManager.stateReport "B", EnhancedWebRTCManager.restartOffer allOk "B"] ∧
      (EnhancedWebRTCManager.timerFires allOk
          (EnhancedWebRTCManager.onconnectionstatechange allOk peerA "B"
            ConnectionState.disconnected).1 graceTimer).2
        = [EnhancedWebRTCManager.restartOffer allOk "B"] :=
  ⟨(C20_failure_recovery allOk peerA "B" offering (by decide) rfl rfl).1,
   (((C20_failure_recovery allOk peerA "B" offering (by decide) rfl rfl).2.2
      (EnhancedWebRTCManager.onconnectionstatechange allOk peerA "B"
        ConnectionState.disconnected).1 graceTimer).1).2
      ⟨{ offering with connectionState := ConnectionState.disconnected },
        by decide, by decide, by decide⟩⟩

/-! ## The name test of change-meeting-name -/

theorem dropWhile_eq_nil_of_all {α : Type} (p : α → Bool) (l : List α)
    (h : ∀ x ∈ l.dropWhile p, p x = true) : l.dropWhile p = [] := by
  induction l with
  | nil => rfl
  | cons a rest ih =>
    by_cases ha : p a = true
    · simp only [List.dropWhile_cons, ha, if_true] at h ⊢
      exact ih h
    · exfalso
      simp only [List.dropWhile_cons, ha, Bool.false_eq_true, if_false] at h
      exact ha (h a (List.mem_cons_self a rest))

theorem jsLength_eq_zero (s : String) : jsLength s = 0 ↔ s.data = [] := by
  constructor
  · intro h
    cases hd : s.data with
    | nil => rfl
    | cons c rest =>
      exfalso
      simp only [jsLength, hd, List.map_cons, List.sum_cons] at h
      split_ifs at h <;> omega
  · intro h
    simp [jsLength, h]

theorem jsTrim_blank_iff (s : String) : jsLength (jsTrim s) = 0 ↔ isBlank s := by
  rw [jsLength_eq_zero]
  simp only [jsTrim, List.reverse_eq_nil_iff, isBlank]
  constructor
  · intro h
    have h1 : ∀ x ∈ s.data.dropWhile jsWhiteSpace, jsWhiteSpace x = true := by
      intro x hx
      exact (List.dropWhile_eq_nil_iff.1 h) x (List.mem_reverse.2 hx)
    exact List.dropWhile_eq_nil_iff.1 (dropWhile_eq_nil_of_all _ _ h1)
  · intro h
    rw [List.dropWhile_eq_nil_iff.2 h]
    rfl

theorem invalidMeetingName_iff (newName : String) :
    invalidMeetingName newName = true ↔ isBlank newName ∨ 100 < jsLength newName := by
  have hempty : newName = "" → isBlank newName := by
    intro h c hc
    rw [h] at hc
    cases hc
  simp only [invalidMeetingName, truthy, Bool.or_eq_true, Bool.not_eq_true',
    decide_eq_false_iff_not, decide_eq_true_eq, not_not, gt_iff_lt, jsTrim_blank_iff]
  constructor
  · rintro ((h | h) | h)
    · exact Or.inl (hempty h)
    · exact Or.inl h
    · exact Or.inr h
  · rintro (h | h)
    · exact Or.inl (Or.inr h)
    · exact Or.inr h

theorem changeMeetingName_authorised (cls : MeetingClass) (s : State) (sid : SocketId)
    (newName : String) (info : ParticipantInfo) (meeting : Meeting)
    (hi : jsGet s.participants sid = some info)
    (hm : jsGet s.meetings info.meetingId = some meeting)
    (hc : cls.canChangeMeetingName meeting sid = true) :
    changeMeetingName cls s sid { newName := some newName }
      = if invalidMeetingName newName then (s, [⟨Target.sender, "action-error"⟩])
        else renamed cls s info meeting newName := by
  have hv : validateData { newName := some newName } ["newName"] = true := by
    simp [validateData, Data.has]
  unfold changeMeetingName
  simp only [hv, Bool.not_true, Bool.false_eq_true, if_false, hi, hm, hc]
  by_cases hb : invalidMeetingName newName = true
  · simp only [hb, if_true]
  · simp only [hb, Bool.false_eq_true, if_false, renamed]
    by_cases hr : (cls.updateMeetingName meeting newName).2 = true
    · simp only [hr, if_true]
    · simp only [hr, Bool.false_eq_true, if_false]

/-- C24 (the claim as stated fails): the host of `M1` sends the name `" "`, of length 1. The
handler answers `action-error` and renames nothing, because `trim()` leaves nothing of it. -/
theorem C24_name_length_counterexample : ¬ NameLengthRuleAsStated hostIdClass hostAlone "H" := by
  intro h
  have hacc := (h " " ⟨"M1", true⟩ (m1 "H" "Hana" [("H", hana)]) rfl rfl rfl).1
    ⟨by decide, by decide⟩
  have hinv : invalidMeetingName " " = true := by decide
  rw [changeMeetingName_authorised hostIdClass hostAlone "H" " " ⟨"M1", true⟩
    (m1 "H" "Hana" [("H", hana)]) rfl rfl rfl, hinv] at hacc
  have hsnd := congrArg Prod.snd hacc
  simp [renamed, hostIdClass] at hsnd

/-- C24 (amended): for a caller that passes the authorisation test, change-meeting-name hands to
`updateMeetingName` every name that has a code point other than the white space `trim()`
strips and is at most 100 UTF-16 code units long, and answers `action-error`, with the registry
unchanged, every name that is empty, made of such white space only, or longer than 100 code
units. Every name falls under one of the two cases. -/
theorem C24_name_rule (cls : MeetingClass) (s : State) (sid : SocketId) (newName : String)
    (info : ParticipantInfo) (meeting : Meeting)
    (hi : jsGet s.participants sid = some info)
    (hm : jsGet s.meetings info.meetingId = some meeting)
    (hc : cls.canChangeMeetingName meeting sid = true) :
    (¬ isBlank newName ∧ jsLength newName ≤ 100 →
      changeMeetingName cls s sid { newName := some newName }
        = renamed cls s info meeting newName) ∧
    (jsLength newName = 0 ∨ isBlank newName ∨ 100 < jsLength newName →
      changeMeetingName cls s sid { newName := some newName }
        = (s, [⟨Target.sender, "action-error"⟩])) := by
  rw [changeMeetingName_authorised cls s sid newName info meeting hi hm hc]
  constructor
  · rintro ⟨h1, h2⟩
    have hb : ¬ invalidMeetingName newName = true := by
      rw [invalidMeetingName_iff]
      rintro (h | h)
      · exact h1 h
      · omega
    simp only [hb, Bool.false_eq_true, if_false]
  · intro h
    have hb : invalidMeetingName newName = true := by
      rw [invalidMeetingName_iff]
      rcases h with h | h | h
      · left
        intro c hc
        rw [(jsLength_eq_zero newName).1 h] at hc
        cases hc
      · exact Or.inl h
      · exact Or.inr h
    simp only [hb, if_true]

theorem C24_name_rule_witness :
    changeMeetingName hostIdClass hostAlone "H" { newName := some "Standup" }
      = renamed hostIdClass hostAlone ⟨"M1", true⟩ (m1 "H" "Hana" [("H", hana)]) "Standup" ∧
    changeMeetingName hostIdClass hostAlone "H" { newName := some noBreakSpace }
      = (hostAlone, [⟨Target.sender, "action-error"⟩]) ∧
    changeMeetingName hostIdClass hostAlone "H" { newName := some verticalTab }
      = (hostAlone, [⟨Target.sender, "action-error"⟩]) ∧
    changeMeetingName hostIdClass hostAlone "H" { newName := some fiftyOneEmoji }
      = (hostAlone, [⟨Target.sender, "action-error"⟩]) :=
  ⟨(C24_name_rule hostIdClass hostAlone "H" "Standup" ⟨"M1", true⟩
      (m1 "H" "Hana" [("H", hana)]) rfl rfl rfl).1
      ⟨fun h => absurd (h (Char.ofNat 83) (by decide)) (by decide), by decide⟩,
    (C24_name_rule hostIdClass hostAlone "H" noBreakSpace ⟨"M1", true⟩
      (m1 "H" "Hana" [("H", hana)]) rfl rfl rfl).2
      (Or.inr (Or.inl (by
        intro c hc
        rw [List.mem_singleton.1 hc]
        decide))),
    (C24_name_rule hostIdClass hostAlone "H" verticalTab ⟨"M1", true⟩
      (m1 "H" "Hana" [("H", hana)]) rfl rfl rfl).2
      (Or.inr (Or.inl (by
        intro c hc
        rw [List.mem_singleton.1 hc]
        decide))),
    (C24_name_rule hostIdClass hostAlone "H" fiftyOneEmoji ⟨"M1", true⟩
      (m1 "H" "Hana" [("H", hana)]) rfl rfl rfl).2
      (Or.inr (Or.inr (by decide)))⟩

/-! ## The health sweep -/

/-- C25: one health sweep at time `now` returns the registry as it was (no participant removed,
no meeting deleted), emits nothing but `connection-health-check` to single connections, and a
connection is probed exactly when some meeting stores under its id a participant with
`lastHeartbeat + 60000 < now`; a participant at exactly 60000 does not count. -/
theorem C25_health_sweep (s : State) (now : Nat) :
    (healthSweep s now).1 = s ∧
    (∀ em ∈ (healthSweep s now).2,
      ∃ sid, em = ⟨Target.socket sid, "connection-health-check"⟩) ∧
    ∀ sid, (⟨Target.socket sid, "connection-health-check"⟩ : Emit) ∈ (healthSweep s now).2 ↔
      ∃ entry ∈ s.meetings, ∃ e ∈ entry.2.participants,
        e.1 = sid ∧ e.2.lastHeartbeat + 60000 < now := by
  refine ⟨rfl, ?_, ?_⟩
  · intro em hem
    simp only [healthSweep, List.mem_flatMap, List.mem_map, List.mem_filter] at hem
    obtain ⟨_, _, sid, _, rfl⟩ := hem
    exact ⟨sid, rfl⟩
  · intro sid
    simp only [healthSweep, List.mem_flatMap, List.mem_map, List.mem_filter, decide_eq_true_eq]
    constructor
    · rintro ⟨entry, hentry, k, ⟨e, ⟨he, hlate⟩, rfl⟩, hk⟩
      have hsid : e.1 = sid := by
        have := congrArg Emit.target hk
        simpa using this
      exact ⟨entry, hentry, e, he, hsid, by omega⟩
    · rintro ⟨entry, hentry, e, he, rfl, hlate⟩
      exact ⟨entry, hentry, e.1, ⟨e, ⟨he, by omega⟩, rfl⟩, rfl⟩

/-! ## The back-references after a host transfer and after a host disconnect -/

/-- C26: host `H` creates `M1`, `P1` joins, `H` disconnects. The meeting is deleted and the
back-reference of `P1` still names it, so the back-references are not sound; when `H` ends the
meeting for all instead, the back-references of all its participants are deleted with it. -/
theorem C26_stale_back_reference :
    run State.empty (hostThenJoin ++ [Event.disconnect "H"])
      = { meetings := [], participants := [("P1", { meetingId := "M1", isHost := false })] } ∧
    ¬ BackReferencesSound (run State.empty (hostThenJoin ++ [Event.disconnect "H"])) ∧
    BackReferencesSound
      (run State.empty (hostThenJoin ++ [Event.endMeetingForAll "H" leaveData])) := by
  have h1 : run State.empty (hostThenJoin ++ [Event.disconnect "H"])
      = { meetings := [], participants := [("P1", { meetingId := "M1", isHost := false })] } := by
    decide
  have h2 : run State.empty (hostThenJoin ++ [Event.endMeetingForAll "H" leaveData])
      = { meetings := [], participants := [] } := by
    decide
  refine ⟨h1, ?_, ?_⟩
  · rw [h1]
    intro h
    obtain ⟨meeting, hm, _⟩ := h ("P1", { meetingId := "M1", isHost := false })
      (List.mem_singleton.2 rfl)
    simp [jsGet] at hm
  · rw [h2]
    intro e he
    cases he

/-- C27: host `H` creates `M1`, `P1` joins, `H` leaves. `P1` is promoted in the meeting
(`isHost` set, `hostId` is `P1`) while its back-reference keeps `isHost` false, so the flags
disagree; when `P1` then disconnects it is handled as a plain participant and the meeting stays
registered with no participant. -/
theorem C27_promoted_host_flag_stale :
    run State.empty (hostThenJoin ++ [Event.hostLeaveMeeting "H" leaveData])
      = { meetings := [("M1", m1 "P1" "Pia" [("P1", { pia with isHost := true })])]
          participants := [("P1", { meetingId := "M1", isHost := false })] } ∧
    ¬ HostFlagsAgree (run State.empty (hostThenJoin ++ [Event.hostLeaveMeeting "H" leaveData])) ∧
    run State.empty
        (hostThenJoin ++ [Event.hostLeaveMeeting "H" leaveData, Event.disconnect "P1"])
      = { meetings := [("M1", m1 "P1" "Pia" [])], participants := [] } := by
  have h1 : run State.empty (hostThenJoin ++ [Event.hostLeaveMeeting "H" leaveData])
      = { meetings := [("M1", m1 "P1" "Pia" [("P1", { pia with isHost := true })])]
          participants := [("P1", { meetingId := "M1", isHost := false })] } := by
    decide
  refine ⟨h1, ?_, by decide⟩
  rw [h1]
  intro h
  have := h ("P1", { meetingId := "M1", isHost := false }) (List.mem_singleton.2 rfl)
    (m1 "P1" "Pia" [("P1", { pia with isHost := true })]) { pia with isHost := true } rfl rfl
  simp [pia] at this

/-! ## The client's participant list -/

theorem mem_jsKeys_iff {β : Type} (m : List (String × β)) (k : String) :
    k ∈ jsKeys m ↔ (jsGet m k).isSome = true := by
  induction m with
  | nil => simp [jsKeys, jsGet]
  | cons e rest ih =>
    obtain ⟨k₀, v₀⟩ := e
    have ih' : k ∈ List.map (fun e => e.1) rest ↔ (jsGet rest k).isSome = true := ih
    by_cases hk : k₀ = k
    · simp [jsKeys, jsGet, hk]
    · have hk' : ¬ k = k₀ := fun h => hk h.symm
      simp only [jsKeys, jsGet, hk, if_false, List.map_cons, List.mem_cons, hk', false_or]
      exact ih'

theorem jsKeys_jsSet_absent {β : Type} (m : List (String × β)) (k : String) (v : β)
    (h : jsGet m k = none) : jsKeys (jsSet m k v) = jsKeys m ++ [k] := by
  induction m with
  | nil => simp [jsSet, jsKeys]
  | cons e rest ih =>
    obtain ⟨k₀, v₀⟩ := e
    by_cases hk : k₀ = k
    · simp [jsGet, hk] at h
    · have h' : jsGet rest k = none := by simpa [jsGet, hk] using h
      have := ih h'
      simp only [jsKeys] at this
      simp [jsSet, jsKeys, hk, this]

theorem nodup_jsKeys_jsSet {β : Type} (m : List (String × β)) (k : String) (v : β)
    (h : (jsKeys m).Nodup) : (jsKeys (jsSet m k v)).Nodup := by
  cases hg : jsGet m k with
  | some w => rw [jsKeys_jsSet_of_get m k w v hg]; exact h
  | none =>
    rw [jsKeys_jsSet_absent m k v hg]
    have hk : k ∉ jsKeys m := by
      rw [mem_jsKeys_iff, hg]
      simp
    exact List.Nodup.append h (List.nodup_singleton k) (by
      intro x hx hx'
      rw [List.mem_singleton.1 hx'] at hx
      exact hk hx)

theorem jsGet_foldl_jsSet (ps : List Participant) (acc : List (SocketId × Participant))
    (k : SocketId) :
    jsGet (ps.foldl (fun acc p => jsSet acc p.socketId p) acc) k
      = (ps.reverse.find? (fun p => decide (p.socketId = k))).or (jsGet acc k) := by
  induction ps generalizing acc with
  | nil => simp
  | cons p rest ih =>
    rw [List.foldl_cons, ih, List.reverse_cons, List.find?_append]
    by_cases hk : p.socketId = k
    · rw [← hk, jsGet_jsSet_self]
      cases List.find? (fun q => decide (q.socketId = p.socketId)) rest.reverse <;>
        simp [List.find?]
    · rw [jsGet_jsSet_ne acc p (fun h => hk h.symm)]
      cases List.find? (fun q => decide (q.socketId = k)) rest.reverse <;>
        simp [List.find?, hk]

theorem nodup_foldl_jsSet (ps : List Participant) (acc : List (SocketId × Participant))
    (h : (jsKeys acc).Nodup) :
    (jsKeys (ps.foldl (fun acc p => jsSet acc p.socketId p) acc)).Nodup := by
  induction ps generalizing acc with
  | nil => exact h
  | cons p rest ih => exact ih _ (nodup_jsKeys_jsSet acc p.socketId p h)

theorem find?_reverse_isSome (ps : List Participant) (k : SocketId) :
    (ps.reverse.find? (fun p => decide (p.socketId = k))).isSome = true
      ↔ ∃ p ∈ ps, p.socketId = k := by
  rw [List.find?_isSome]
  simp

theorem ParticipantMeeting.foldl_fst (socketId : SocketId) (ps : List Participant)
    (acc : List (SocketId × Participant) × Bool) :
    (ps.foldl (fun acc p =>
        (jsSet acc.1 p.socketId p, if p.socketId = socketId then p.isCoHost else acc.2)) acc).1
      = ps.foldl (fun acc p => jsSet acc p.socketId p) acc.1 := by
  induction ps generalizing acc with
  | nil => rfl
  | cons p rest ih => rw [List.foldl_cons, List.foldl_cons, ih]

theorem ParticipantMeeting.updateParticipants_fst (old : List (SocketId × Participant))
    (isCoHost : Bool) (socketId : SocketId) (participants : List Participant) :
    (ParticipantMeeting.updateParticipants old isCoHost socketId participants).1
      = ParticipantManager.updateParticipants old participants socketId := by
  unfold ParticipantMeeting.updateParticipants ParticipantManager.updateParticipants
  have hf := ParticipantMeeting.foldl_fst socketId participants ([], isCoHost)
  cases hl : jsGet old socketId with
  | none => exact hf
  | some lp =>
    dsimp only
    rw [hf]
    by_cases hh : jsHas (participants.foldl (fun acc p => jsSet acc p.socketId p) []) socketId
        = true
    · simp only [hh, Bool.not_true, Bool.false_eq_true, if_false]
      exact hf
    · simp only [hh, Bool.not_false, if_true]

/-- C29: after `updateParticipants(list, localId)` the keys of the map are the socket ids of
the list, plus the local id when it was a key before, each once; a listed socket id maps to the
last entry of the list that carries it; when the list has no entry for the local id, the local
id maps to what it mapped to before. The participant page's variant computes the same map. -/
theorem C29_update_participants (old : List (SocketId × Participant))
    (participants : List Participant) (localSocketId : SocketId) :
    (∀ k, k ∈ jsKeys (ParticipantManager.updateParticipants old participants localSocketId) ↔
      (∃ p ∈ participants, p.socketId = k) ∨ (k = localSocketId ∧ localSocketId ∈ jsKeys old)) ∧
    (jsKeys (ParticipantManager.updateParticipants old participants localSocketId)).Nodup ∧
    (∀ p ∈ participants,
      jsGet (ParticipantManager.updateParticipants old participants localSocketId) p.socketId
        = participants.reverse.find? (fun q => decide (q.socketId = p.socketId)) ∧
      (participants.reverse.find? (fun q => decide (q.socketId = p.socketId))).isSome = true) ∧
    ((∀ p ∈ participants, p.socketId ≠ localSocketId) →
      jsGet (ParticipantManager.updateParticipants old participants localSocketId) localSocketId
        = jsGet old localSocketId) ∧
    ∀ isCoHost,
      (ParticipantMeeting.updateParticipants old isCoHost localSocketId participants).1
        = ParticipantManager.updateParticipants old participants localSocketId := by
  have hget : ∀ k, jsGet (ParticipantManager.updateParticipants old participants localSocketId) k
      = (participants.reverse.find? (fun p => decide (p.socketId = k))).or
          (if k = localSocketId then jsGet old localSocketId else none) := by
    intro k
    unfold ParticipantManager.updateParticipants
    have hf := fun k => jsGet_foldl_jsSet participants [] k
    cases hl : jsGet old localSocketId with
    | none =>
      dsimp only
      rw [hf]
      simp [jsGet]
    | some lp =>
      dsimp only
      by_cases hh : jsHas (participants.foldl (fun acc p => jsSet acc p.socketId p) [])
          localSocketId = true
      · simp only [hh, Bool.not_true, Bool.false_eq_true, if_false]
        rw [hf]
        by_cases hk : k = localSocketId
        · subst hk
          simp only [jsHas, hf] at hh
          cases hfind : List.find? (fun p => decide (p.socketId = k)) participants.reverse with
          | none => simp [hfind, jsGet] at hh
          | some q => simp
        · simp [hk, jsGet]
      · simp only [hh, Bool.not_false, if_true]
        by_cases hk : k = localSocketId
        · subst hk
          rw [jsGet_jsSet_self]
          simp only [jsHas, hf, Bool.not_eq_true, Option.not_isSome,
            Option.isNone_iff_eq_none] at hh
          cases hfind : List.find? (fun p => decide (p.socketId = k)) participants.reverse with
          | none => simp
          | some q => simp [hfind, jsGet] at hh
        · rw [jsGet_jsSet_ne _ lp hk, hf]
          simp [hk, jsGet]
  refine ⟨?_, ?_, ?_, ?_, ?_⟩
  · intro k
    rw [mem_jsKeys_iff, hget, mem_jsKeys_iff, ← find?_reverse_isSome participants k]
    cases List.find? (fun p => decide (p.socketId = k)) participants.reverse with
    | some q => simp
    | none =>
      by_cases hk : k = localSocketId
      · simp [hk]
      · simp [hk]
  · unfold ParticipantManager.updateParticipants
    have hn := nodup_foldl_jsSet participants [] List.nodup_nil
    cases hl : jsGet old localSocketId with
    | none => exact hn
    | some lp =>
      dsimp only
      by_cases hh : jsHas (participants.foldl (fun acc p => jsSet acc p.socketId p) [])
          localSocketId = true
      · simp only [hh, Bool.not_true, Bool.false_eq_true, if_false]
        exact hn
      · simp only [hh, Bool.not_false, if_true]
        exact nodup_jsKeys_jsSet _ _ _ hn
  · intro p hp
    have hsome := (find?_reverse_isSome participants p.socketId).2 ⟨p, hp, rfl⟩
    refine ⟨?_, hsome⟩
    rw [hget]
    cases hfind : List.find? (fun q => decide (q.socketId = p.socketId)) participants.reverse with
    | none => rw [hfind] at hsome; cases hsome
    | some q => simp
  · intro hmiss
    rw [hget]
    have hnone : List.find? (fun p => decide (p.socketId = localSocketId)) participants.reverse
        = none := by
      rw [List.find?_eq_none]
      intro p hp
      simpa using hmiss p (List.mem_reverse.1 hp)
    rw [hnone]
    simp
  · intro isCoHost
    exact ParticipantMeeting.updateParticipants_fst old isCoHost localSocketId participants

/-! ## The grid of video tiles -/

namespace VideoLayout

theorem tiles_appended (container : Container) (className : String) (xs : List GridNode) :
    Container.tiles { container with className := className, children := container.children ++ xs }
      = container.tiles ++ Container.tiles { children := xs } := by
  simp [Container.tiles]

theorem tiles_map_tile (participants : List Participant) :
    Container.tiles { children := participants.map GridNode.tile } = participants := by
  induction participants with
  | nil => rfl
  | cons p rest ih =>
    have hcons : Container.tiles { children := (p :: rest).map GridNode.tile }
        = p :: Container.tiles { children := rest.map GridNode.tile } := by
      simp [Container.tiles]
    rw [hcons, ih]

theorem renderGridLayout_children (participants : List Participant) (container : Container) :
    ∃ className xs,
      renderGridLayout participants container
        = { container with className := className, children := container.children ++ xs } ∧
      Container.tiles { children := xs } = participants := by
  match participants with
  | [] => exact ⟨_, _, rfl, rfl⟩
  | [_] => exact ⟨_, _, rfl, rfl⟩
  | [_, _] => exact ⟨_, _, rfl, rfl⟩
  | [_, _, _] => exact ⟨_, _, rfl, rfl⟩
  | [_, _, _, _] => exact ⟨_, _, rfl, rfl⟩
  | [_, _, _, _, _] => exact ⟨_, _, rfl, rfl⟩
  | [_, _, _, _, _, _] => exact ⟨_, _, rfl, rfl⟩
  | [_, _, _, _, _, _, _] => exact ⟨_, _, rfl, rfl⟩
  | [_, _, _, _, _, _, _, _] => exact ⟨_, _, rfl, rfl⟩
  | [_, _, _, _, _, _, _, _, _] => exact ⟨_, _, rfl, rfl⟩
  | [_, _, _, _, _, _, _, _, _, _] => exact ⟨_, _, rfl, rfl⟩
  | [_, _, _, _, _, _, _, _, _, _, _] => exact ⟨_, _, rfl, rfl⟩
  | [_, _, _, _, _, _, _, _, _, _, _, _] => exact ⟨_, _, rfl, rfl⟩
  | [_, _, _, _, _, _, _, _, _, _, _, _, _] => exact ⟨_, _, rfl, rfl⟩
  | [_, _, _, _, _, _, _, _, _, _, _, _, _, _] => exact ⟨_, _, rfl, rfl⟩
  | [_, _, _, _, _, _, _, _, _, _, _, _, _, _, _] => exact ⟨_, _, rfl, rfl⟩
  | a1 :: a2 :: a3 :: a4 :: a5 :: a6 :: a7 :: a8 :: a9 :: a10 :: a11 :: a12 :: a13 :: a14 ::
      a15 :: a16 :: rest =>
    refine ⟨"secondary-videos-section standard-grid",
      List.map GridNode.tile (a1 :: a2 :: a3 :: a4 :: a5 :: a6 :: a7 :: a8 :: a9 :: a10 ::
        a11 :: a12 :: a13 :: a14 :: a15 :: a16 :: rest), ?_, ?_⟩
    · have hlen : (a1 :: a2 :: a3 :: a4 :: a5 :: a6 :: a7 :: a8 :: a9 :: a10 :: a11 :: a12 ::
          a13 :: a14 :: a15 :: a16 :: rest).length = rest.length + 16 := by
        simp
      unfold renderGridLayout
      simp only [hlen]
      rw [if_neg (by omega)]
      rfl
    · exact tiles_map_tile _

theorem customRows_flatten (participants : List Participant)
    (h : 3 ≤ participants.length ∧ participants.length ≤ 15 ∧ participants.length ≠ 10) :
    (customRows participants participants.length).flatten = participants := by
  match participants, h with
  | [], h => simp at h
  | [_], h => simp at h
  | [_, _], h => simp at h
  | [_, _, _], _ => rfl
  | [_, _, _, _], _ => rfl
  | [_, _, _, _, _], _ => rfl
  | [_, _, _, _, _, _], _ => rfl
  | [_, _, _, _, _, _, _], _ => rfl
  | [_, _, _, _, _, _, _, _], _ => rfl
  | [_, _, _, _, _, _, _, _, _], _ => rfl
  | [_, _, _, _, _, _, _, _, _, _], h => simp at h
  | [_, _, _, _, _, _, _, _, _, _, _], _ => rfl
  | [_, _, _, _, _, _, _, _, _, _, _, _], _ => rfl
  | [_, _, _, _, _, _, _, _, _, _, _, _, _], _ => rfl
  | [_, _, _, _, _, _, _, _, _, _, _, _, _, _], _ => rfl
  | [_, _, _, _, _, _, _, _, _, _, _, _, _, _, _], _ => rfl
  | _ :: _ :: _ :: _ :: _ :: _ :: _ :: _ :: _ :: _ :: _ :: _ :: _ :: _ :: _ :: _ :: rest, h =>
    simp at h

end VideoLayout

/-- C30: for every list of participants (of any length, so also for 0 to 15) `renderGridLayout`
appends to the container tiles that, read in document order and row by row, are the input
participants, each once and in the input order; and for every count from 3 to 15 other than 10
the children appended are the rows of `renderCustomGridLayout`, which concatenate to the whole
input list. -/
theorem C30_grid_layout_loses_nobody (participants : List Participant) (container : Container) :
    (VideoLayout.renderGridLayout participants container).tiles
      = container.tiles ++ participants ∧
    (3 ≤ participants.length ∧ participants.length ≤ 15 ∧ participants.length ≠ 10 →
      (VideoLayout.renderGridLayout participants container).children
        = container.children
          ++ (VideoLayout.customRows participants participants.length).map GridNode.row ∧
      (VideoLayout.customRows participants participants.length).flatten = participants) := by
  constructor
  · obtain ⟨className, xs, hr, hx⟩ :=
      VideoLayout.renderGridLayout_children participants container
    rw [hr, VideoLayout.tiles_appended, hx]
  · intro h
    refine ⟨?_, VideoLayout.customRows_flatten participants h⟩
    unfold VideoLayout.renderGridLayout
    dsimp only
    rw [if_pos (by omega)]
    unfold VideoLayout.renderCustomGridLayout
    rw [if_neg (by omega)]

/-! ## Link independence -/

namespace EnhancedWebRTCManager

theorem Untouched.refl (m : EnhancedWebRTCManager) (t : SocketId) : Untouched m m t :=
  ⟨rfl, rfl, rfl, rfl, rfl⟩

theorem Untouched.trans {m m' m'' : EnhancedWebRTCManager} {t : SocketId}
    (h1 : Untouched m m' t) (h2 : Untouched m' m'' t) : Untouched m m'' t :=
  ⟨h2.1.trans h1.1, h2.2.1.trans h1.2.1, h2.2.2.1.trans h1.2.2.1,
    h2.2.2.2.1.trans h1.2.2.2.1, h2.2.2.2.2.trans h1.2.2.2.2⟩

theorem createPeerConnection_untouched (br : Browser) (m : EnhancedWebRTCManager)
    (r : SocketId) (shouldCreateOffer : Bool) (t : SocketId) (h : t ≠ r) :
    Untouched m (createPeerConnection br m r shouldCreateOffer).1 t := by
  have e1 : ∀ {β : Type} (x : List (String × β)) (v : β), jsGet (jsSet x r v) t = jsGet x t :=
    fun x v => jsGet_jsSet_ne x v h
  have e2 : ∀ {β : Type} (x : List (String × β)), jsGet (jsDelete x r) t = jsGet x t :=
    fun x => jsGet_jsDelete_ne x h
  unfold createPeerConnection Untouched
  cases jsGet m.peerConnections r <;> dsimp only <;> split_ifs <;>
    simp only [e1, e2, and_self]

theorem processBufferedCandidates_untouched (br : Browser) (m : EnhancedWebRTCManager)
    (r : SocketId) (t : SocketId) (h : t ≠ r) :
    Untouched m (processBufferedCandidates br m r) t := by
  have e1 : ∀ {β : Type} (x : List (String × β)) (v : β), jsGet (jsSet x r v) t = jsGet x t :=
    fun x v => jsGet_jsSet_ne x v h
  unfold processBufferedCandidates
  cases jsGet m.pendingCandidates r with
  | none => exact Untouched.refl m t
  | some candidates =>
    dsimp only
    split_ifs
    · exact Untouched.refl m t
    · cases jsGet m.peerConnections r with
      | none => exact Untouched.refl m t
      | some pc =>
        dsimp only
        split_ifs
        · exact Untouched.refl m t
        · simp only [Untouched, e1, and_self]

theorem handleOffer_untouched (br : Browser) (m : EnhancedWebRTCManager)
    (offer : Description) (s t : SocketId) (h : t ≠ s) :
    Untouched m (handleOfferWithPerfectNegotiation br m offer s).1 t := by
  have e1 : ∀ {β : Type} (x : List (String × β)) (v : β), jsGet (jsSet x s v) t = jsGet x t :=
    fun x v => jsGet_jsSet_ne x v h
  unfold handleOfferWithPerfectNegotiation
  have hc : Untouched m (match jsGet m.peerConnections s with
      | some _ => (m, ([] : List Signal))
      | none => createPeerConnection br m s false).1 t := by
    cases jsGet m.peerConnections s with
    | some _ => exact Untouched.refl m t
    | none => exact createPeerConnection_untouched br m s false t h
  generalize (match jsGet m.peerConnections s with
      | some _ => (m, ([] : List Signal))
      | none => createPeerConnection br m s false) = c at hc ⊢
  refine Untouched.trans hc ?_
  dsimp only
  cases jsGet c.1.peerConnections s with
  | none => dsimp only; split_ifs <;> simp only [Untouched, e1, and_self]
  | some pc =>
    dsimp only
    generalize hX : processBufferedCandidates br _ s = X
    have hp := (fun M (hM : processBufferedCandidates br M s = X) =>
      hM ▸ processBufferedCandidates_untouched br M s t h) _ hX
    simp only [Untouched, e1] at hp
    obtain ⟨hp1, hp2, hp3, hp4, hp5⟩ := hp
    split_ifs
    · simp only [Untouched, e1, and_self]
    · simp only [Untouched, e1, and_self]
    · cases jsGet X.peerConnections s with
      | none => exact ⟨hp1, hp2, hp3, hp4, hp5⟩
      | some pc' =>
        dsimp only
        simp only [Untouched, e1]
        exact ⟨hp1, hp2, hp3, hp4, hp5⟩
    · simp only [Untouched, e1]
      exact ⟨hp1, hp2, hp3, hp4, hp5⟩

theorem handleAnswer_untouched (br : Browser) (m : EnhancedWebRTCManager)
    (answer : Description) (s t : SocketId) (h : t ≠ s) :
    Untouched m (handleAnswerWithPerfectNegotiation br m answer s) t := by
  have e1 : ∀ {β : Type} (x : List (String × β)) (v : β), jsGet (jsSet x s v) t = jsGet x t :=
    fun x v => jsGet_jsSet_ne x v h
  unfold handleAnswerWithPerfectNegotiation
  cases jsGet m.peerConnections s with
  | none => exact Untouched.refl m t
  | some pc =>
    dsimp only
    split_ifs
    · simp only [Untouched, e1, and_self]
    · refine Untouched.trans ?_ (processBufferedCandidates_untouched br _ s t h)
      simp only [Untouched, e1, and_self]

theorem handleIceCandidate_untouched (br : Browser) (m : EnhancedWebRTCManager)
    (candidate : Option Candidate) (s t : SocketId) (h : t ≠ s) :
    Untouched m (handleIceCandidateWithBuffering br m candidate s) t := by
  have e1 : ∀ {β : Type} (x : List (String × β)) (v : β), jsGet (jsSet x s v) t = jsGet x t :=
    fun x v => jsGet_jsSet_ne x v h
  unfold handleIceCandidateWithBuffering
  cases jsGet m.peerConnections s with
  | none => exact Untouched.refl m t
  | some pc =>
    dsimp only
    split_ifs
    · cases candidate with
      | none => exact Untouched.refl m t
      | some c =>
        dsimp only
        split_ifs
        · simp only [Untouched, e1, and_self]
        · exact Untouched.refl m t
    · simp only [Untouched, e1, and_self]
    · simp only [Untouched, e1, and_self]

end EnhancedWebRTCManager

/-- C23: when the host's manager handles an offer, an answer or a candidate from sender `s`,
then for every other peer `t` the link stored under `t` and the entries of `t` in
`makingOffer`, `ignoreOffer`, `isSettingRemoteDescription` and `pendingCandidates` are what
they were before, whatever the browser calls do. -/
theorem C23_link_independence (br : Browser) (m : EnhancedWebRTCManager)
    (description : Description) (candidate : Option Candidate) (s t : SocketId) (h : t ≠ s) :
    EnhancedWebRTCManager.Untouched m
      (EnhancedWebRTCManager.handleOfferWithPerfectNegotiation br m description s).1 t ∧
    EnhancedWebRTCManager.Untouched m
      (EnhancedWebRTCManager.handleAnswerWithPerfectNegotiation br m description s) t ∧
    EnhancedWebRTCManager.Untouched m
      (EnhancedWebRTCManager.handleIceCandidateWithBuffering br m candidate s) t :=
  ⟨EnhancedWebRTCManager.handleOffer_untouched br m description s t h,
    EnhancedWebRTCManager.handleAnswer_untouched br m description s t h,
    EnhancedWebRTCManager.handleIceCandidate_untouched br m candidate s t h⟩

theorem C23_link_independence_witness :
    EnhancedWebRTCManager.Untouched peerAWithC
      (EnhancedWebRTCManager.handleOfferWithPerfectNegotiation allOk peerAWithC theOffer "C").1
      "B" ∧
    EnhancedWebRTCManager.Untouched peerAWithC
      (EnhancedWebRTCManager.handleAnswerWithPerfectNegotiation allOk peerAWithC theOffer "C")
      "B" ∧
    EnhancedWebRTCManager.Untouched peerAWithC
      (EnhancedWebRTCManager.handleIceCandidateWithBuffering allOk peerAWithC (some cand1) "C")
      "B" :=
  C23_link_independence allOk peerAWithC theOffer (some cand1) "C" "B"
    (by decide)

/-! ## The negotiation flags are released -/

namespace EnhancedWebRTCManager

theorem flag_jsSet_self (x : List (SocketId × Bool)) (r : SocketId) (b : Bool) :
    flag (jsSet x r b) r = b := by
  simp only [flag, jsGet_jsSet_self, Option.getD_some]

theorem createPeerConnection_makingOffer (br : Browser) (m : EnhancedWebRTCManager)
    (r : SocketId) (shouldCreateOffer : Bool) :
    (br.newLinkOk = true →
      flag (createPeerConnection br m r shouldCreateOffer).1.makingOffer r = false) ∧
    (br.newLinkOk = false →
      (createPeerConnection br m r shouldCreateOffer).1.makingOffer = m.makingOffer) := by
  unfold createPeerConnection
  cases jsGet m.peerConnections r <;> dsimp only <;> split_ifs <;>
    simp_all [flag_jsSet_self]

theorem createPeerConnection_isSetting (br : Browser) (m : EnhancedWebRTCManager)
    (r : SocketId) (shouldCreateOffer : Bool) :
    flag (createPeerConnection br m r shouldCreateOffer).1.isSettingRemoteDescription r = false ∨
    (createPeerConnection br m r shouldCreateOffer).1.isSettingRemoteDescription
      = m.isSettingRemoteDescription := by
  unfold createPeerConnection
  cases jsGet m.peerConnections r <;> dsimp only <;> split_ifs <;>
    simp_all [flag_jsSet_self]

theorem onnegotiationneeded_makingOffer (br : Browser) (m : EnhancedWebRTCManager)
    (r : SocketId) :
    ((jsGet m.peerConnections r).isSome = true →
      flag (onnegotiationneeded br m r).1.makingOffer r = false) ∧
    ((jsGet m.peerConnections r).isSome = false → (onnegotiationneeded br m r).1 = m) := by
  unfold onnegotiationneeded
  cases jsGet m.peerConnections r with
  | none => simp
  | some pc => dsimp only; split_ifs <;> simp [flag_jsSet_self]

theorem performIceRestart_makingOffer (br : Browser) (m : EnhancedWebRTCManager)
    (r : SocketId) :
    ((jsGet m.peerConnections r).isSome = true →
      flag (performIceRestart br m r).1.makingOffer r = false) ∧
    ((jsGet m.peerConnections r).isSome = false → (performIceRestart br m r).1 = m) := by
  unfold performIceRestart
  cases jsGet m.peerConnections r with
  | none => simp
  | some pc => dsimp only; split_ifs <;> simp [flag_jsSet_self]

theorem handleAnswer_isSetting (br : Browser) (m : EnhancedWebRTCManager)
    (answer : Description) (r : SocketId) :
    ((jsGet m.peerConnections r).isSome = true →
      flag (handleAnswerWithPerfectNegotiation br m answer r).isSettingRemoteDescription r
        = false) ∧
    ((jsGet m.peerConnections r).isSome = false →
      handleAnswerWithPerfectNegotiation br m answer r = m) := by
  unfold handleAnswerWithPerfectNegotiation
  cases jsGet m.peerConnections r with
  | none => simp
  | some pc =>
    dsimp only
    split_ifs
    · simp [flag_jsSet_self]
    · simp [(processBufferedCandidates_flags br _ r).2.2.2, flag_jsSet_self]

theorem handleOffer_isSetting (br : Browser) (m : EnhancedWebRTCManager)
    (offer : Description) (r : SocketId) :
    flag (handleOfferWithPerfectNegotiation br m offer r).1.isSettingRemoteDescription r
      = false ∨
    (flag (handleOfferWithPerfectNegotiation br m offer r).1.ignoreOffer r = true ∧
      (handleOfferWithPerfectNegotiation br m offer r).1.isSettingRemoteDescription
        = m.isSettingRemoteDescription) := by
  unfold handleOfferWithPerfectNegotiation
  have hc : flag (match jsGet m.peerConnections r with
      | some _ => (m, ([] : List Signal))
      | none => createPeerConnection br m r false).1.isSettingRemoteDescription r = false ∨
      (match jsGet m.peerConnections r with
      | some _ => (m, ([] : List Signal))
      | none => createPeerConnection br m r false).1.isSettingRemoteDescription
        = m.isSettingRemoteDescription := by
    cases jsGet m.peerConnections r with
    | some _ => exact Or.inr rfl
    | none => exact createPeerConnection_isSetting br m r false
  generalize (match jsGet m.peerConnections r with
      | some _ => (m, ([] : List Signal))
      | none => createPeerConnection br m r false) = c at hc ⊢
  dsimp only
  cases jsGet c.1.peerConnections r with
  | none =>
    dsimp only
    split_ifs with h1 h2
    · exact Or.inl (flag_jsSet_self _ _ _)
    · rcases hc with hc | hc
      · exact Or.inl hc
      · exact Or.inr ⟨by rw [flag_jsSet_self]; exact h2, hc⟩
    · exact Or.inl (flag_jsSet_self _ _ _)
  | some pc =>
    dsimp only
    generalize hX : processBufferedCandidates br _ r = X
    have hp := (fun M (hM : processBufferedCandidates br M r = X) =>
      hM ▸ (processBufferedCandidates_flags br M r).2.2.2) _ hX
    simp only at hp
    split_ifs with h1 h2 h3
    · rcases hc with hc | hc
      · exact Or.inl hc
      · exact Or.inr ⟨by rw [flag_jsSet_self]; exact h1, hc⟩
    · exact Or.inl (flag_jsSet_self _ _ _)
    · left
      cases jsGet X.peerConnections r with
      | none => dsimp only; rw [hp]; exact flag_jsSet_self _ _ _
      | some pc' => dsimp only; rw [hp]; exact flag_jsSet_self _ _ _
    · exact Or.inl (flag_jsSet_self _ _ _)

end EnhancedWebRTCManager

/-- C28: whatever the browser calls do, `makingOffer` of the peer reads false when the initial
offer of `createPeerConnection`, the `negotiationneeded` handler or `performIceRestart` has run
(the first needs the link constructed, the other two a stored link), and
`isSettingRemoteDescription` of the peer reads false when the answer handler has run on a stored
link and when the offer handler returns, unless the offer was ignored, which leaves the map as
it was. From a state in which both flags read false, each of the five steps ends in such a
state. Each handler is one atomic step here. -/
theorem C28_flags_released (br : Browser) (m : EnhancedWebRTCManager) (d : Description)
    (r : SocketId) :
    (br.newLinkOk = true →
      EnhancedWebRTCManager.flag
        (EnhancedWebRTCManager.createPeerConnection br m r true).1.makingOffer r = false) ∧
    ((jsGet m.peerConnections r).isSome = true →
      EnhancedWebRTCManager.flag
        (EnhancedWebRTCManager.onnegotiationneeded br m r).1.makingOffer r = false ∧
      EnhancedWebRTCManager.flag
        (EnhancedWebRTCManager.performIceRestart br m r).1.makingOffer r = false ∧
      EnhancedWebRTCManager.flag
        (EnhancedWebRTCManager.handleAnswerWithPerfectNegotiation br m d r
          ).isSettingRemoteDescription r = false) ∧
    (EnhancedWebRTCManager.flag
        (EnhancedWebRTCManager.handleOfferWithPerfectNegotiation br m d r
          ).1.isSettingRemoteDescription r = false ∨
      (EnhancedWebRTCManager.flag
          (EnhancedWebRTCManager.handleOfferWithPerfectNegotiation br m d r).1.ignoreOffer r
          = true ∧
        (EnhancedWebRTCManager.handleOfferWithPerfectNegotiation br m d r
          ).1.isSettingRemoteDescription = m.isSettingRemoteDescription)) ∧
    (EnhancedWebRTCManager.flag m.makingOffer r = false →
      EnhancedWebRTCManager.flag m.isSettingRemoteDescription r = false →
      EnhancedWebRTCManager.flag
        (EnhancedWebRTCManager.createPeerConnection br m r true).1.makingOffer r = false ∧
      EnhancedWebRTCManager.flag
        (EnhancedWebRTCManager.onnegotiationneeded br m r).1.makingOffer r = false ∧
      EnhancedWebRTCManager.flag
        (EnhancedWebRTCManager.performIceRestart br m r).1.makingOffer r = false ∧
      EnhancedWebRTCManager.flag
        (EnhancedWebRTCManager.handleOfferWithPerfectNegotiation br m d r
          ).1.isSettingRemoteDescription r = false ∧
      EnhancedWebRTCManager.flag
        (EnhancedWebRTCManager.handleAnswerWithPerfectNegotiation br m d r
          ).isSettingRemoteDescription r = false) := by
  have hcreate := EnhancedWebRTCManager.createPeerConnection_makingOffer br m r true
  have hneg := EnhancedWebRTCManager.onnegotiationneeded_makingOffer br m r
  have hice := EnhancedWebRTCManager.performIceRestart_makingOffer br m r
  have hans := EnhancedWebRTCManager.handleAnswer_isSetting br m d r
  have hoff := EnhancedWebRTCManager.handleOffer_isSetting br m d r
  refine ⟨hcreate.1, fun h => ⟨hneg.1 h, hice.1 h, hans.1 h⟩, hoff, ?_⟩
  intro hm hs
  refine ⟨?_, ?_, ?_, ?_, ?_⟩
  · cases hn : br.newLinkOk with
    | true => exact hcreate.1 hn
    | false => rw [hcreate.2 hn]; exact hm
  · cases hl : (jsGet m.peerConnections r).isSome with
    | true => exact hneg.1 hl
    | false => rw [hneg.2 hl]; exact hm
  · cases hl : (jsGet m.peerConnections r).isSome with
    | true => exact hice.1 hl
    | false => rw [hice.2 hl]; exact hm
  · rcases hoff with h | ⟨_, h⟩
    · exact h
    · rw [h]; exact hs
  · cases hl : (jsGet m.peerConnections r).isSome with
    | true => exact hans.1 hl
    | false => rw [hans.2 hl]; exact hs

/-! ## Screen sharing: the track-replace round trip -/

theorem replaceFirst_length (p : Sender → Bool) (t : Track) (l : List Sender) :
    (replaceFirst p t l).length = l.length := by
  induction l with
  | nil => rfl
  | cons s rest ih =>
    by_cases hs : p s = true
    · simp [replaceFirst, hs]
    · simp [replaceFirst, hs, ih]

theorem replaceFirst_of_not_any (p : Sender → Bool) (t : Track) (l : List Sender)
    (h : l.any p = false) : replaceFirst p t l = l := by
  induction l with
  | nil => rfl
  | cons s rest ih =>
    simp only [List.any_cons, Bool.or_eq_false_iff] at h
    simp [replaceFirst, h.1, ih h.2]

theorem any_of_find? (p : Sender → Bool) (l : List Sender) (a : Sender)
    (h : l.find? p = some a) : l.any p = true := by
  rw [List.any_eq_true]
  exact ⟨a, List.mem_of_find?_eq_some h, List.find?_some h⟩

theorem find?_replaceFirst_self (p : Sender → Bool) (t : Track) (l : List Sender)
    (hany : l.any p = true) (hp : p { track := some t } = true) :
    (replaceFirst p t l).find? p = some { track := some t } := by
  induction l with
  | nil => simp at hany
  | cons s rest ih =>
    by_cases hs : p s = true
    · simp [replaceFirst, hs, List.find?, hp]
    · have hrest : rest.any p = true := by simpa [List.any_cons, hs] using hany
      simp [replaceFirst, hs, List.find?, ih hrest]

theorem find?_replaceFirst_other (p q : Sender → Bool) (t : Track) (l : List Sender)
    (hq : ∀ s, q s = true → p s = false) (hp : p { track := some t } = false) :
    (replaceFirst q t l).find? p = l.find? p := by
  induction l with
  | nil => rfl
  | cons s rest ih =>
    by_cases hs : q s = true
    · simp [replaceFirst, hs, List.find?, hp, hq s hs]
    · by_cases hps : p s = true
      · simp [replaceFirst, hs, List.find?, hps]
      · simp [replaceFirst, hs, List.find?, hps, ih]

theorem replaceFirst_congr (p q : Sender → Bool) (t : Track) (l : List Sender) (a : Sender)
    (hf : l.find? p = some a) (hqa : q a = true) (hqp : ∀ s, q s = true → p s = true) :
    replaceFirst q t l = replaceFirst p t l := by
  induction l with
  | nil => rfl
  | cons s rest ih =>
    by_cases hs : p s = true
    · have hsa : s = a := by simpa [List.find?, hs] using hf
      subst hsa
      simp [replaceFirst, hs, hqa]
    · have hqs : ¬ q s = true := fun h => hs (hqp s h)
      have hrest : rest.find? p = some a := by simpa [List.find?, hs] using hf
      simp [replaceFirst, hs, hqs, ih hrest]

theorem replaceFirst_replaceFirst (p : Sender → Bool) (t t' : Track) (l : List Sender)
    (hf : l.find? p = some { track := some t' }) (hp : p { track := some t } = true) :
    replaceFirst p t' (replaceFirst p t l) = l := by
  induction l with
  | nil => rfl
  | cons s rest ih =>
    by_cases hs : p s = true
    · have hsa : s = { track := some t' } := by simpa [List.find?, hs] using hf
      subst hsa
      simp [replaceFirst, hs, hp]
    · have hrest : rest.find? p = some { track := some t' } := by
        simpa [List.find?, hs] using hf
      simp [replaceFirst, hs, ih hrest]

theorem find?_append_of_some (p : Sender → Bool) (l : List Sender) (x a : Sender)
    (h : l.find? p = some a) : (l ++ [x]).find? p = some a := by
  rw [List.find?_append, h]
  rfl

theorem jsGet_forEachLink (callback : Link → Link) (links : List (SocketId × Link))
    (k : SocketId) : jsGet (forEachLink callback links) k = (jsGet links k).map callback := by
  induction links with
  | nil => rfl
  | cons e rest ih =>
    obtain ⟨k₀, v₀⟩ := e
    by_cases hk : k₀ = k
    · simp [forEachLink, jsGet, hk]
    · have ih' : jsGet (List.map (fun e => (e.1, callback e.2)) rest) k
          = (jsGet rest k).map callback := ih
      simp [forEachLink, jsGet, hk, ih']

theorem forOfLinks_total (body : Link → Option Link) (f : Link → Link)
    (h : ∀ pc, body pc = some (f pc)) (links : List (SocketId × Link)) :
    forOfLinks body links = (forEachLink f links, true) := by
  induction links with
  | nil => rfl
  | cons e rest ih =>
    obtain ⟨k₀, v₀⟩ := e
    simp only [forOfLinks, h, ih]
    rfl

theorem kind_of_head_video (stream : List Track) (t : Track)
    (h : (getVideoTracks stream).head? = some t) :
    t.kind = "video" ∧ t ∈ getVideoTracks stream := by
  have hmem : t ∈ getVideoTracks stream := List.mem_of_mem_head? h
  have := hmem
  simp only [getVideoTracks, List.mem_filter, decide_eq_true_eq] at this
  exact ⟨this.2, hmem⟩

theorem kind_of_head_audio (stream : List Track) (t : Track)
    (h : (getAudioTracks stream).head? = some t) : t.kind = "audio" := by
  have hmem : t ∈ getAudioTracks stream := List.mem_of_mem_head? h
  simp only [getAudioTracks, List.mem_filter, decide_eq_true_eq] at hmem
  exact hmem.2

theorem sends_video_of_audio (t : Track) (h : t.kind = "audio") :
    Sender.sends { track := some t } "video" = false := by
  simp [Sender.sends, h]

theorem not_video_of_sends_audio (s : Sender) (h : s.sends "audio" = true) :
    s.sends "video" = false := by
  cases hs : s.track with
  | none => simp [Sender.sends, hs]
  | some t =>
    simp only [Sender.sends, hs, decide_eq_true_eq] at h
    simp [Sender.sends, hs, h]

namespace EnhancedWebRTCManager

theorem shareVideoOn_camera (br : Browser) (sv camera : Track) (pc : Link)
    (hsend : pc.videoSender = some { track := some camera }) (hne : sv.tid ≠ camera.tid)
    (hok : br.replaceTrackOk = true) :
    shareVideoOn br sv pc
      = { pc with senders := replaceFirst (fun s => s.sends "video") sv pc.senders } := by
  have hsend' : pc.senders.find? (fun s => s.sends "video") = some { track := some camera } :=
    hsend
  have hcamv : Sender.sends { track := some camera } "video" = true := by
    simpa using List.find?_some hsend'
  have hqa : isOtherVideo sv { track := some camera } = true := by
    simp only [Sender.sends, decide_eq_true_eq] at hcamv
    have hne' : ¬ camera.tid = sv.tid := fun h => hne h.symm
    simp [isOtherVideo, hcamv, hne']
  have hqp : ∀ s, isOtherVideo sv s = true → s.sends "video" = true := by
    intro s hs
    cases hst : s.track with
    | none => simp [isOtherVideo, hst] at hs
    | some t =>
      simp only [isOtherVideo, hst, Bool.and_eq_true, decide_eq_true_eq] at hs
      simp [Sender.sends, hst, hs.1]
  have hany : pc.senders.any (isOtherVideo sv) = true := by
    rw [List.any_eq_true]
    exact ⟨_, List.mem_of_find?_eq_some hsend, hqa⟩
  unfold shareVideoOn
  simp only [hany, hok, if_true]
  rw [replaceFirst_congr (fun s => s.sends "video") (isOtherVideo sv) sv pc.senders _ hsend
    hqa hqp]

theorem unshareOn_screen (br : Browser) (ls stream : List Track) (sv camera : Track)
    (pc : Link) (hsend : pc.videoSender = some { track := some sv })
    (hsv : (getVideoTracks stream).head? = some sv)
    (hcam : (getVideoTracks ls).head? = some camera) (hok : br.replaceTrackOk = true) :
    unshareOn br (some ls) stream pc
      = { pc with senders := replaceFirst (fun s => s.sends "video") camera pc.senders } := by
  have hk := kind_of_head_video stream sv hsv
  have hqa : carriesOneOf "video" (getVideoTracks stream) { track := some sv } = true := by
    simp only [carriesOneOf, Bool.and_eq_true, decide_eq_true_eq, List.any_eq_true]
    exact ⟨hk.1, sv, hk.2, rfl⟩
  have hqp : ∀ s, carriesOneOf "video" (getVideoTracks stream) s = true →
      s.sends "video" = true := by
    intro s hs
    cases hst : s.track with
    | none => simp [carriesOneOf, hst] at hs
    | some t =>
      simp only [carriesOneOf, hst, Bool.and_eq_true, decide_eq_true_eq] at hs
      simp [Sender.sends, hst, hs.1]
  have hany : pc.senders.any (carriesOneOf "video" (getVideoTracks stream)) = true := by
    rw [List.any_eq_true]
    exact ⟨_, List.mem_of_find?_eq_some hsend, hqa⟩
  unfold unshareOn
  simp only [hany, hcam, hok, if_true]
  rw [replaceFirst_congr (fun s => s.sends "video")
    (carriesOneOf "video" (getVideoTracks stream)) camera pc.senders _ hsend hqa hqp]

theorem host_round_trip (br br' : Browser) (m : EnhancedWebRTCManager) (r : SocketId)
    (pc : Link) (ls stream : List Track) (camera sv : Track)
    (hpc : jsGet m.peerConnections r = some pc) (hls : m.localStream = some ls)
    (hcam : (getVideoTracks ls).head? = some camera)
    (hsend : pc.videoSender = some { track := some camera })
    (hdisp : br.displayMedia = some stream)
    (hsv : (getVideoTracks stream).head? = some sv) (hne : sv.tid ≠ camera.tid)
    (hok : br.replaceTrackOk = true) (hok' : br'.replaceTrackOk = true) :
    ∃ pc', jsGet (stopScreenShare br' (startScreenShare br m).1).peerConnections r = some pc' ∧
      RoundTrip pc pc' camera stream ∧
      (stopScreenShare br' (startScreenShare br m).1).closedLinks = m.closedLinks ∧
      (getAudioTracks stream = [] → pc' = pc) := by
  have hsvk := (kind_of_head_video stream sv hsv).1
  have hcamk := (kind_of_head_video ls camera hcam).1
  have hsvv : Sender.sends { track := some sv } "video" = true := by
    simp [Sender.sends, hsvk]
  have hcamv : Sender.sends { track := some camera } "video" = true := by
    simp [Sender.sends, hcamk]
  have hany : pc.senders.any (fun s => s.sends "video") = true :=
    any_of_find? _ _ _ hsend
  have hf1 : (replaceFirst (fun s => s.sends "video") sv pc.senders).find?
      (fun s => s.sends "video") = some { track := some sv } :=
    find?_replaceFirst_self _ sv pc.senders hany hsvv
  have hshare := shareVideoOn_camera br sv camera pc hsend hne hok
  cases haud : (getAudioTracks stream).head? with
  | none =>
    have hun := unshareOn_screen br' ls stream sv camera
      { pc with senders := replaceFirst (fun s => s.sends "video") sv pc.senders } hf1 hsv hcam
      hok'
    refine ⟨unshareOn br' (some ls) stream (shareVideoOn br sv pc), ?_, ?_, ?_, ?_⟩
    · simp only [startScreenShare, hdisp, hsv, haud, stopScreenShare, hls, jsGet_forEachLink,
        hpc, Option.map_some']
    · rw [hshare, hun]
      refine ⟨rfl, ?_, fun _ => ⟨rfl, ?_⟩⟩
      · exact find?_replaceFirst_self _ camera _ (any_of_find? _ _ _ hf1) hcamv
      · simp only [replaceFirst_length]
    · simp only [startScreenShare, hdisp, hsv, haud, stopScreenShare]
    · intro _
      rw [hshare, hun]
      simp only [replaceFirst_replaceFirst _ sv camera pc.senders hsend hsvv]
  | some a =>
    have hne_nil : getAudioTracks stream ≠ [] := by
      intro hnil
      rw [hnil] at haud
      cases haud
    cases hadd : br.addTrackOk with
    | false =>
      have hun := unshareOn_screen br' ls stream sv camera
        { pc with senders := replaceFirst (fun s => s.sends "video") sv pc.senders } hf1 hsv
        hcam hok'
      refine ⟨unshareOn br' (some ls) stream (shareVideoOn br sv pc), ?_, ?_, ?_, ?_⟩
      · simp only [startScreenShare, hdisp, hsv, haud, stopScreenShare, hls, jsGet_forEachLink,
          hpc, Option.map_some', hadd, Bool.false_eq_true, if_false]
      · rw [hshare, hun]
        refine ⟨rfl, ?_, fun h => absurd h hne_nil⟩
        exact find?_replaceFirst_self _ camera _ (any_of_find? _ _ _ hf1) hcamv
      · simp only [startScreenShare, hdisp, hsv, haud, stopScreenShare]
      · exact fun h => absurd h hne_nil
    | true =>
      have hf2 : (Link.addTrack
          { pc with senders := replaceFirst (fun s => s.sends "video") sv pc.senders }
          a).videoSender = some { track := some sv } :=
        find?_append_of_some _ _ _ _ hf1
      have hun := unshareOn_screen br' ls stream sv camera _ hf2 hsv hcam hok'
      refine ⟨unshareOn br' (some ls) stream ((shareVideoOn br sv pc).addTrack a), ?_, ?_, ?_, ?_⟩
      · simp only [startScreenShare, hdisp, hsv, haud, stopScreenShare, hls, jsGet_forEachLink,
          hpc, Option.map_some', hadd, if_true]
      · rw [hshare, hun]
        refine ⟨rfl, ?_, fun h => absurd h hne_nil⟩
        exact find?_replaceFirst_self _ camera _ (any_of_find? _ _ _ hf2) hcamv
      · simp only [startScreenShare, hdisp, hsv, haud, stopScreenShare]
      · exact fun h => absurd h hne_nil

end EnhancedWebRTCManager

namespace ScreenShareManager

theorem replaceKind_ok (br : Browser) (kind : String) (t : Track) (pc : Link)
    (hok : br.replaceTrackOk = true) :
    replaceKind br kind (some t) pc
      = some { pc with senders := replaceFirst (fun s => s.sends kind) t pc.senders } := by
  unfold replaceKind
  by_cases h : pc.senders.any (fun s => s.sends kind) = true
  · simp only [h, hok, if_true]
  · have hnone : pc.senders.any (fun s => s.sends kind) = false := by simpa using h
    simp only [hnone, Bool.false_eq_true, if_false,
      replaceFirst_of_not_any _ t pc.senders hnone]

theorem shareAudioOn_ok (br : Browser) (t : Track) (pc : Link)
    (hok : br.replaceTrackOk = true) (hadd : br.addTrackOk = true) :
    shareAudioOn br t pc
      = some (if pc.senders.any (fun s => s.sends "audio") then
          { pc with senders := replaceFirst (fun s => s.sends "audio") t pc.senders }
        else pc.addTrack t) := by
  unfold shareAudioOn
  by_cases h : pc.senders.any (fun s => s.sends "audio") = true
  · simp only [h, if_true, replaceKind_ok br "audio" t pc hok]
  · simp only [h, hadd, Bool.false_eq_true, if_false, if_true]

theorem audio_replace_keeps (t : Track) (ht : t.kind = "audio") (pc : Link) (a : Sender)
    (h : pc.videoSender = some a) :
    Link.videoSender { pc with senders := replaceFirst (fun s => s.sends "audio") t pc.senders }
      = some a := by
  have := find?_replaceFirst_other (fun s => s.sends "video") (fun s => s.sends "audio") t
    pc.senders (fun s hs => not_video_of_sends_audio s hs) (sends_video_of_audio t ht)
  exact this.trans h

/-- What the audio part of `startScreenShare` does to one link when no call throws. -/
theorem start_ok (br : Browser) (w : WebRTCConnectionManager) (stream : List Track)
    (sv : Track) (hdisp : br.displayMedia = some stream)
    (hsv : (getVideoTracks stream).head? = some sv)
    (hok : br.replaceTrackOk = true) (hadd : br.addTrackOk = true) :
    ∃ g : Link → Link,
      (startScreenShare br w).1.peerConnections
        = forEachLink g (forEachLink
            (fun pc => { pc with senders := replaceFirst (fun s => s.sends "video") sv pc.senders })
            w.peerConnections) ∧
      (startScreenShare br w).1.localStream = w.localStream ∧
      (startScreenShare br w).1.originalMicrophoneTrack = w.originalMicrophoneTrack ∧
      (startScreenShare br w).1.closedLinks = w.closedLinks ∧
      (∀ pc a, pc.videoSender = some a → (g pc).lid = pc.lid ∧ (g pc).videoSender = some a) ∧
      (getAudioTracks stream = [] → ∀ pc, g pc = pc) := by
  have hvideo := forOfLinks_total (replaceKind br "video" (some sv)) _
    (fun pc => replaceKind_ok br "video" sv pc hok) w.peerConnections
  have hid : ∀ links : List (SocketId × Link), links = forEachLink (fun pc => pc) links := by
    intro links
    simp [forEachLink]
  have haudio := fun (t : Track) (links : List (SocketId × Link)) =>
    forOfLinks_total (shareAudioOn br t) _ (fun pc => shareAudioOn_ok br t pc hok hadd) links
  have hkeep : ∀ t : Track, t.kind = "audio" → ∀ (pc : Link) (a : Sender),
      pc.videoSender = some a →
      (if pc.senders.any (fun s => s.sends "audio") then
          { pc with senders := replaceFirst (fun s => s.sends "audio") t pc.senders }
        else pc.addTrack t).lid = pc.lid ∧
      (if pc.senders.any (fun s => s.sends "audio") then
          { pc with senders := replaceFirst (fun s => s.sends "audio") t pc.senders }
        else pc.addTrack t).videoSender = some a := by
    intro t ht pc a ha
    by_cases h : pc.senders.any (fun s => s.sends "audio") = true
    · rw [if_pos h]
      exact ⟨rfl, audio_replace_keeps t ht pc a ha⟩
    · rw [if_neg h]
      exact ⟨rfl, find?_append_of_some _ _ _ _ ha⟩
  cases haud : (getAudioTracks stream).head? with
  | none =>
    refine ⟨fun pc => pc, ?_, ?_, ?_, ?_, fun pc a ha => ⟨rfl, ha⟩, fun _ _ => rfl⟩
    · simp only [startScreenShare, hdisp, hsv, hvideo, haud, Bool.not_true, Bool.false_eq_true,
        if_false]
      exact hid _
    · simp only [startScreenShare, hdisp, hsv, hvideo, haud, Bool.not_true, Bool.false_eq_true,
        if_false]
    · simp only [startScreenShare, hdisp, hsv, hvideo, haud, Bool.not_true, Bool.false_eq_true,
        if_false]
    · simp only [startScreenShare, hdisp, hsv, hvideo, haud, Bool.not_true, Bool.false_eq_true,
        if_false]
  | some systemAudioTrack =>
    have hne_nil : getAudioTracks stream ≠ [] := by
      intro hnil
      rw [hnil] at haud
      cases haud
    have hsys := kind_of_head_audio stream systemAudioTrack haud
    cases hcomb : br.combinedAudio with
    | none =>
      refine ⟨_, ?_, ?_, ?_, ?_, hkeep systemAudioTrack hsys, fun h => absurd h hne_nil⟩
      · simp only [startScreenShare, hdisp, hsv, hvideo, haud, hcomb, haudio, Bool.not_true,
          Bool.false_eq_true, if_false]
      · simp only [startScreenShare, hdisp, hsv, hvideo, haud, hcomb, haudio, Bool.not_true,
          Bool.false_eq_true, if_false]
      · simp only [startScreenShare, hdisp, hsv, hvideo, haud, hcomb, haudio, Bool.not_true,
          Bool.false_eq_true, if_false]
      · simp only [startScreenShare, hdisp, hsv, hvideo, haud, hcomb, haudio, Bool.not_true,
          Bool.false_eq_true, if_false]
    | some combinedAudioStream =>
      cases hct : (getAudioTracks combinedAudioStream).head? with
      | none =>
        refine ⟨fun pc => pc, ?_, ?_, ?_, ?_, fun pc a ha => ⟨rfl, ha⟩, fun _ _ => rfl⟩
        · simp only [startScreenShare, hdisp, hsv, hvideo, haud, hcomb, hct, Bool.not_true,
            Bool.false_eq_true, if_false]
          exact hid _
        · simp only [startScreenShare, hdisp, hsv, hvideo, haud, hcomb, hct, Bool.not_true,
            Bool.false_eq_true, if_false]
        · simp only [startScreenShare, hdisp, hsv, hvideo, haud, hcomb, hct, Bool.not_true,
            Bool.false_eq_true, if_false]
        · simp only [startScreenShare, hdisp, hsv, hvideo, haud, hcomb, hct, Bool.not_true,
            Bool.false_eq_true, if_false]
      | some combinedAudioTrack =>
        have hck := kind_of_head_audio combinedAudioStream combinedAudioTrack hct
        refine ⟨_, ?_, ?_, ?_, ?_, hkeep combinedAudioTrack hck, fun h => absurd h hne_nil⟩
        · simp only [startScreenShare, hdisp, hsv, hvideo, haud, hcomb, hct, haudio,
            Bool.not_true, Bool.false_eq_true, if_false]
        · simp only [startScreenShare, hdisp, hsv, hvideo, haud, hcomb, hct, haudio,
            Bool.not_true, Bool.false_eq_true, if_false]
        · simp only [startScreenShare, hdisp, hsv, hvideo, haud, hcomb, hct, haudio,
            Bool.not_true, Bool.false_eq_true, if_false]
        · simp only [startScreenShare, hdisp, hsv, hvideo, haud, hcomb, hct, haudio,
            Bool.not_true, Bool.false_eq_true, if_false]

/-- What `stopScreenShare` does to one link when no call throws. -/
theorem stop_ok (br : Browser) (w : WebRTCConnectionManager) (ls : List Track)
    (camera : Track) (hls : w.localStream = some ls)
    (hcam : (getVideoTracks ls).head? = some camera)
    (hmic : ∀ t, w.originalMicrophoneTrack = some t → t.kind = "audio")
    (hok : br.replaceTrackOk = true) :
    ∃ h : Link → Link,
      (stopScreenShare br w).1.peerConnections = forEachLink h w.peerConnections ∧
      (stopScreenShare br w).1.closedLinks = w.closedLinks ∧
      ∀ pc a, pc.videoSender = some a →
        (h pc).lid = pc.lid ∧ (h pc).videoSender = some { track := some camera } ∧
        (h pc).trackOps = pc.trackOps ∧ (h pc).senders.length = pc.senders.length := by
  have hcamk := (kind_of_head_video ls camera hcam).1
  have hcamv : Sender.sends { track := some camera } "video" = true := by
    simp [Sender.sends, hcamk]
  -- the body of the loop with an audio track to restore, and without one
  have hwith : ∀ (a : Track) (pc : Link),
      (match replaceKind br "video" (some camera) pc with
        | none => none
        | some pc' => replaceKind br "audio" (some a) pc')
      = some { pc with senders := (replaceFirst (fun s => s.sends "audio") a
          (replaceFirst (fun s => s.sends "video") camera pc.senders)) } := by
    intro a pc
    rw [replaceKind_ok br "video" camera pc hok]
    exact replaceKind_ok br "audio" a _ hok
  have hwithout : ∀ (pc : Link),
      (match replaceKind br "video" (some camera) pc with
        | none => none
        | some pc' => replaceKind br "audio" none pc')
      = some { pc with senders := replaceFirst (fun s => s.sends "video") camera pc.senders } := by
    intro pc
    rw [replaceKind_ok br "video" camera pc hok]
    rfl
  have hvideo : ∀ (pc : Link) (a : Sender), pc.videoSender = some a →
      (replaceFirst (fun s => s.sends "video") camera pc.senders).find?
        (fun s => s.sends "video") = some { track := some camera } :=
    fun pc a ha => find?_replaceFirst_self _ camera pc.senders (any_of_find? _ _ _ ha) hcamv
  have hkeepWith : ∀ (t : Track), t.kind = "audio" → ∀ (pc : Link) (a : Sender),
      pc.videoSender = some a →
      Link.videoSender { pc with senders := (replaceFirst (fun s => s.sends "audio") t
          (replaceFirst (fun s => s.sends "video") camera pc.senders)) }
        = some { track := some camera } := by
    intro t ht pc a ha
    exact audio_replace_keeps t ht
      { pc with senders := replaceFirst (fun s => s.sends "video") camera pc.senders } _
      (hvideo pc a ha)
  cases hm : w.originalMicrophoneTrack with
  | some t =>
    have ht := hmic t hm
    have hloop := forOfLinks_total _ _ (hwith t) w.peerConnections
    refine ⟨(fun pc : Link => { pc with senders := (replaceFirst (fun s => s.sends "audio") t
        (replaceFirst (fun s => s.sends "video") camera pc.senders)) }),
        ?_, ?_, fun pc a ha => ⟨rfl, hkeepWith t ht pc a ha, rfl, ?_⟩⟩
    · simp only [stopScreenShare, hls, hcam, hm, hloop, if_true]
    · simp only [stopScreenShare, hls, hcam, hm, hloop, if_true]
    · simp only [replaceFirst_length]
  | none =>
    cases hla : (getAudioTracks ls).head? with
    | some t =>
      have ht := kind_of_head_audio ls t hla
      have hloop := forOfLinks_total _ _ (hwith t) w.peerConnections
      refine ⟨(fun pc : Link => { pc with senders := (replaceFirst (fun s => s.sends "audio") t
        (replaceFirst (fun s => s.sends "video") camera pc.senders)) }),
        ?_, ?_, fun pc a ha => ⟨rfl, hkeepWith t ht pc a ha, rfl, ?_⟩⟩
      · simp only [stopScreenShare, hls, hcam, hm, hla, hloop, if_true]
      · simp only [stopScreenShare, hls, hcam, hm, hla, hloop, if_true]
      · simp only [replaceFirst_length]
    | none =>
      have hloop := forOfLinks_total _ _ hwithout w.peerConnections
      refine ⟨(fun pc : Link =>
        { pc with senders := replaceFirst (fun s => s.sends "video") camera pc.senders }),
        ?_, ?_, fun pc a ha => ⟨rfl, hvideo pc a ha, rfl, ?_⟩⟩
      · simp only [stopScreenShare, hls, hcam, hm, hla, hloop, if_true]
      · simp only [stopScreenShare, hls, hcam, hm, hla, hloop, if_true]
      · simp only [replaceFirst_length]

theorem participant_round_trip (br br' : Browser) (w : WebRTCConnectionManager) (r : SocketId)
    (pc : Link) (ls stream : List Track) (camera sv : Track)
    (hpc : jsGet w.peerConnections r = some pc) (hls : w.localStream = some ls)
    (hcam : (getVideoTracks ls).head? = some camera)
    (hmic : ∀ t, w.originalMicrophoneTrack = some t → t.kind = "audio")
    (hsend : pc.videoSender = some { track := some camera })
    (hdisp : br.displayMedia = some stream)
    (hsv : (getVideoTracks stream).head? = some sv)
    (hok : br.replaceTrackOk = true) (hadd : br.addTrackOk = true)
    (hok' : br'.replaceTrackOk = true) :
    ∃ pc', jsGet (stopScreenShare br' (startScreenShare br w).1).1.peerConnections r
        = some pc' ∧
      RoundTrip pc pc' camera stream ∧
      (stopScreenShare br' (startScreenShare br w).1).1.closedLinks = w.closedLinks := by
  obtain ⟨g, hg, hls1, hmic1, hcl1, hgkeep, hgid⟩ := start_ok br w stream sv hdisp hsv hok hadd
  obtain ⟨h, hh, hcl2, hhkeep⟩ := stop_ok br' (startScreenShare br w).1 ls camera
    (hls1.trans hls) hcam (fun t ht => hmic t (hmic1 ▸ ht)) hok'
  have hsvk := (kind_of_head_video stream sv hsv).1
  have hsvv : Sender.sends { track := some sv } "video" = true := by
    simp [Sender.sends, hsvk]
  have hf1 : Link.videoSender
      { pc with senders := replaceFirst (fun s => s.sends "video") sv pc.senders }
      = some { track := some sv } :=
    find?_replaceFirst_self _ sv pc.senders (any_of_find? _ _ _ hsend) hsvv
  have hg1 := hgkeep _ _ hf1
  have hh1 := hhkeep _ _ hg1.2
  refine ⟨h (g { pc with senders := replaceFirst (fun s => s.sends "video") sv pc.senders }),
    ?_, ⟨?_, hh1.2.1, ?_⟩, hcl2.trans hcl1⟩
  · rw [hh, hg, jsGet_forEachLink, jsGet_forEachLink, jsGet_forEachLink, hpc]
    rfl
  · rw [hh1.1, hg1.1]
  · intro hvo
    rw [hh1.2.2.1, hh1.2.2.2, hgid hvo]
    exact ⟨rfl, replaceFirst_length _ _ _⟩

end ScreenShareManager

/-- C21: on the host and on the participant side, for every link whose video sender carries
the camera track, a start of the screen share followed by a stop leaves the same link object
stored for the peer (same identity, nothing closed), with its video sender carrying the camera
track again; when the capture has no audio track, the link has seen no `addTrack` and no
`removeTrack` and has as many senders as before (on the host it is the link it was). The
browser calls are taken to return: `getDisplayMedia` yields a stream with a video track that is
not the camera track, and `replaceTrack` (for the participant also `addTrack`) does not
throw. -/
theorem C21_track_replace_round_trip :
    (∀ (br br' : Browser) (m : EnhancedWebRTCManager) (r : SocketId) (pc : Link)
        (ls stream : List Track) (camera sv : Track),
      jsGet m.peerConnections r = some pc → m.localStream = some ls →
      (getVideoTracks ls).head? = some camera →
      pc.videoSender = some { track := some camera } →
      br.displayMedia = some stream → (getVideoTracks stream).head? = some sv →
      sv.tid ≠ camera.tid → br.replaceTrackOk = true → br'.replaceTrackOk = true →
      ∃ pc', jsGet (EnhancedWebRTCManager.stopScreenShare br'
            (EnhancedWebRTCManager.startScreenShare br m).1).peerConnections r = some pc' ∧
        RoundTrip pc pc' camera stream ∧
        (EnhancedWebRTCManager.stopScreenShare br'
            (EnhancedWebRTCManager.startScreenShare br m).1).closedLinks = m.closedLinks ∧
        (getAudioTracks stream = [] → pc' = pc)) ∧
    (∀ (br br' : Browser) (w : WebRTCConnectionManager) (r : SocketId) (pc : Link)
        (ls stream : List Track) (camera sv : Track),
      jsGet w.peerConnections r = some pc → w.localStream = some ls →
      (getVideoTracks ls).head? = some camera →
      (∀ t, w.originalMicrophoneTrack = some t → t.kind = "audio") →
      pc.videoSender = some { track := some camera } →
      br.displayMedia = some stream → (getVideoTracks stream).head? = some sv →
      br.replaceTrackOk = true → br.addTrackOk = true → br'.replaceTrackOk = true →
      ∃ pc', jsGet (ScreenShareManager.stopScreenShare br'
            (ScreenShareManager.startScreenShare br w).1).1.peerConnections r = some pc' ∧
        RoundTrip pc pc' camera stream ∧
        (ScreenShareManager.stopScreenShare br'
            (ScreenShareManager.startScreenShare br w).1).1.closedLinks = w.closedLinks) :=
  ⟨fun br br' m r pc ls stream camera sv hpc hls hcam hsend hdisp hsv hne hok hok' =>
      EnhancedWebRTCManager.host_round_trip br br' m r pc ls stream camera sv hpc hls hcam hsend
        hdisp hsv hne hok hok',
    fun br br' w r pc ls stream camera sv hpc hls hcam hmic hsend hdisp hsv hok hadd hok' =>
      ScreenShareManager.participant_round_trip br br' w r pc ls stream camera sv hpc hls hcam
        hmic hsend hdisp hsv hok hadd hok'⟩

theorem C21_track_replace_round_trip_witness :
    (∃ pc', jsGet (EnhancedWebRTCManager.stopScreenShare capturing
          (EnhancedWebRTCManager.startScreenShare capturing hostOnCamera).1).peerConnections "B"
        = some pc' ∧
      RoundTrip cameraLink pc' cameraTrack [screenTrack] ∧
      (EnhancedWebRTCManager.stopScreenShare capturing
          (EnhancedWebRTCManager.startScreenShare capturing hostOnCamera).1).closedLinks
        = hostOnCamera.closedLinks ∧
      (getAudioTracks [screenTrack] = [] → pc' = cameraLink)) ∧
    (∃ pc', jsGet (ScreenShareManager.stopScreenShare capturing
          (ScreenShareManager.startScreenShare capturing participantOnCamera).1
          ).1.peerConnections "H" = some pc' ∧
      RoundTrip cameraLink pc' cameraTrack [screenTrack] ∧
      (ScreenShareManager.stopScreenShare capturing
          (ScreenShareManager.startScreenShare capturing participantOnCamera).1).1.closedLinks
        = participantOnCamera.closedLinks) :=
  ⟨C21_track_replace_round_trip.1 capturing capturing hostOnCamera "B" cameraLink
      [microphoneTrack, cameraTrack] [screenTrack] cameraTrack screenTrack
      (by decide) (by decide) (by decide) (by decide) rfl (by decide) (by decide) rfl rfl,
    C21_track_replace_round_trip.2 capturing capturing participantOnCamera "H" cameraLink
      [microphoneTrack, cameraTrack] [screenTrack] cameraTrack screenTrack
      (by decide) (by decide) (by decide) (by decide) (by decide) rfl (by decide) rfl rfl rfl⟩

/-! ## Screen sharing: the capture ends on its own -/

/-- C22: on the host, the `onended` handler of the screen track does what a click on the
active share button does: the stop path runs and `stop-screen-share` is emitted. On the
participant side the handler runs the stop path (sharing flag false, screen stream released)
and emits nothing, and the button keeps its active mark, whereas a click on the active button
emits `stop-screen-share`. -/
theorem C22_participant_external_stop_silent :
    (∀ br m, EnhancedWebRTCManager.onended br m = HostMeeting.toggleScreenShare br true m) ∧
    EnhancedWebRTCManager.onended capturing hostSharing
      = (hostOnCamera, false, [toRelay "stop-screen-share"]) ∧
    (∀ br isActive w, (ScreenShareManager.onended br isActive w).2.2 = []) ∧
    ScreenShareManager.onended capturing true participantSharing
      = (participantOnCamera, true, []) ∧
    ParticipantMeeting.toggleScreenShare capturing true participantSharing
      = (participantOnCamera, false, [toRelay "stop-screen-share"]) ∧
    participantSharing.isScreenSharing = true ∧
    participantOnCamera.isScreenSharing = false ∧ participantOnCamera.screenStream = none :=
  ⟨fun _ _ => rfl, by decide, fun _ _ _ => rfl, by decide, by decide, by decide, by decide,
    by decide⟩

end Relay
